import Mathlib

/-!
Verification of the crossword-generator core (word selection, placement
validation, the randomized placement loop, trimming and the multi-attempt
optimizer) against its natural-language specification.

The TypeScript source is shallowly embedded: JS strings become `List Char`,
grid cells become an explicit three-valued type (letter / `null` /
`undefined`), JS numbers that can go negative become `Int`, the process-wide
`Math.random()` source becomes an explicit stream `Nat → Nat` threaded through
every function (each `Math.floor(Math.random() * m)` is modelled as drawing
the next stream value modulo `m`), JS exceptions become `Except Unit`, and the
floating-point quality score is computed in `ℚ` (exact arithmetic; the claims
proved do not depend on which of several attempts wins a score comparison).
-/

namespace Crossword

set_option maxRecDepth 8192

/-- A cell of the crossword grid: a letter, JS `null` (an empty cell), or JS
`undefined` (the value seen when reading past a row's length, and the value
pushed by `trimGrid` on ragged rows). -/
inductive Cell : Type where
  | letter (c : Char)
  | empty
  | undef
deriving DecidableEq, Repr

/-- `CrosswordGrid`: a list of rows. Rows can become ragged: a JS write past
the end of a row extends it. -/
abbrev Grid := List (List Cell)

/-- `Direction` from `src/types.ts`. -/
inductive Direction : Type where
  | horizontal
  | vertical
deriving DecidableEq, Repr

/-- A JS string, as a list of characters. -/
abbrev Word := List Char

/-- `word.toUpperCase()`. -/
def upper (w : Word) : Word := w.map Char.toUpper

/-- `PlacedWord` from `src/types.ts`. Coordinates are `Int` because JS numbers
can be negative here (an empty word has `endCol = startCol - 1`). -/
structure PlacedWord : Type where
  word : Word
  startRow : Int
  startCol : Int
  direction : Direction
  endRow : Int
  endCol : Int
deriving DecidableEq, Repr

/-- `validationLevel` values. -/
inductive Level : Type where
  | strict
  | normal
  | lenient
deriving DecidableEq, Repr

/-- `CrosswordOptions` from `src/types.ts`: every field optional. Numeric
fields are modelled as naturals. -/
structure CrosswordOptions : Type where
  wordCount : Option Nat := none
  maxAttempts : Option Nat := none
  maxGridSize : Option Nat := none
  validationLevel : Option Level := none
  minWordLength : Option Nat := none
  maxWordLength : Option Nat := none
deriving DecidableEq, Repr

/-- The fully-resolved options record `Required<CrosswordOptions>`. -/
structure Config : Type where
  wordCount : Nat
  maxAttempts : Nat
  maxGridSize : Nat
  validationLevel : Level
  minWordLength : Nat
  maxWordLength : Nat
deriving DecidableEq, Repr

/-- `const config = { ...DEFAULT_OPTIONS, ...options }` followed by
`config.maxWordLength = Math.min(config.maxWordLength, config.maxGridSize)`
(`src/generator.ts`, `generateCrossword`). -/
def resolveConfig (o : CrosswordOptions) : Config :=
  let mg := o.maxGridSize.getD 15
  { wordCount := o.wordCount.getD 10
    maxAttempts := o.maxAttempts.getD 1000
    maxGridSize := mg
    validationLevel := o.validationLevel.getD Level.normal
    minWordLength := o.minWordLength.getD 3
    maxWordLength := min (o.maxWordLength.getD 15) mg }

/-- A resolved config viewed as an options record (all fields present), as
when `generateCrossword` passes `config` on to `selectRandomWords`. -/
def Config.toOptions (c : Config) : CrosswordOptions :=
  { wordCount := some c.wordCount
    maxAttempts := some c.maxAttempts
    maxGridSize := some c.maxGridSize
    validationLevel := some c.validationLevel
    minWordLength := some c.minWordLength
    maxWordLength := some c.maxWordLength }

/-- The pseudo-random source: `σ n` is the value backing the `n`-th call to
`Math.random()`. -/
abbrev Rand := Nat → Nat

/-- Models `Math.floor(Math.random() * m)` for a nonnegative integer `m`:
an arbitrary value in `[0, m)` (and `0` when `m = 0`), plus the advanced
stream. Every run of the JS code corresponds to some stream and conversely. -/
def draw (σ : Rand) (m : Nat) : Nat × Rand :=
  (if m = 0 then 0 else σ 0 % m, fun n => σ (n + 1))

/-- JS `x || d` on an optional number: `undefined` and `0` are falsy. -/
def jsOrNat (x : Option Nat) (d : Nat) : Nat :=
  match x with
  | some v => if v = 0 then d else v
  | none => d

/-- The swap `[a[i], a[j]] = [a[j], a[i]]` (identity when out of range; the
source only swaps in-range indices). -/
def swapL {α : Type} (l : List α) (i j : Nat) : List α :=
  match l.get? i, l.get? j with
  | some a, some b => (l.set i b).set j a
  | _, _ => l

/-- The Fisher–Yates loop of `shuffleArray`: `for (i = n-1; i > 0; i--)`
with `j = Math.floor(Math.random() * (i + 1))`. -/
def shuffleGo {α : Type} (l : List α) (i : Nat) (σ : Rand) : List α × Rand :=
  match i with
  | 0 => (l, σ)
  | i' + 1 =>
    let d := draw σ (i' + 2)
    shuffleGo (swapL l (i' + 1) d.1) i' d.2

/-- `shuffleArray` (`src/utils.ts`): shuffles a copy of the input array. -/
def shuffleArray {α : Type} (l : List α) (σ : Rand) : List α × Rand :=
  shuffleGo l (l.length - 1) σ

/-- The length filter of `selectRandomWords`:
`word.length >= minWordLength && word.length <= maxWordLength`. -/
def lengthOk (minWL maxWL : Nat) (w : Word) : Bool :=
  decide (minWL ≤ w.length) && decide (w.length ≤ maxWL)

/-- `selectRandomWords` (`src/utils.ts`): destructuring defaults
(`wordCount = 10`, `minWordLength = 3`,
`maxWordLength = options.maxGridSize || 15`), filter by length, shuffle,
and take `Math.min(wordCount, shuffled.length)` elements. Note: no case
normalization happens here. -/
def selectRandomWords (words : List Word) (options : CrosswordOptions) (σ : Rand) :
    List Word × Rand :=
  let wordCount := options.wordCount.getD 10
  let minWordLength := options.minWordLength.getD 3
  let maxWordLength := options.maxWordLength.getD (jsOrNat options.maxGridSize 15)
  let validWords := words.filter (lengthOk minWordLength maxWordLength)
  let p := shuffleArray validWords σ
  (p.1.take (min wordCount p.1.length), p.2)

/-- Reading `grid[r][c]`: past a row's end (or on a missing row) JS yields
`undefined`. Callers in the source only index rows that exist. -/
def cellAt (g : Grid) (r c : Nat) : Cell := (g.getD r []).getD c Cell.undef

/-- `grid[0]!.length`, the nominal column count. -/
def gridWidth (g : Grid) : Nat := (g.headD []).length

/-- `isPartOfWord` (`src/utils.ts`): is `(row, col)` on the placed word's run? -/
def isPartOfWord (row col : Int) (w : PlacedWord) : Bool :=
  match w.direction with
  | Direction.horizontal =>
    decide (row = w.startRow) && decide (w.startCol ≤ col) && decide (col ≤ w.endCol)
  | Direction.vertical =>
    decide (col = w.startCol) && decide (w.startRow ≤ row) && decide (row ≤ w.endRow)

/-- `checkSurroundingCells` (`src/utils.ts`), used only at `strict` level: each
of the four orthogonal neighbours not aligned with the placement direction
must be empty or belong to some recorded placed word. -/
def checkSurroundingCells (g : Grid) (row col : Nat) (dir : Direction)
    (placedWords : List PlacedWord) : Bool :=
  ([((-1 : Int), (0 : Int)), (1, 0), (0, -1), (0, 1)]).all fun dd =>
    if (dir = Direction.vertical ∧ dd.2 = 0) ∨ (dir = Direction.horizontal ∧ dd.1 = 0) then
      true
    else
      let newRow : Int := (row : Int) + dd.1
      let newCol : Int := (col : Int) + dd.2
      if 0 ≤ newRow ∧ newRow < (g.length : Int) ∧ 0 ≤ newCol ∧ newCol < (gridWidth g : Int) then
        if cellAt g newRow.toNat newCol.toNat ≠ Cell.empty then
          placedWords.any (isPartOfWord newRow newCol)
        else true
      else true

/-- `checkWordBoundaries` (`src/utils.ts`): the cells just before and after the
run (in the word's direction) must be `null`, and each perpendicular neighbour
of a run cell may be occupied only when the run cell itself already holds
exactly the word's (uppercased) letter at that offset. -/
def checkWordBoundaries (g : Grid) (word : Word) (startRow startCol : Nat)
    (endRow endCol : Int) (dir : Direction) : Bool :=
  match dir with
  | Direction.horizontal =>
    (if 0 < startCol then decide (cellAt g startRow (startCol - 1) = Cell.empty) else true) &&
    (if endCol < (gridWidth g : Int) - 1 then
       decide (cellAt g startRow (endCol + 1).toNat = Cell.empty) else true) &&
    (List.range (endCol - startCol + 1).toNat).all fun i =>
      let col := startCol + i
      let row := startRow
      let currentLetter := Char.toUpper (word.getD i 'A')
      (if 0 < row ∧ cellAt g (row - 1) col ≠ Cell.empty then
         decide (cellAt g row col = Cell.letter currentLetter) else true) &&
      (if row + 1 < g.length ∧ cellAt g (row + 1) col ≠ Cell.empty then
         decide (cellAt g row col = Cell.letter currentLetter) else true)
  | Direction.vertical =>
    (if 0 < startRow then decide (cellAt g (startRow - 1) startCol = Cell.empty) else true) &&
    (if endRow < (g.length : Int) - 1 then
       decide (cellAt g (endRow + 1).toNat startCol = Cell.empty) else true) &&
    (List.range (endRow - startRow + 1).toNat).all fun i =>
      let row := startRow + i
      let col := startCol
      let currentLetter := Char.toUpper (word.getD i 'A')
      (if 0 < col ∧ cellAt g row (col - 1) ≠ Cell.empty then
         decide (cellAt g row col = Cell.letter currentLetter) else true) &&
      (if col + 1 < gridWidth g ∧ cellAt g row (col + 1) ≠ Cell.empty then
         decide (cellAt g row col = Cell.letter currentLetter) else true)

/-- Row index of the `i`-th letter of a run starting at `(startRow, startCol)`. -/
def runRow (startRow : Nat) (dir : Direction) (i : Nat) : Nat :=
  if dir = Direction.vertical then startRow + i else startRow

/-- Column index of the `i`-th letter of a run. -/
def runCol (startCol : Nat) (dir : Direction) (i : Nat) : Nat :=
  if dir = Direction.horizontal then startCol + i else startCol

/-- `canPlaceWord` (`src/utils.ts`): bounds, per-cell compatibility (plus the
surrounding-cell sweep at `strict` level), then the boundary rules. -/
def canPlaceWord (g : Grid) (word : Word) (startRow startCol : Nat) (dir : Direction)
    (placedWords : List PlacedWord) (validationLevel : Level) : Bool :=
  let endRow : Int :=
    if dir = Direction.vertical then (startRow : Int) + word.length - 1 else startRow
  let endCol : Int :=
    if dir = Direction.horizontal then (startCol : Int) + word.length - 1 else startCol
  if (g.length : Int) ≤ endRow ∨ (gridWidth g : Int) ≤ endCol then false
  else
    ((List.range word.length).all fun i =>
      let row := runRow startRow dir i
      let col := runCol startCol dir i
      let cell := cellAt g row col
      let letter := Char.toUpper (word.getD i 'A')
      (decide (cell = Cell.empty) || decide (cell = Cell.letter letter)) &&
      (if validationLevel = Level.strict then
         checkSurroundingCells g row col dir placedWords
       else true)) &&
    checkWordBoundaries g word startRow startCol endRow endCol dir

/-- Writing index `i` of a row: in range it sets the cell; past the end JS
extends the row (any skipped indices become holes, read back as `undefined`).
In the generator the writes of a run are consecutive, so no hole ever forms. -/
def setAt (row : List Cell) (i : Nat) (v : Cell) : List Cell :=
  if i < row.length then row.set i v
  else row ++ List.replicate (i - row.length) Cell.undef ++ [v]

/-- `grid[r][c] = v`: JS throws (`none`) when row `r` does not exist. -/
def setCell (g : Grid) (r c : Nat) (v : Cell) : Option Grid :=
  if r < g.length then some (g.set r (setAt (g.getD r []) c v)) else none

/-- The write loop of `placeWord`, starting at letter index `i`. -/
def placeWordCells (dir : Direction) (startRow startCol : Nat) :
    Grid → Nat → List Char → Except Unit Grid
  | g, _, [] => Except.ok g
  | g, i, ch :: rest =>
    match setCell g (runRow startRow dir i) (runCol startCol dir i) (Cell.letter ch) with
    | some g' => placeWordCells dir startRow startCol g' (i + 1) rest
    | none => Except.error ()

/-- `placeWord` (`src/utils.ts`): uppercases the word, writes its letters into
the grid, and returns the `PlacedWord` record. A vertical run reaching past
the last row throws in JS, modelled as `Except.error`. -/
def placeWord (g : Grid) (word : Word) (startRow startCol : Nat) (dir : Direction) :
    Except Unit (Grid × PlacedWord) :=
  match placeWordCells dir startRow startCol g 0 (upper word) with
  | Except.error _ => Except.error ()
  | Except.ok g' =>
    Except.ok (g',
      { word := upper word
        startRow := startRow
        startCol := startCol
        direction := dir
        endRow := if dir = Direction.vertical then (startRow : Int) + word.length - 1
                  else startRow
        endCol := if dir = Direction.horizontal then (startCol : Int) + word.length - 1
                  else startCol })

/-- One candidate anchor produced by `findIntersections`. -/
structure Cand : Type where
  placedWord : PlacedWord
  newWordIndex : Nat
  placedWordIndex : Nat
  row : Int
  col : Int
  direction : Direction
deriving DecidableEq, Repr

/-- `findIntersections` (`src/utils.ts`): for every placed word and every pair
of matching letters, a perpendicular candidate anchor (possibly out of
bounds). -/
def findIntersections (newWord : Word) (placedWords : List PlacedWord) : List Cand :=
  let upperNewWord := upper newWord
  placedWords.flatMap fun pw =>
    (List.range upperNewWord.length).flatMap fun i =>
      (List.range pw.word.length).filterMap fun j =>
        if upperNewWord.getD i 'A' = pw.word.getD j 'B' then
          some (match pw.direction with
            | Direction.horizontal =>
              { placedWord := pw, newWordIndex := i, placedWordIndex := j
                row := pw.startRow - i, col := pw.startCol + j
                direction := Direction.vertical }
            | Direction.vertical =>
              { placedWord := pw, newWordIndex := i, placedWordIndex := j
                row := pw.startRow + j, col := pw.startCol - i
                direction := Direction.horizontal })
        else none

/-- The candidate loop of `tryPlaceWord`: skip out-of-bounds anchors, validate
with `canPlaceWord`, place the first anchor that validates. -/
def tryCands (g : Grid) (placedWords : List PlacedWord) (gridSize : Nat) (word : Word)
    (level : Level) : List Cand → Except Unit (Option (Grid × PlacedWord))
  | [] => Except.ok none
  | c :: rest =>
    if c.row < 0 ∨ c.col < 0 then tryCands g placedWords gridSize word level rest
    else
      let endRow : Int :=
        if c.direction = Direction.vertical then c.row + word.length - 1 else c.row
      let endCol : Int :=
        if c.direction = Direction.horizontal then c.col + word.length - 1 else c.col
      if (gridSize : Int) ≤ endRow ∨ (gridSize : Int) ≤ endCol then
        tryCands g placedWords gridSize word level rest
      else if canPlaceWord g word c.row.toNat c.col.toNat c.direction placedWords level then
        match placeWord g word c.row.toNat c.col.toNat c.direction with
        | Except.ok gp => Except.ok (some gp)
        | Except.error _ => Except.error ()
      else tryCands g placedWords gridSize word level rest

/-- `tryPlaceWord` (`src/generator.ts`): find intersection anchors, shuffle
them, and try them in that order. -/
def tryPlaceWord (g : Grid) (placedWords : List PlacedWord) (gridSize : Nat)
    (word : Word) (level : Level) (σ : Rand) :
    Except Unit (Option (Grid × PlacedWord)) × Rand :=
  let p := shuffleArray (findIntersections word placedWords) σ
  (tryCands g placedWords gridSize word level p.1, p.2)

/-- The mutable state of `placeRemainingWords` (part of `GenerationState` plus
the two loop counters). -/
structure LoopState : Type where
  grid : Grid
  placedWords : List PlacedWord
  availableWords : List Word
  wordsPlaced : Nat
  consecutiveFailures : Nat
deriving DecidableEq, Repr

/-- The `while` loop of `placeRemainingWords`, with explicit fuel (the loop
terminates; `placeLoop_fuel` below shows any sufficient fuel gives the same
result, so the fuel is only a termination device). -/
def placeLoop (level : Level) (gridSize maxWordsToPlace : Nat) :
    Nat → LoopState → Rand → Except Unit LoopState × Rand
  | 0, s, σ => (Except.ok s, σ)
  | fuel + 1, s, σ =>
    if s.wordsPlaced < maxWordsToPlace ∧ 0 < s.availableWords.length ∧
        s.consecutiveFailures < 20 then
      match tryPlaceWord s.grid s.placedWords gridSize
          (s.availableWords.getD (draw σ s.availableWords.length).1 []) level
          (draw σ s.availableWords.length).2 with
      | (Except.error _, σ') => (Except.error (), σ')
      | (Except.ok (some gp), σ') =>
        placeLoop level gridSize maxWordsToPlace fuel
          { s with grid := gp.1
                   placedWords := s.placedWords ++ [gp.2]
                   availableWords :=
                     s.availableWords.eraseIdx (draw σ s.availableWords.length).1
                   wordsPlaced := s.wordsPlaced + 1
                   consecutiveFailures := 0 } σ'
      | (Except.ok none, σ') =>
        if 5 ≤ s.consecutiveFailures + 1 then
          placeLoop level gridSize maxWordsToPlace fuel
            { s with availableWords :=
                       s.availableWords.eraseIdx (draw σ s.availableWords.length).1
                     consecutiveFailures := 0 } σ'
        else
          placeLoop level gridSize maxWordsToPlace fuel
            { s with consecutiveFailures := s.consecutiveFailures + 1 } σ'
    else (Except.ok s, σ)

/-- Fuel that `placeLoop_fuel` proves sufficient for any run. -/
def loopFuel (s : LoopState) : Nat := s.availableWords.length * 21 + 20

/-- Decreasing measure of the remaining-words loop: every iteration removes a
word from the pool (resetting the failure counter, which can then grow back to
at most 20) or increments the failure counter. -/
def loopMeasure (s : LoopState) : Nat :=
  s.availableWords.length * 21 + (20 - s.consecutiveFailures)

/-- `placeRemainingWords` (`src/generator.ts`). -/
def placeRemainingWords (cfg : Config) (gridSize : Nat) (s : LoopState) (σ : Rand) :
    Except Unit LoopState × Rand :=
  placeLoop cfg.validationLevel gridSize
    (min (cfg.wordCount - 1) s.availableWords.length) (loopFuel s) s σ

/-- `createEmptyGrid` (`src/utils.ts`). -/
def createEmptyGrid (size : Nat) : Grid :=
  List.replicate size (List.replicate size Cell.empty)

/-- `placeFirstWord` (`src/generator.ts`): random orientation, then a
center-biased anchor (margin `maxGridSize/4`), then an unvalidated placement. -/
def placeFirstWord (cfg : Config) (g : Grid) (firstWord : Word) (σ : Rand) :
    Except Unit (Grid × PlacedWord) × Rand :=
  let d1 := draw σ 2
  let dir := if d1.1 = 0 then Direction.horizontal else Direction.vertical
  let centerOffset := cfg.maxGridSize / 4
  let maxStart : Int := (cfg.maxGridSize : Int) - firstWord.length - centerOffset
  let d2 := draw d1.2 (max 1 (maxStart - centerOffset)).toNat
  let startPos := centerOffset + d2.1
  let d3 := draw d2.2 (cfg.maxGridSize - centerOffset * 2)
  let startRow := if dir = Direction.horizontal then centerOffset + d3.1 else startPos
  let startCol := if dir = Direction.vertical then centerOffset + d3.1 else startPos
  (placeWord g firstWord startRow startCol dir, d3.2)

/-! ### Trimming and statistics -/

/-- The four bounds tracked by the `trimGrid` scan. -/
structure Bounds : Type where
  minRow : Int
  maxRow : Int
  minCol : Int
  maxCol : Int
deriving DecidableEq, Repr

def updBounds (b : Bounds) (r c : Nat) : Bounds :=
  { minRow := min b.minRow r, maxRow := max b.maxRow r
    minCol := min b.minCol c, maxCol := max b.maxCol c }

/-- The nested occupied-cell scan of `trimGrid` (JS `!== null` is true for
letters and for `undefined` holes alike). -/
def scanBounds (g : Grid) (init : Bounds) : Bounds :=
  g.enum.foldl (fun b rc =>
    rc.2.enum.foldl (fun b' cc =>
      if cc.2 ≠ Cell.empty then updBounds b' rc.1 cc.1 else b') b) init

def trimInit (g : Grid) : Bounds :=
  { minRow := g.length, maxRow := -1, minCol := gridWidth g, maxCol := -1 }

/-- The bounds `trimGrid` computes for a grid. -/
def trimBounds (g : Grid) : Bounds := scanBounds g (trimInit g)

/-- `trimGrid` (`src/utils.ts`): scan for the occupied bounding box, return
`[]` when nothing is occupied, else extract rows `minRow..maxRow` and columns
`minCol..maxCol`. -/
def trimGrid (g : Grid) : Grid :=
  if g.length = 0 then g
  else if (trimBounds g).minRow = (g.length : Int) then []
  else
    (List.range ((trimBounds g).maxRow + 1 - (trimBounds g).minRow).toNat).map fun dr =>
      (List.range ((trimBounds g).maxCol + 1 - (trimBounds g).minCol).toNat).map fun dc =>
        cellAt g ((trimBounds g).minRow.toNat + dr) ((trimBounds g).minCol.toNat + dc)

/-- The minima-only scan of `adjustWordCoordinatesForTrimmedGrid`. -/
def adjustScan (g : Grid) : Int × Int :=
  g.enum.foldl (fun mm rc =>
    rc.2.enum.foldl (fun mm' cc =>
      if cc.2 ≠ Cell.empty then (min mm'.1 (rc.1 : Int), min mm'.2 (cc.1 : Int)) else mm') mm)
    ((g.length : Int), (gridWidth g : Int))

/-- `adjustWordCoordinatesForTrimmedGrid` (`src/utils.ts`). -/
def adjustWordCoordinatesForTrimmedGrid (placedWords : List PlacedWord)
    (originalGrid trimmedGrid : Grid) : List PlacedWord :=
  if originalGrid.length = 0 ∨ trimmedGrid.length = 0 then placedWords
  else
    let mm := adjustScan originalGrid
    placedWords.map fun w =>
      { w with startRow := w.startRow - mm.1, startCol := w.startCol - mm.2
               endRow := w.endRow - mm.1, endCol := w.endCol - mm.2 }

structure GridSize : Type where
  width : Int
  height : Int
deriving DecidableEq, Repr

/-- `calculateMinGridSize` (`src/utils.ts`). -/
def calculateMinGridSize (placedWords : List PlacedWord) : GridSize :=
  if placedWords.length = 0 then { width := 0, height := 0 }
  else
    { width := placedWords.foldl (fun m w => max m w.endCol) 0 + 1
      height := placedWords.foldl (fun m w => max m w.endRow) 0 + 1 }

structure Stats : Type where
  wordsUsed : Nat
  gridSize : GridSize
  totalIntersections : Nat
  attempts : Nat
deriving DecidableEq, Repr

structure CrosswordResult : Type where
  grid : Grid
  placedWords : List PlacedWord
  stats : Stats
deriving DecidableEq, Repr

/-- `wordsIntersect` (`src/generator.ts`). -/
def wordsIntersect (w1 w2 : PlacedWord) : Bool :=
  if w1.direction = w2.direction then false
  else if w1.direction = Direction.horizontal then
    decide (w2.startRow ≤ w1.startRow) && decide (w1.startRow ≤ w2.endRow) &&
    decide (w1.startCol ≤ w2.startCol) && decide (w2.startCol ≤ w1.endCol)
  else
    decide (w1.startRow ≤ w2.startRow) && decide (w2.startRow ≤ w1.endRow) &&
    decide (w2.startCol ≤ w1.startCol) && decide (w1.startCol ≤ w2.endCol)

def defaultPlaced : PlacedWord :=
  { word := [], startRow := 0, startCol := 0, direction := Direction.horizontal
    endRow := 0, endCol := 0 }

/-- `countIntersections` (`src/generator.ts`): unordered pairs `i < j`. -/
def countIntersections (pws : List PlacedWord) : Nat :=
  ((List.range pws.length).map fun i =>
    ((List.range pws.length).filter fun j =>
      decide (i < j) && wordsIntersect (pws.getD i defaultPlaced)
        (pws.getD j defaultPlaced)).length).sum

/-! ### Scoring (exact rational arithmetic in place of JS float64; the claims
proved below do not depend on which attempt wins a score comparison) -/

def calculateCompactness (res : CrosswordResult) : ℚ :=
  if res.grid.length = 0 then 0
  else
    let totalCells := res.grid.length * gridWidth res.grid
    let filledCells := (res.grid.flatten.filter fun c => c ≠ Cell.empty).length
    (filledCells : ℚ) / (totalCells : ℚ) * 100

def calculateGridEfficiency (res : CrosswordResult) : ℚ :=
  if res.stats.gridSize.width = 0 ∨ res.stats.gridSize.height = 0 then 0
  else
    let gridArea : Int := res.stats.gridSize.width * res.stats.gridSize.height
    let wordsArea := (res.placedWords.map fun w => w.word.length).sum
    (wordsArea : ℚ) / (gridArea : ℚ) * 100

/-- `calculateScore` (`src/generator.ts`). -/
def calculateScore (res : CrosswordResult) : ℚ :=
  if res.placedWords.length = 0 then 0
  else
    (res.placedWords.length : ℚ) * 100 + (res.stats.totalIntersections : ℚ) * 50 +
      calculateCompactness res * 30 + calculateGridEfficiency res * 20

/-! ### A single attempt and the multi-attempt optimizer -/

/-- `attemptGeneration` (`src/generator.ts`). JS exceptions (the explicit
empty-pool `throw` and out-of-grid writes of the unvalidated first placement)
are `Except.error`; the stream is still advanced past the draws consumed. -/
def attemptGeneration (words : List Word) (cfg : Config) (attemptNumber : Nat)
    (σ : Rand) : Except Unit CrosswordResult × Rand :=
  let p1 := selectRandomWords words cfg.toOptions σ
  let p2 := shuffleArray p1.1 p1.2
  match p2.1 with
  | [] => (Except.error (), p2.2)
  | firstWord :: rest =>
    match placeFirstWord cfg (createEmptyGrid cfg.maxGridSize) firstWord p2.2 with
    | (Except.error _, σ3) => (Except.error (), σ3)
    | (Except.ok gp, σ3) =>
      let s0 : LoopState :=
        { grid := gp.1, placedWords := [gp.2], availableWords := rest
          wordsPlaced := 0, consecutiveFailures := 0 }
      match placeRemainingWords cfg cfg.maxGridSize s0 σ3 with
      | (Except.error _, σ4) => (Except.error (), σ4)
      | (Except.ok s1, σ4) =>
        let trimmedGrid := trimGrid s1.grid
        let adjusted := adjustWordCoordinatesForTrimmedGrid s1.placedWords s1.grid trimmedGrid
        (Except.ok
          { grid := trimmedGrid
            placedWords := adjusted
            stats :=
              { wordsUsed := adjusted.length
                gridSize := calculateMinGridSize adjusted
                totalIntersections := countIntersections adjusted
                attempts := attemptNumber + 1 } }, σ4)

/-- The `for (attempt = 0; ...)` loop of `generateCrossword`: keep the best
score, stop early once an improving attempt meets the word-count target. -/
def optimizerLoop (words : List Word) (cfg : Config) :
    Nat → Nat → Option CrosswordResult → ℚ → Rand → Option CrosswordResult × Rand
  | 0, _, best, _, σ => (best, σ)
  | k + 1, attempt, best, bestScore, σ =>
    match attemptGeneration words cfg attempt σ with
    | (Except.error _, σ') => optimizerLoop words cfg k (attempt + 1) best bestScore σ'
    | (Except.ok res, σ') =>
      let score := calculateScore res
      if bestScore < score then
        if cfg.wordCount ≤ res.placedWords.length then (some res, σ')
        else optimizerLoop words cfg k (attempt + 1) (some res) score σ'
      else optimizerLoop words cfg k (attempt + 1) best bestScore σ'

/-- The fallback of `generateCrossword` when no attempt produced a scored
result: a single word at the origin, trimmed like a normal result. -/
def fallbackResult (words : List Word) (cfg : Config) (σ : Rand) :
    Except Unit CrosswordResult :=
  let sel := (selectRandomWords words { cfg.toOptions with wordCount := some 1 } σ).1
  let grid0 := createEmptyGrid (min (jsOrNat (sel.head?.map List.length) 5) cfg.maxGridSize)
  match sel with
  | [] =>
    Except.ok
      { grid := [], placedWords := []
        stats := { wordsUsed := 0, gridSize := { width := 0, height := 0 }
                   totalIntersections := 0, attempts := cfg.maxAttempts } }
  | w :: _ =>
    match placeWord grid0 w 0 0 Direction.horizontal with
    | Except.error _ => Except.error ()
    | Except.ok gp =>
      let trimmedGrid := trimGrid gp.1
      let adjusted := adjustWordCoordinatesForTrimmedGrid [gp.2] gp.1 trimmedGrid
      Except.ok
        { grid := trimmedGrid, placedWords := adjusted
          stats := { wordsUsed := 1, gridSize := calculateMinGridSize adjusted
                     totalIntersections := 0, attempts := cfg.maxAttempts } }

/-- `generateCrossword` (`src/generator.ts`). -/
def generateCrossword (words : List Word) (options : CrosswordOptions) (σ : Rand) :
    Except Unit CrosswordResult :=
  let cfg := resolveConfig options
  let p := optimizerLoop words cfg cfg.maxAttempts 0 none 0 σ
  match p.1 with
  | some res => Except.ok res
  | none => fallbackResult words cfg p.2

/-! ### Specification-level predicates for the validator (claim C2) -/

/-- Derived run-end row, as computed by `canPlaceWord` and `placeWord`. -/
def endRowOf (startRow len : Nat) (dir : Direction) : Int :=
  if dir = Direction.vertical then (startRow : Int) + len - 1 else startRow

/-- Derived run-end column. -/
def endColOf (startCol len : Nat) (dir : Direction) : Int :=
  if dir = Direction.horizontal then (startCol : Int) + len - 1 else startCol

/-- Spec condition (1): the word's full run lies within the grid. -/
def specInBounds (g : Grid) (word : Word) (startRow startCol : Nat) (dir : Direction) : Prop :=
  endRowOf startRow word.length dir < (g.length : Int) ∧
  endColOf startCol word.length dir < (gridWidth g : Int)

/-- Spec condition (2): every cell along the run is empty or equals the word's
uppercased letter at that offset. -/
def specCellsOk (g : Grid) (word : Word) (startRow startCol : Nat) (dir : Direction) : Prop :=
  ∀ i < word.length,
    cellAt g (runRow startRow dir i) (runCol startCol dir i) = Cell.empty ∨
    cellAt g (runRow startRow dir i) (runCol startCol dir i) =
      Cell.letter (Char.toUpper (word.getD i 'A'))

/-- Spec condition (3) as the code actually enforces it: the cells immediately
before and after the run in the word's own direction are empty, and whenever a
cell perpendicular-adjacent to a run position is occupied, the run cell itself
already holds exactly the word's uppercased letter at that offset. -/
def specBoundaryOk (g : Grid) (word : Word) (startRow startCol : Nat) (dir : Direction) : Prop :=
  match dir with
  | Direction.horizontal =>
    (0 < startCol → cellAt g startRow (startCol - 1) = Cell.empty) ∧
    (startCol + word.length < gridWidth g →
      cellAt g startRow (startCol + word.length) = Cell.empty) ∧
    (∀ i < word.length,
      (0 < startRow ∧ cellAt g (startRow - 1) (startCol + i) ≠ Cell.empty →
        cellAt g startRow (startCol + i) = Cell.letter (Char.toUpper (word.getD i 'A'))) ∧
      (startRow + 1 < g.length ∧ cellAt g (startRow + 1) (startCol + i) ≠ Cell.empty →
        cellAt g startRow (startCol + i) = Cell.letter (Char.toUpper (word.getD i 'A'))))
  | Direction.vertical =>
    (0 < startRow → cellAt g (startRow - 1) startCol = Cell.empty) ∧
    (startRow + word.length < g.length →
      cellAt g (startRow + word.length) startCol = Cell.empty) ∧
    (∀ i < word.length,
      (0 < startCol ∧ cellAt g (startRow + i) (startCol - 1) ≠ Cell.empty →
        cellAt g (startRow + i) startCol = Cell.letter (Char.toUpper (word.getD i 'A'))) ∧
      (startCol + 1 < gridWidth g ∧ cellAt g (startRow + i) (startCol + 1) ≠ Cell.empty →
        cellAt g (startRow + i) startCol = Cell.letter (Char.toUpper (word.getD i 'A'))))

/-- The letter a placed word carries at a grid coordinate, when that
coordinate lies on its run. -/
def placedLetterAt (w : PlacedWord) (row col : Int) : Option Char :=
  match w.direction with
  | Direction.horizontal =>
    if row = w.startRow ∧ w.startCol ≤ col ∧ col < w.startCol + w.word.length then
      some (w.word.getD (col - w.startCol).toNat 'A')
    else none
  | Direction.vertical =>
    if col = w.startCol ∧ w.startRow ≤ row ∧ row < w.startRow + w.word.length then
      some (w.word.getD (row - w.startRow).toNat 'A')
    else none

/-- Condition (3) as claim C2 literally states it: the run-edge cells are
empty, and every occupied perpendicular-adjacent cell is a genuine,
already-recorded intersection — an existing placed word of the other
direction occupies that exact run cell with the identical letter. -/
def claimedBoundaryOk (g : Grid) (word : Word) (startRow startCol : Nat)
    (dir : Direction) (placedWords : List PlacedWord) : Prop :=
  match dir with
  | Direction.horizontal =>
    (0 < startCol → cellAt g startRow (startCol - 1) = Cell.empty) ∧
    (startCol + word.length < gridWidth g →
      cellAt g startRow (startCol + word.length) = Cell.empty) ∧
    (∀ i < word.length,
      ((0 < startRow ∧ cellAt g (startRow - 1) (startCol + i) ≠ Cell.empty) ∨
       (startRow + 1 < g.length ∧ cellAt g (startRow + 1) (startCol + i) ≠ Cell.empty)) →
      ∃ pw ∈ placedWords, pw.direction ≠ dir ∧
        placedLetterAt pw startRow (startCol + i) =
          some (Char.toUpper (word.getD i 'A')))
  | Direction.vertical =>
    (0 < startRow → cellAt g (startRow - 1) startCol = Cell.empty) ∧
    (startRow + word.length < g.length →
      cellAt g (startRow + word.length) startCol = Cell.empty) ∧
    (∀ i < word.length,
      ((0 < startCol ∧ cellAt g (startRow + i) (startCol - 1) ≠ Cell.empty) ∨
       (startCol + 1 < gridWidth g ∧ cellAt g (startRow + i) (startCol + 1) ≠ Cell.empty)) →
      ∃ pw ∈ placedWords, pw.direction ≠ dir ∧
        placedLetterAt pw (startRow + i) startCol =
          some (Char.toUpper (word.getD i 'A')))

/-- The concrete grid of the C2 counterexample:
a stray `X` at `(0,0)` above an `A` at `(1,0)`, no placed word recorded. -/
def c2Grid : Grid :=
  [[Cell.letter 'X', Cell.empty, Cell.empty],
   [Cell.letter 'A', Cell.empty, Cell.empty],
   [Cell.empty, Cell.empty, Cell.empty]]

instance (g : Grid) (word : Word) (startRow startCol : Nat) (dir : Direction) :
    Decidable (specInBounds g word startRow startCol dir) := by
  unfold specInBounds; infer_instance

instance (g : Grid) (word : Word) (startRow startCol : Nat) (dir : Direction) :
    Decidable (specCellsOk g word startRow startCol dir) := by
  unfold specCellsOk; infer_instance

instance (g : Grid) (word : Word) (startRow startCol : Nat) (dir : Direction) :
    Decidable (specBoundaryOk g word startRow startCol dir) := by
  cases dir <;> (unfold specBoundaryOk; infer_instance)

instance (g : Grid) (word : Word) (startRow startCol : Nat) (dir : Direction)
    (pws : List PlacedWord) :
    Decidable (claimedBoundaryOk g word startRow startCol dir pws) := by
  cases dir <;> (unfold claimedBoundaryOk; infer_instance)

/-! ### Proof-layer views of the trim scan -/

/-- The positions the `trimGrid`/`adjust` scans treat as occupied (`!== null`
is true for letters and `undefined` holes alike), in scan order. -/
def occPositions (g : Grid) : List (Nat × Nat) :=
  g.enum.flatMap fun rr =>
    rr.2.enum.filterMap fun cc =>
      if cc.2 ≠ Cell.empty then some (rr.1, cc.1) else none

/-- Folding the bound updates over a position list. -/
def foldBounds (P : List (Nat × Nat)) (init : Bounds) : Bounds :=
  P.foldl (fun b p => updBounds b p.1 p.2) init

/-- A rectangular grid: every row has the nominal width. -/
def Rectangular (g : Grid) : Prop := ∀ row ∈ g, row.length = gridWidth g

instance (g : Grid) : Decidable (Rectangular g) := by
  unfold Rectangular; infer_instance

/-- Folding the two minimum updates of the `adjust` scan over a position
list. -/
def foldMins (P : List (Nat × Nat)) (mm : Int × Int) : Int × Int :=
  P.foldl (fun mm' p => (min mm'.1 (p.1 : Int), min mm'.2 (p.2 : Int))) mm

/-- The ragged grid of the C7 counterexample: its only letter sits past the
first row's width, so the first trim keeps a leading `null` column. -/
def c7Grid : Grid :=
  [[Cell.empty, Cell.empty],
   [Cell.empty, Cell.empty, Cell.empty, Cell.letter 'X']]

/-! ### An instrumented view of the remaining-words loop (claim C3) -/

/-- One observable event of the remaining-words loop: the picked word, whether
it was placed, and whether it was removed from the pool this iteration. -/
structure LoopEvent : Type where
  word : Word
  placed : Bool
  removed : Bool
deriving DecidableEq, Repr

/-- `placeLoop` instrumented with an event trace; otherwise identical
(`placeLoopTrace_fst` proves it projects onto `placeLoop`). -/
def placeLoopTrace (level : Level) (gridSize maxWordsToPlace : Nat) :
    Nat → LoopState → Rand → (Except Unit LoopState × Rand) × List LoopEvent
  | 0, s, σ => ((Except.ok s, σ), [])
  | fuel + 1, s, σ =>
    if s.wordsPlaced < maxWordsToPlace ∧ 0 < s.availableWords.length ∧
        s.consecutiveFailures < 20 then
      match tryPlaceWord s.grid s.placedWords gridSize
          (s.availableWords.getD (draw σ s.availableWords.length).1 []) level
          (draw σ s.availableWords.length).2 with
      | (Except.error _, σ') => ((Except.error (), σ'), [])
      | (Except.ok (some gp), σ') =>
        ((placeLoopTrace level gridSize maxWordsToPlace fuel
          { s with grid := gp.1
                   placedWords := s.placedWords ++ [gp.2]
                   availableWords :=
                     s.availableWords.eraseIdx (draw σ s.availableWords.length).1
                   wordsPlaced := s.wordsPlaced + 1
                   consecutiveFailures := 0 } σ').1,
         { word := s.availableWords.getD (draw σ s.availableWords.length).1 []
           placed := true, removed := true } ::
           (placeLoopTrace level gridSize maxWordsToPlace fuel
            { s with grid := gp.1
                     placedWords := s.placedWords ++ [gp.2]
                     availableWords :=
                       s.availableWords.eraseIdx (draw σ s.availableWords.length).1
                     wordsPlaced := s.wordsPlaced + 1
                     consecutiveFailures := 0 } σ').2)
      | (Except.ok none, σ') =>
        if 5 ≤ s.consecutiveFailures + 1 then
          ((placeLoopTrace level gridSize maxWordsToPlace fuel
            { s with availableWords :=
                       s.availableWords.eraseIdx (draw σ s.availableWords.length).1
                     consecutiveFailures := 0 } σ').1,
           { word := s.availableWords.getD (draw σ s.availableWords.length).1 []
             placed := false, removed := true } ::
             (placeLoopTrace level gridSize maxWordsToPlace fuel
              { s with availableWords :=
                         s.availableWords.eraseIdx (draw σ s.availableWords.length).1
                       consecutiveFailures := 0 } σ').2)
        else
          ((placeLoopTrace level gridSize maxWordsToPlace fuel
            { s with consecutiveFailures := s.consecutiveFailures + 1 } σ').1,
           { word := s.availableWords.getD (draw σ s.availableWords.length).1 []
             placed := false, removed := false } ::
             (placeLoopTrace level gridSize maxWordsToPlace fuel
              { s with consecutiveFailures := s.consecutiveFailures + 1 } σ').2)
    else ((Except.ok s, σ), [])

/-- The per-word failure tally derivable from a trace: how often the word was
picked and failed to place. -/
def failTally (w : Word) (tr : List LoopEvent) : Nat :=
  (tr.filter fun e => decide (e.word = w) && !e.placed).length

/-- The placed word anchoring the C3 counterexample state. -/
def c3AAA : PlacedWord :=
  { word := ['A', 'A', 'A'], startRow := 2, startCol := 1
    direction := Direction.horizontal, endRow := 2, endCol := 3 }

/-- C3 counterexample state: `"AAA"` placed; the pool holds `"XY"` and `"QZ"`,
neither sharing a letter with `"AAA"`, so every pick fails. -/
def c3State : LoopState :=
  { grid := createEmptyGrid 5, placedWords := [c3AAA]
    availableWords := [['X', 'Y'], ['Q', 'Z']]
    wordsPlaced := 0, consecutiveFailures := 0 }

/-- C3 counterexample stream: pick index 0 (`"XY"`) four times, then index 1
(`"QZ"`) once; afterwards always index 0. -/
def c3Rand : Rand := fun k => if k = 4 then 1 else 0

/-- The trace of the C3 counterexample run (`wordCount = 3`, so
`maxWordsToPlace = 2`, on a 5×5 grid). -/
def c3Trace : List LoopEvent :=
  (placeLoopTrace Level.normal 5 2 (loopFuel c3State) c3State c3Rand).2

/-! ### Run positions and the generator invariants -/

/-- Row of the `i`-th letter of a placed word, in `Int` coordinates. -/
def runRowI (w : PlacedWord) (i : Nat) : Int :=
  if w.direction = Direction.vertical then w.startRow + i else w.startRow

/-- Column of the `i`-th letter of a placed word. -/
def runColI (w : PlacedWord) (i : Nat) : Int :=
  if w.direction = Direction.horizontal then w.startCol + i else w.startCol

/-- Reading the grid at `Int` coordinates (negative indices read as JS
`undefined`). -/
def cellAtI (g : Grid) (r c : Int) : Cell :=
  if 0 ≤ r ∧ 0 ≤ c then cellAt g r.toNat c.toNat else Cell.undef

/-- Well-formedness of a `PlacedWord` record: the end coordinates are the
derived ones, and a nonempty word has nonnegative anchors. -/
def WFWord (w : PlacedWord) : Prop :=
  (w.endRow = if w.direction = Direction.vertical then w.startRow + w.word.length - 1
              else w.startRow) ∧
  (w.endCol = if w.direction = Direction.horizontal then w.startCol + w.word.length - 1
              else w.startCol) ∧
  (w.word ≠ [] → 0 ≤ w.startRow ∧ 0 ≤ w.startCol)

/-- The letters invariant: every placed word's letters are written in the grid
along its run. -/
def LettersInv (g : Grid) (pws : List PlacedWord) : Prop :=
  ∀ w ∈ pws, ∀ i < w.word.length,
    cellAtI g (runRowI w i) (runColI w i) = Cell.letter (w.word.getD i 'A')

/-- The coverage invariant: every letter cell lies on some placed word's run,
carrying that word's letter. -/
def CoverInv (g : Grid) (pws : List PlacedWord) : Prop :=
  ∀ r c : Nat, ∀ ch : Char, cellAt g r c = Cell.letter ch →
    ∃ w ∈ pws, ∃ i < w.word.length,
      runRowI w i = (r : Int) ∧ runColI w i = (c : Int) ∧ w.word.getD i 'A' = ch

/-- No stored `undefined` holes: every in-range cell is a letter or `null`.
The generator never creates holes (its writes are consecutive). -/
def NoUndef (g : Grid) : Prop :=
  ∀ r c : Nat, r < g.length → c < (g.getD r []).length → cellAt g r c ≠ Cell.undef

/-- The generation-state invariant carried through an attempt. -/
def WFState (g : Grid) (pws : List PlacedWord) : Prop :=
  (∀ w ∈ pws, WFWord w) ∧ LettersInv g pws ∧ CoverInv g pws ∧ NoUndef g

/-- A placement's writes never skip an index (so no `undefined` hole forms):
the write either stays inside its row or extends it contiguously. -/
def WriteSafe (g : Grid) (word : Word) (startRow startCol : Nat) (dir : Direction) : Prop :=
  word ≠ [] →
    (dir = Direction.horizontal → startCol ≤ (g.getD startRow []).length) ∧
    (dir = Direction.vertical → ∀ k, k < word.length →
      startCol ≤ (g.getD (startRow + k) []).length)

/-- The result of the C1 witness run: `"CAT"` placed horizontally at the
origin, crossed by `"ART"` placed vertically through the shared `A`. -/
def c1Result : CrosswordResult :=
  { grid := [[Cell.letter 'C', Cell.letter 'A', Cell.letter 'T'],
             [Cell.empty, Cell.letter 'R', Cell.empty],
             [Cell.empty, Cell.letter 'T', Cell.empty]]
    placedWords :=
      [{ word := ['C', 'A', 'T'], startRow := 0, startCol := 0
         direction := Direction.horizontal, endRow := 0, endCol := 2 },
       { word := ['A', 'R', 'T'], startRow := 0, startCol := 1
         direction := Direction.vertical, endRow := 2, endCol := 1 }]
    stats := { wordsUsed := 2, gridSize := { width := 3, height := 3 }
               totalIntersections := 1, attempts := 1 } }

/-! ### A store-passing view of the word arrays (claim C10)

JS passes arrays by reference and several helpers mutate arrays in place
(`shift`, `splice`, the Fisher–Yates swaps), while others allocate fresh
arrays (`filter`, the `[...array]` spread, `slice`). To settle whether the
caller's `words` array survives a call unchanged, the functions that touch
word arrays are re-expressed over an explicit store: a heap of word arrays
addressed by allocation index. -/

/-- A heap of JS word arrays; a reference is an index into the heap. -/
abbrev Heap := List (List Word)

/-- Allocate a fresh array, returning the new heap and the fresh reference. -/
def halloc (h : Heap) (v : List Word) : Heap × Nat := (h ++ [v], h.length)

/-- Read the array behind a reference. -/
def hget (h : Heap) (r : Nat) : List Word := h.getD r []

/-- Overwrite the array behind a reference (in-place mutation). -/
def hset (h : Heap) (r : Nat) (v : List Word) : Heap := h.set r v

/-- The Fisher–Yates loop of `shuffleArray`, swapping in place in the array
behind `r`. -/
def shuffleGoH (h : Heap) (r : Nat) (i : Nat) (σ : Rand) : Heap × Rand :=
  match i with
  | 0 => (h, σ)
  | i2 + 1 =>
    let d := draw σ (i2 + 2)
    shuffleGoH (hset h r (swapL (hget h r) (i2 + 1) d.1)) r i2 d.2

/-- `shuffleArray` on a reference: `[...array]` copies into a fresh array,
which is then shuffled in place; the copy's reference is returned. -/
def shuffleArrayH (h : Heap) (r : Nat) (σ : Rand) : Heap × Nat × Rand :=
  let p := halloc h (hget h r)
  let q := shuffleGoH p.1 p.2 ((hget h r).length - 1) σ
  (q.1, p.2, q.2)

/-- `selectRandomWords` on a reference: `filter` allocates, the shuffle copies
and permutes, `slice` allocates the returned prefix. The argument array is
only read. -/
def selectRandomWordsH (h : Heap) (wordsRef : Nat) (options : CrosswordOptions)
    (σ : Rand) : Heap × Nat × Rand :=
  let wordCount := options.wordCount.getD 10
  let minWordLength := options.minWordLength.getD 3
  let maxWordLength := options.maxWordLength.getD (jsOrNat options.maxGridSize 15)
  let p1 := halloc h ((hget h wordsRef).filter (lengthOk minWordLength maxWordLength))
  let p2 := shuffleArrayH p1.1 p1.2 σ
  let p3 := halloc p2.1 ((hget p2.1 p2.2.1).take
    (min wordCount (hget p2.1 p2.2.1).length))
  (p3.1, p3.2, p2.2.2)

/-- The remaining-words loop with `state.availableWords` held in the heap (the
JS array object that `splice` mutates in place). -/
def placeLoopH (level : Level) (gridSize maxWordsToPlace : Nat) :
    Nat → Heap → Nat → Grid → List PlacedWord → Nat → Nat → Rand →
      Except Unit (Grid × List PlacedWord) × Heap × Rand
  | 0, h, _, g, pws, _, _, σ => (Except.ok (g, pws), h, σ)
  | fuel + 1, h, availRef, g, pws, wordsPlaced, cf, σ =>
    if wordsPlaced < maxWordsToPlace ∧ 0 < (hget h availRef).length ∧ cf < 20 then
      match tryPlaceWord g pws gridSize
          ((hget h availRef).getD (draw σ (hget h availRef).length).1 []) level
          (draw σ (hget h availRef).length).2 with
      | (Except.error _, σ2) => (Except.error (), h, σ2)
      | (Except.ok (some gp), σ2) =>
        placeLoopH level gridSize maxWordsToPlace fuel
          (hset h availRef ((hget h availRef).eraseIdx
            (draw σ (hget h availRef).length).1))
          availRef gp.1 (pws ++ [gp.2]) (wordsPlaced + 1) 0 σ2
      | (Except.ok none, σ2) =>
        if 5 ≤ cf + 1 then
          placeLoopH level gridSize maxWordsToPlace fuel
            (hset h availRef ((hget h availRef).eraseIdx
              (draw σ (hget h availRef).length).1))
            availRef g pws wordsPlaced 0 σ2
        else
          placeLoopH level gridSize maxWordsToPlace fuel h availRef g pws
            wordsPlaced (cf + 1) σ2
    else (Except.ok (g, pws), h, σ)

/-- `attemptGeneration` over the store: the input array is read by
`selectRandomWords`; every mutation (`shift`, `splice`, swaps) hits arrays
allocated during the call. -/
def attemptGenerationH (h : Heap) (wordsRef : Nat) (cfg : Config)
    (attemptNumber : Nat) (σ : Rand) :
    Except Unit CrosswordResult × Heap × Rand :=
  let p1 := selectRandomWordsH h wordsRef cfg.toOptions σ
  let p2 := shuffleArrayH p1.1 p1.2.1 p1.2.2
  match hget p2.1 p2.2.1 with
  | [] => (Except.error (), p2.1, p2.2.2)
  | firstWord :: rest =>
    let h3 := hset p2.1 p2.2.1 rest
    match placeFirstWord cfg (createEmptyGrid cfg.maxGridSize) firstWord p2.2.2 with
    | (Except.error _, σ3) => (Except.error (), h3, σ3)
    | (Except.ok gp, σ3) =>
      match placeLoopH cfg.validationLevel cfg.maxGridSize
          (min (cfg.wordCount - 1) (hget h3 p2.2.1).length)
          (loopFuel { grid := gp.1, placedWords := [gp.2]
                      availableWords := hget h3 p2.2.1, wordsPlaced := 0
                      consecutiveFailures := 0 })
          h3 p2.2.1 gp.1 [gp.2] 0 0 σ3 with
      | (Except.error _, h4, σ4) => (Except.error (), h4, σ4)
      | (Except.ok gps, h4, σ4) =>
        (Except.ok
          { grid := trimGrid gps.1
            placedWords := adjustWordCoordinatesForTrimmedGrid gps.2 gps.1
              (trimGrid gps.1)
            stats :=
              { wordsUsed := (adjustWordCoordinatesForTrimmedGrid gps.2 gps.1
                  (trimGrid gps.1)).length
                gridSize := calculateMinGridSize
                  (adjustWordCoordinatesForTrimmedGrid gps.2 gps.1 (trimGrid gps.1))
                totalIntersections := countIntersections
                  (adjustWordCoordinatesForTrimmedGrid gps.2 gps.1 (trimGrid gps.1))
                attempts := attemptNumber + 1 } }, h4, σ4)

/-- The optimizer loop over the store. -/
def optimizerLoopH (wordsRef : Nat) (cfg : Config) :
    Nat → Nat → Option CrosswordResult → ℚ → Heap → Rand →
      Option CrosswordResult × Heap × Rand
  | 0, _, best, _, h, σ => (best, h, σ)
  | k + 1, attempt, best, bestScore, h, σ =>
    match attemptGenerationH h wordsRef cfg attempt σ with
    | (Except.error _, h2, σ2) =>
      optimizerLoopH wordsRef cfg k (attempt + 1) best bestScore h2 σ2
    | (Except.ok res, h2, σ2) =>
      if bestScore < calculateScore res then
        if cfg.wordCount ≤ res.placedWords.length then (some res, h2, σ2)
        else optimizerLoopH wordsRef cfg k (attempt + 1) (some res)
          (calculateScore res) h2 σ2
      else optimizerLoopH wordsRef cfg k (attempt + 1) best bestScore h2 σ2

/-- The fallback over the store. -/
def fallbackResultH (h : Heap) (wordsRef : Nat) (cfg : Config) (σ : Rand) :
    Except Unit CrosswordResult × Heap :=
  let p := selectRandomWordsH h wordsRef { cfg.toOptions with wordCount := some 1 } σ
  match hget p.1 p.2.1 with
  | [] =>
    (Except.ok
      { grid := [], placedWords := []
        stats := { wordsUsed := 0, gridSize := { width := 0, height := 0 }
                   totalIntersections := 0, attempts := cfg.maxAttempts } }, p.1)
  | w :: ws =>
    match placeWord (createEmptyGrid (min (jsOrNat (((w :: ws).head?).map
        List.length) 5) cfg.maxGridSize)) w 0 0 Direction.horizontal with
    | Except.error _ => (Except.error (), p.1)
    | Except.ok gp =>
      (Except.ok
        { grid := trimGrid gp.1
          placedWords := adjustWordCoordinatesForTrimmedGrid [gp.2] gp.1
            (trimGrid gp.1)
          stats := { wordsUsed := 1
                     gridSize := calculateMinGridSize
                       (adjustWordCoordinatesForTrimmedGrid [gp.2] gp.1
                         (trimGrid gp.1))
                     totalIntersections := 0
                     attempts := cfg.maxAttempts } }, p.1)

/-- `generateCrossword` over the store. -/
def generateCrosswordH (h : Heap) (wordsRef : Nat) (options : CrosswordOptions)
    (σ : Rand) : Except Unit CrosswordResult × Heap :=
  let cfg := resolveConfig options
  let p := optimizerLoopH wordsRef cfg cfg.maxAttempts 0 none 0 h σ
  match p.1 with
  | some res => (Except.ok res, p.2.1)
  | none => fallbackResultH p.2.1 wordsRef cfg p.2.2

/-! ### Basic lemmas about the shuffle -/

theorem swapL_length {α : Type} (l : List α) (i j : Nat) :
    (swapL l i j).length = l.length := by
  unfold swapL
  cases hi : l.get? i <;> cases hj : l.get? j <;> simp

theorem mem_of_mem_swapL {α : Type} {l : List α} {i j : Nat} {x : α}
    (h : x ∈ swapL l i j) : x ∈ l := by
  unfold swapL at h
  cases hi : l.get? i with
  | none => rw [hi] at h; exact h
  | some a =>
    cases hj : l.get? j with
    | none => rw [hi, hj] at h; exact h
    | some b =>
      rw [hi, hj] at h
      rcases List.mem_or_eq_of_mem_set h with h' | rfl
      · rcases List.mem_or_eq_of_mem_set h' with h'' | rfl
        · exact h''
        · exact List.get?_mem hj
      · exact List.get?_mem hi

theorem shuffleGo_length {α : Type} (i : Nat) (l : List α) (σ : Rand) :
    (shuffleGo l i σ).1.length = l.length := by
  induction i generalizing l σ with
  | zero => rfl
  | succ i ih => rw [shuffleGo, ih, swapL_length]

theorem mem_of_mem_shuffleGo {α : Type} {i : Nat} {l : List α} {σ : Rand} {x : α}
    (h : x ∈ (shuffleGo l i σ).1) : x ∈ l := by
  induction i generalizing l σ with
  | zero => exact h
  | succ i ih => rw [shuffleGo] at h; exact mem_of_mem_swapL (ih h)

theorem shuffleArray_length {α : Type} (l : List α) (σ : Rand) :
    (shuffleArray l σ).1.length = l.length :=
  shuffleGo_length _ l σ

theorem mem_of_mem_shuffleArray {α : Type} {l : List α} {σ : Rand} {x : α}
    (h : x ∈ (shuffleArray l σ).1) : x ∈ l :=
  mem_of_mem_shuffleGo h

/-! ### Facts about `selectRandomWords` -/

theorem selectRandomWords_mem {words : List Word} {options : CrosswordOptions}
    {σ : Rand} {w : Word}
    (h : w ∈ (selectRandomWords words options σ).1) :
    w ∈ words ∧ lengthOk (options.minWordLength.getD 3)
      (options.maxWordLength.getD (jsOrNat options.maxGridSize 15)) w = true := by
  unfold selectRandomWords at h
  simp only at h
  have h' := List.mem_of_mem_take h
  have h'' := mem_of_mem_shuffleArray h'
  exact ⟨(List.mem_filter.mp h'').1, (List.mem_filter.mp h'').2⟩

theorem selectRandomWords_length (words : List Word) (options : CrosswordOptions)
    (σ : Rand) :
    (selectRandomWords words options σ).1.length =
      min (options.wordCount.getD 10)
        (words.filter (lengthOk (options.minWordLength.getD 3)
          (options.maxWordLength.getD (jsOrNat options.maxGridSize 15)))).length := by
  unfold selectRandomWords
  simp only [List.length_take]
  rw [shuffleArray_length]
  omega

/-! ### Characterizing the validator -/

theorem ite_bool_eq_true {p : Prop} [Decidable p] {b : Bool} :
    ((if p then b else true) = true) ↔ (p → b = true) := by
  by_cases h : p <;> simp [h]

theorem checkWordBoundaries_iff (g : Grid) (word : Word) (startRow startCol : Nat)
    (dir : Direction) :
    (checkWordBoundaries g word startRow startCol (endRowOf startRow word.length dir)
      (endColOf startCol word.length dir) dir = true) ↔
    specBoundaryOk g word startRow startCol dir := by
  cases dir with
  | horizontal =>
    have hc : (((startCol : Int) + word.length - 1) - startCol + 1).toNat = word.length := by
      omega
    have he2 : (((startCol : Int) + word.length - 1) + 1).toNat = startCol + word.length := by
      omega
    simp only [checkWordBoundaries, specBoundaryOk, endRowOf, endColOf, reduceIte,
      Bool.and_eq_true, ite_bool_eq_true, decide_eq_true_eq, hc, he2, List.all_eq_true,
      List.mem_range]
    refine Iff.trans and_assoc ?_
    exact and_congr Iff.rfl (and_congr (imp_congr (by omega) Iff.rfl) Iff.rfl)
  | vertical =>
    have hc : (((startRow : Int) + word.length - 1) - startRow + 1).toNat = word.length := by
      omega
    have he2 : (((startRow : Int) + word.length - 1) + 1).toNat = startRow + word.length := by
      omega
    simp only [checkWordBoundaries, specBoundaryOk, endRowOf, endColOf, reduceIte,
      Bool.and_eq_true, ite_bool_eq_true, decide_eq_true_eq, hc, he2, List.all_eq_true,
      List.mem_range]
    refine Iff.trans and_assoc ?_
    exact and_congr Iff.rfl (and_congr (imp_congr (by omega) Iff.rfl) Iff.rfl)

theorem canPlaceWord_eq_true_iff (g : Grid) (word : Word) (startRow startCol : Nat)
    (dir : Direction) (pws : List PlacedWord) (level : Level) :
    canPlaceWord g word startRow startCol dir pws level = true ↔
    (specInBounds g word startRow startCol dir ∧
     (∀ i < word.length,
        (cellAt g (runRow startRow dir i) (runCol startCol dir i) = Cell.empty ∨
         cellAt g (runRow startRow dir i) (runCol startCol dir i) =
           Cell.letter (Char.toUpper (word.getD i 'A'))) ∧
        (level = Level.strict →
          checkSurroundingCells g (runRow startRow dir i) (runCol startCol dir i)
            dir pws = true)) ∧
     checkWordBoundaries g word startRow startCol (endRowOf startRow word.length dir)
       (endColOf startCol word.length dir) dir = true) := by
  unfold canPlaceWord specInBounds
  by_cases hb : ((g.length : Int) ≤ endRowOf startRow word.length dir ∨
      (gridWidth g : Int) ≤ endColOf startCol word.length dir)
  · rw [if_pos]
    · simp only [Bool.false_eq_true, false_iff]
      intro hcontra
      rcases hb with hb | hb
      · omega
      · omega
    · exact hb
  · rw [if_neg]
    · push_neg at hb
      simp only [Bool.and_eq_true, List.all_eq_true, List.mem_range, ite_bool_eq_true,
        Bool.or_eq_true, decide_eq_true_eq]
      constructor
      · rintro ⟨hall, hbnd⟩
        exact ⟨⟨hb.1, hb.2⟩, fun i hi => (hall i hi), hbnd⟩
      · rintro ⟨_, hall, hbnd⟩
        exact ⟨fun i hi => hall i hi, hbnd⟩
    · exact hb

/-! ### Claim C2 -/

/-- C2, counterexample: `canPlaceWord` can return `true` even though an
occupied perpendicular-adjacent cell is **not** a recorded intersection. On
`c2Grid` (a stray `X` at `(0,0)`, no placed word recorded) the word `"AB"`
placed horizontally at `(1,0)` validates at level `normal`, yet the claim's
condition (3) — the occupied cell `(0,0)` above run position `(1,0)` must
belong to a recorded perpendicular placed word crossing there — is false. -/
theorem c2_counterexample :
    canPlaceWord c2Grid ['A', 'B'] 1 0 Direction.horizontal [] Level.normal = true ∧
    ¬ claimedBoundaryOk c2Grid ['A', 'B'] 1 0 Direction.horizontal [] := by
  constructor
  · decide
  · decide

/-- C2, amended: `canPlaceWord` returns `true` only if (1) the run lies within
the grid, (2) every run cell is empty or equals the word's uppercased letter
at that offset, and (3) the run-edge cells in the word's own direction are
empty and every occupied perpendicular-adjacent cell sits next to a run cell
that itself already holds exactly the word's letter at that offset (the code
checks the grid cell, not the recorded placed words). For levels `normal` and
`lenient` these three conditions are also sufficient. -/
theorem c2_canPlaceWord_characterization (g : Grid) (word : Word)
    (startRow startCol : Nat) (dir : Direction) (pws : List PlacedWord) (level : Level) :
    (canPlaceWord g word startRow startCol dir pws level = true →
      specInBounds g word startRow startCol dir ∧
      specCellsOk g word startRow startCol dir ∧
      specBoundaryOk g word startRow startCol dir) ∧
    (level ≠ Level.strict →
      specInBounds g word startRow startCol dir ∧
      specCellsOk g word startRow startCol dir ∧
      specBoundaryOk g word startRow startCol dir →
      canPlaceWord g word startRow startCol dir pws level = true) := by
  constructor
  · intro h
    rcases (canPlaceWord_eq_true_iff g word startRow startCol dir pws level).mp h with
      ⟨h1, h2, h3⟩
    exact ⟨h1, fun i hi => (h2 i hi).1,
      (checkWordBoundaries_iff g word startRow startCol dir).mp h3⟩
  · intro hlev ⟨h1, h2, h3⟩
    refine (canPlaceWord_eq_true_iff g word startRow startCol dir pws level).mpr
      ⟨h1, fun i hi => ⟨h2 i hi, fun hstrict => absurd hstrict hlev⟩,
        (checkWordBoundaries_iff g word startRow startCol dir).mpr h3⟩

/-- C2, witness: the sufficiency direction applied to place `"AB"`
horizontally at the origin of an empty 3×3 grid at level `normal`. -/
theorem c2_witness :
    canPlaceWord (createEmptyGrid 3) ['A', 'B'] 0 0 Direction.horizontal []
      Level.normal = true :=
  (c2_canPlaceWord_characterization (createEmptyGrid 3) ['A', 'B'] 0 0
    Direction.horizontal [] Level.normal).2 (by decide) ⟨by decide, by decide, by decide⟩

/-! ### Claim C5 -/

/-- C5, counterexample: `selectRandomWords` does **not** uppercase. On the
input list `["abc"]` with default options it returns `["abc"]` itself, and no
input word's uppercase form (with length in bounds) equals `"abc"`, so the
claim "every element is the uppercase form of an input word …" is false. -/
theorem c5_counterexample :
    (selectRandomWords [['a', 'b', 'c']] {} (fun _ => 0)).1 = [['a', 'b', 'c']] ∧
    ¬ (∀ w ∈ (selectRandomWords [['a', 'b', 'c']] {} (fun _ => 0)).1,
        ∃ v ∈ [['a', 'b', 'c']], lengthOk 3 15 v = true ∧ w = upper v) := by
  constructor
  · rfl
  · decide

/-- C5, amended: for every word list and options, `selectRandomWords` returns
a list in which every element is an input word (with its original case,
unchanged) whose length lies within `[minWordLength, maxWordLength]` (the
resolved bounds, with `maxWordLength` defaulting to `maxGridSize || 15`), and
the list's length equals `min(wordCount, number of input words passing the
length filter)`. -/
theorem c5_selectRandomWords_amended (words : List Word) (options : CrosswordOptions)
    (σ : Rand) :
    (∀ w ∈ (selectRandomWords words options σ).1,
      w ∈ words ∧ lengthOk (options.minWordLength.getD 3)
        (options.maxWordLength.getD (jsOrNat options.maxGridSize 15)) w = true) ∧
    (selectRandomWords words options σ).1.length =
      min (options.wordCount.getD 10)
        (words.filter (lengthOk (options.minWordLength.getD 3)
          (options.maxWordLength.getD (jsOrNat options.maxGridSize 15)))).length :=
  ⟨fun _ hw => selectRandomWords_mem hw, selectRandomWords_length words options σ⟩

/-- C5, witness: the amended theorem applied at the input list `["cat"]` with
default options and the all-zeros stream. -/
theorem c5_witness :
    (['c', 'a', 't'] ∈ [['c', 'a', 't']] ∧ lengthOk 3 15 ['c', 'a', 't'] = true) ∧
    (selectRandomWords [['c', 'a', 't']] {} (fun _ => 0)).1.length = 1 := by
  refine ⟨(c5_selectRandomWords_amended [['c', 'a', 't']] {} (fun _ => 0)).1
    ['c', 'a', 't'] ?_, ?_⟩
  · decide
  · rw [(c5_selectRandomWords_amended [['c', 'a', 't']] {} (fun _ => 0)).2]
    decide

/-! ### Fold lemmas for the trim scan -/

theorem foldl_min_le_init {α : Type} [LinearOrder α] (l : List α) (a : α) :
    l.foldl min a ≤ a := by
  induction l generalizing a with
  | nil => exact le_refl a
  | cons x l ih => exact le_trans (ih (min a x)) (min_le_left a x)

theorem foldl_min_le_mem {α : Type} [LinearOrder α] {l : List α} {x : α} (h : x ∈ l)
    (a : α) : l.foldl min a ≤ x := by
  induction l generalizing a with
  | nil => cases h
  | cons y l ih =>
    rcases List.mem_cons.mp h with rfl | h'
    · exact le_trans (foldl_min_le_init l (min a x)) (min_le_right a x)
    · exact ih h' (min a y)

theorem le_foldl_min {α : Type} [LinearOrder α] {l : List α} {a b : α} (ha : b ≤ a)
    (h : ∀ x ∈ l, b ≤ x) : b ≤ l.foldl min a := by
  induction l generalizing a with
  | nil => exact ha
  | cons y l ih =>
    exact ih (le_min ha (h y (List.mem_cons_self y l)))
      fun x hx => h x (List.mem_cons_of_mem y hx)

theorem foldl_min_attained {α : Type} [LinearOrder α] (l : List α) (a : α) :
    l.foldl min a = a ∨ l.foldl min a ∈ l := by
  induction l generalizing a with
  | nil => exact Or.inl rfl
  | cons y l ih =>
    rw [List.foldl_cons]
    rcases ih (min a y) with h | h
    · rcases min_choice a y with hm | hm
      · exact Or.inl (h.trans hm)
      · exact Or.inr (by rw [h, hm]; exact List.mem_cons_self y l)
    · exact Or.inr (List.mem_cons_of_mem y h)

theorem init_le_foldl_max {α : Type} [LinearOrder α] (l : List α) (a : α) :
    a ≤ l.foldl max a := by
  induction l generalizing a with
  | nil => exact le_refl a
  | cons x l ih => exact le_trans (le_max_left a x) (ih (max a x))

theorem mem_le_foldl_max {α : Type} [LinearOrder α] {l : List α} {x : α} (h : x ∈ l)
    (a : α) : x ≤ l.foldl max a := by
  induction l generalizing a with
  | nil => cases h
  | cons y l ih =>
    rcases List.mem_cons.mp h with rfl | h'
    · exact le_trans (le_max_right a x) (init_le_foldl_max l (max a x))
    · exact ih h' (max a y)

theorem foldl_max_le {α : Type} [LinearOrder α] {l : List α} {a b : α} (ha : a ≤ b)
    (h : ∀ x ∈ l, x ≤ b) : l.foldl max a ≤ b := by
  induction l generalizing a with
  | nil => exact ha
  | cons y l ih =>
    exact ih (max_le ha (h y (List.mem_cons_self y l)))
      fun x hx => h x (List.mem_cons_of_mem y hx)

theorem foldl_max_attained {α : Type} [LinearOrder α] (l : List α) (a : α) :
    l.foldl max a = a ∨ l.foldl max a ∈ l := by
  induction l generalizing a with
  | nil => exact Or.inl rfl
  | cons y l ih =>
    rw [List.foldl_cons]
    rcases ih (max a y) with h | h
    · rcases max_choice a y with hm | hm
      · exact Or.inl (h.trans hm)
      · exact Or.inr (by rw [h, hm]; exact List.mem_cons_self y l)
    · exact Or.inr (List.mem_cons_of_mem y h)

/-! ### The trim scan as a fold over occupied positions -/

theorem foldBounds_cons (p : Nat × Nat) (P : List (Nat × Nat)) (init : Bounds) :
    foldBounds (p :: P) init = foldBounds P (updBounds init p.1 p.2) := rfl

theorem foldBounds_append (P Q : List (Nat × Nat)) (init : Bounds) :
    foldBounds (P ++ Q) init = foldBounds Q (foldBounds P init) :=
  List.foldl_append _ _ P Q

theorem foldBounds_minRow (P : List (Nat × Nat)) (init : Bounds) :
    (foldBounds P init).minRow = (P.map fun p => (p.1 : Int)).foldl min init.minRow := by
  induction P generalizing init with
  | nil => rfl
  | cons p P ih => rw [foldBounds_cons, ih]; rfl

theorem foldBounds_maxRow (P : List (Nat × Nat)) (init : Bounds) :
    (foldBounds P init).maxRow = (P.map fun p => (p.1 : Int)).foldl max init.maxRow := by
  induction P generalizing init with
  | nil => rfl
  | cons p P ih => rw [foldBounds_cons, ih]; rfl

theorem foldBounds_minCol (P : List (Nat × Nat)) (init : Bounds) :
    (foldBounds P init).minCol = (P.map fun p => (p.2 : Int)).foldl min init.minCol := by
  induction P generalizing init with
  | nil => rfl
  | cons p P ih => rw [foldBounds_cons, ih]; rfl

theorem foldBounds_maxCol (P : List (Nat × Nat)) (init : Bounds) :
    (foldBounds P init).maxCol = (P.map fun p => (p.2 : Int)).foldl max init.maxCol := by
  induction P generalizing init with
  | nil => rfl
  | cons p P ih => rw [foldBounds_cons, ih]; rfl

theorem foldl_row_eq_foldBounds (r : Nat) (l : List (Nat × Cell)) (b : Bounds) :
    l.foldl (fun b' cc => if cc.2 ≠ Cell.empty then updBounds b' r cc.1 else b') b =
    foldBounds (l.filterMap fun cc =>
      if cc.2 ≠ Cell.empty then some (r, cc.1) else none) b := by
  induction l generalizing b with
  | nil => rfl
  | cons cc l ih =>
    by_cases h : cc.2 ≠ Cell.empty
    · simp only [List.foldl_cons, List.filterMap_cons, if_pos h, ih, foldBounds_cons]
    · simp only [List.foldl_cons, List.filterMap_cons, if_neg h, ih]

theorem scanBounds_eq_foldBounds (g : Grid) (init : Bounds) :
    scanBounds g init = foldBounds (occPositions g) init := by
  unfold scanBounds occPositions
  generalize g.enum = L
  induction L generalizing init with
  | nil => rfl
  | cons rr L ih =>
    simp only [List.foldl_cons, List.flatMap_cons, foldBounds_append]
    rw [ih, foldl_row_eq_foldBounds]

theorem mem_occPositions {g : Grid} {r c : Nat} :
    (r, c) ∈ occPositions g ↔
      r < g.length ∧ c < (g.getD r []).length ∧ cellAt g r c ≠ Cell.empty := by
  unfold occPositions
  constructor
  · intro h
    rcases List.mem_flatMap.mp h with ⟨rr, hrr, hmem⟩
    rcases List.mem_filterMap.mp hmem with ⟨cc, hcc, hsome⟩
    by_cases hne : cc.2 ≠ Cell.empty
    · rw [if_pos hne] at hsome
      obtain ⟨rfl, rfl⟩ : r = rr.1 ∧ c = cc.1 := by
        injection hsome with h'; exact ⟨congrArg Prod.fst h'.symm, congrArg Prod.snd h'.symm⟩
      obtain ⟨rr1, rr2⟩ := rr
      obtain ⟨cc1, cc2⟩ := cc
      have hrow : g[rr1]? = some rr2 := List.mk_mem_enum_iff_getElem?.mp hrr
      have hcell : rr2[cc1]? = some cc2 := List.mk_mem_enum_iff_getElem?.mp hcc
      have hr : rr1 < g.length := by
        by_contra hge
        rw [List.getElem?_eq_none (by omega)] at hrow
        cases hrow
      have hgd : g.getD rr1 [] = rr2 := by
        rw [List.getD_eq_getElem?_getD, hrow]; rfl
      have hc : cc1 < rr2.length := by
        by_contra hge
        rw [List.getElem?_eq_none (by omega)] at hcell
        cases hcell
      refine ⟨hr, by rw [hgd]; exact hc, ?_⟩
      unfold cellAt
      rw [hgd, List.getD_eq_getElem?_getD, hcell]
      exact hne
    · rw [if_neg hne] at hsome
      cases hsome
  · rintro ⟨hr, hc, hne⟩
    refine List.mem_flatMap.mpr ⟨(r, g.getD r []), ?_, ?_⟩
    · refine List.mk_mem_enum_iff_getElem?.mpr ?_
      rw [List.getD_eq_getElem?_getD, List.getElem?_eq_getElem hr]
      rfl
    · refine List.mem_filterMap.mpr ⟨(c, cellAt g r c), ?_, ?_⟩
      · refine List.mk_mem_enum_iff_getElem?.mpr ?_
        unfold cellAt
        rw [List.getD_eq_getElem?_getD (g.getD r []) c, List.getElem?_eq_getElem hc]
        rfl
      · rw [if_pos hne]

/-! ### Characterizing `trimGrid` -/

theorem getD_map_range {α : Type} (n : Nat) (f : Nat → α) (i : Nat) (d : α)
    (h : i < n) : ((List.range n).map f).getD i d = f i := by
  rw [List.getD_eq_getElem?_getD, List.getElem?_map, List.getElem?_range h]
  rfl

theorem trimBounds_minRow_nonneg (g : Grid) : 0 ≤ (trimBounds g).minRow := by
  rw [trimBounds, scanBounds_eq_foldBounds, foldBounds_minRow]
  refine le_foldl_min (by simp [trimInit]) ?_
  intro x hx
  rcases List.mem_map.mp hx with ⟨p, _, rfl⟩
  exact Int.natCast_nonneg p.1

theorem trimBounds_minCol_nonneg (g : Grid) : 0 ≤ (trimBounds g).minCol := by
  rw [trimBounds, scanBounds_eq_foldBounds, foldBounds_minCol]
  refine le_foldl_min (by simp [trimInit]) ?_
  intro x hx
  rcases List.mem_map.mp hx with ⟨p, _, rfl⟩
  exact Int.natCast_nonneg p.2

theorem trimBounds_sandwich {g : Grid} {r c : Nat} (h : (r, c) ∈ occPositions g) :
    (trimBounds g).minRow ≤ r ∧ (r : Int) ≤ (trimBounds g).maxRow ∧
    (trimBounds g).minCol ≤ c ∧ (c : Int) ≤ (trimBounds g).maxCol := by
  rw [trimBounds, scanBounds_eq_foldBounds, foldBounds_minRow, foldBounds_maxRow,
    foldBounds_minCol, foldBounds_maxCol]
  have h1 : ((r : Int)) ∈ (occPositions g).map fun p => (p.1 : Int) :=
    List.mem_map.mpr ⟨(r, c), h, rfl⟩
  have h2 : ((c : Int)) ∈ (occPositions g).map fun p => (p.2 : Int) :=
    List.mem_map.mpr ⟨(r, c), h, rfl⟩
  exact ⟨foldl_min_le_mem h1 _, mem_le_foldl_max h1 _,
    foldl_min_le_mem h2 _, mem_le_foldl_max h2 _⟩

theorem trimBounds_of_no_occ {g : Grid} (h : occPositions g = []) :
    trimBounds g = trimInit g := by
  rw [trimBounds, scanBounds_eq_foldBounds, h]
  rfl

theorem trimBounds_minRow_lt {g : Grid} {p : Nat × Nat} (hp : p ∈ occPositions g) :
    (trimBounds g).minRow < (g.length : Int) := by
  obtain ⟨r, c⟩ := p
  have hs := (trimBounds_sandwich hp).1
  have hr := (mem_occPositions.mp hp).1
  omega

theorem trimBounds_maxRow_attained {g : Grid} {p : Nat × Nat}
    (hp : p ∈ occPositions g) :
    ∃ q ∈ occPositions g, (q.1 : Int) = (trimBounds g).maxRow := by
  have hmem : ((p.1 : Int)) ∈ (occPositions g).map fun q => (q.1 : Int) :=
    List.mem_map.mpr ⟨p, hp, rfl⟩
  have hge : (0 : Int) ≤ (trimBounds g).maxRow :=
    le_trans (Int.natCast_nonneg p.1)
      (by rw [trimBounds, scanBounds_eq_foldBounds, foldBounds_maxRow]
          exact mem_le_foldl_max hmem _)
  rw [trimBounds, scanBounds_eq_foldBounds, foldBounds_maxRow] at hge ⊢
  rcases foldl_max_attained ((occPositions g).map fun q => (q.1 : Int))
      (trimInit g).maxRow with h | h
  · rw [h] at hge; simp [trimInit] at hge
  · rcases List.mem_map.mp h with ⟨q, hq, hval⟩
    exact ⟨q, hq, hval⟩

theorem trimBounds_maxCol_attained {g : Grid} {p : Nat × Nat}
    (hp : p ∈ occPositions g) :
    ∃ q ∈ occPositions g, (q.2 : Int) = (trimBounds g).maxCol := by
  have hmem : ((p.2 : Int)) ∈ (occPositions g).map fun q => (q.2 : Int) :=
    List.mem_map.mpr ⟨p, hp, rfl⟩
  have hge : (0 : Int) ≤ (trimBounds g).maxCol :=
    le_trans (Int.natCast_nonneg p.2)
      (by rw [trimBounds, scanBounds_eq_foldBounds, foldBounds_maxCol]
          exact mem_le_foldl_max hmem _)
  rw [trimBounds, scanBounds_eq_foldBounds, foldBounds_maxCol] at hge ⊢
  rcases foldl_max_attained ((occPositions g).map fun q => (q.2 : Int))
      (trimInit g).maxCol with h | h
  · rw [h] at hge; simp [trimInit] at hge
  · rcases List.mem_map.mp h with ⟨q, hq, hval⟩
    exact ⟨q, hq, hval⟩

theorem trimBounds_minRow_attained {g : Grid} {p : Nat × Nat}
    (hp : p ∈ occPositions g) :
    ∃ q ∈ occPositions g, (q.1 : Int) = (trimBounds g).minRow := by
  have hlt := trimBounds_minRow_lt hp
  rw [trimBounds, scanBounds_eq_foldBounds, foldBounds_minRow] at hlt ⊢
  rcases foldl_min_attained ((occPositions g).map fun q => (q.1 : Int))
      (trimInit g).minRow with h | h
  · rw [h] at hlt; simp [trimInit] at hlt
  · rcases List.mem_map.mp h with ⟨q, hq, hval⟩
    exact ⟨q, hq, hval⟩

theorem trimBounds_minCol_attained {g : Grid} (hrect : Rectangular g)
    {p : Nat × Nat} (hp : p ∈ occPositions g) :
    ∃ q ∈ occPositions g, (q.2 : Int) = (trimBounds g).minCol := by
  have hc : p.2 < gridWidth g := by
    obtain ⟨r, c⟩ := p
    rcases mem_occPositions.mp hp with ⟨hr, hcl, _⟩
    have : g.getD r [] ∈ g := by
      rw [List.getD_eq_getElem?_getD, List.getElem?_eq_getElem hr]
      exact List.getElem_mem hr
    rw [hrect _ this] at hcl
    exact hcl
  have hmem : ((p.2 : Int)) ∈ (occPositions g).map fun q => (q.2 : Int) :=
    List.mem_map.mpr ⟨p, hp, rfl⟩
  have hlt : (trimBounds g).minCol < (gridWidth g : Int) := by
    have := trimBounds_sandwich hp
    omega
  rw [trimBounds, scanBounds_eq_foldBounds, foldBounds_minCol] at hlt ⊢
  rcases foldl_min_attained ((occPositions g).map fun q => (q.2 : Int))
      (trimInit g).minCol with h | h
  · rw [h] at hlt; simp [trimInit] at hlt
  · rcases List.mem_map.mp h with ⟨q, hq, hval⟩
    exact ⟨q, hq, hval⟩

theorem trimGrid_of_no_occ {g : Grid} (h : occPositions g = []) : trimGrid g = [] := by
  unfold trimGrid
  by_cases h0 : g.length = 0
  · rw [if_pos h0]; exact List.length_eq_zero.mp h0
  · rw [if_neg h0, trimBounds_of_no_occ h]
    simp [trimInit]

theorem trimGrid_eq_extract {g : Grid} {p : Nat × Nat} (hp : p ∈ occPositions g) :
    trimGrid g =
      (List.range ((trimBounds g).maxRow + 1 - (trimBounds g).minRow).toNat).map fun dr =>
        (List.range ((trimBounds g).maxCol + 1 - (trimBounds g).minCol).toNat).map fun dc =>
          cellAt g ((trimBounds g).minRow.toNat + dr) ((trimBounds g).minCol.toNat + dc) := by
  have hlt := trimBounds_minRow_lt hp
  have hnn := trimBounds_minRow_nonneg g
  unfold trimGrid
  rw [if_neg (by omega), if_neg (by omega)]

theorem trimGrid_length {g : Grid} {p : Nat × Nat} (hp : p ∈ occPositions g) :
    (trimGrid g).length = ((trimBounds g).maxRow + 1 - (trimBounds g).minRow).toNat := by
  rw [trimGrid_eq_extract hp, List.length_map, List.length_range]

theorem trimGrid_cellAt {g : Grid} {p : Nat × Nat} (hp : p ∈ occPositions g)
    {dr dc : Nat} (hdr : dr < ((trimBounds g).maxRow + 1 - (trimBounds g).minRow).toNat)
    (hdc : dc < ((trimBounds g).maxCol + 1 - (trimBounds g).minCol).toNat) :
    cellAt (trimGrid g) dr dc =
      cellAt g ((trimBounds g).minRow.toNat + dr) ((trimBounds g).minCol.toNat + dc) := by
  rw [trimGrid_eq_extract hp]
  unfold cellAt
  rw [getD_map_range _ _ _ _ hdr]
  rw [getD_map_range _ _ _ _ hdc]

theorem trimGrid_row_length {g : Grid} {p : Nat × Nat} (hp : p ∈ occPositions g)
    {dr : Nat} (hdr : dr < ((trimBounds g).maxRow + 1 - (trimBounds g).minRow).toNat) :
    ((trimGrid g).getD dr []).length =
      ((trimBounds g).maxCol + 1 - (trimBounds g).minCol).toNat := by
  rw [trimGrid_eq_extract hp, getD_map_range _ _ _ _ hdr, List.length_map,
    List.length_range]

theorem trimGrid_width {g : Grid} {p : Nat × Nat} (hp : p ∈ occPositions g) :
    gridWidth (trimGrid g) = ((trimBounds g).maxCol + 1 - (trimBounds g).minCol).toNat := by
  have hmr := (trimBounds_sandwich hp).1
  have hmr2 := (trimBounds_sandwich hp).2.1
  have h0 : 0 < ((trimBounds g).maxRow + 1 - (trimBounds g).minRow).toNat := by omega
  have h := trimGrid_row_length hp h0
  rw [List.getD_eq_getElem?_getD] at h
  unfold gridWidth
  rcases htg : trimGrid g with _ | ⟨row, rest⟩
  · exfalso
    have hlen := trimGrid_length hp
    rw [htg] at hlen
    simp at hlen
    omega
  · rw [htg] at h
    simpa using h

theorem trimGrid_rectangular {g : Grid} {p : Nat × Nat} (hp : p ∈ occPositions g) :
    Rectangular (trimGrid g) := by
  intro row hrow
  rw [trimGrid_eq_extract hp] at hrow
  rcases List.mem_map.mp hrow with ⟨dr, hdr, rfl⟩
  rw [trimGrid_width hp, List.length_map, List.length_range]

theorem mem_occPositions_trim {g : Grid} {p : Nat × Nat} (hp : p ∈ occPositions g)
    {dr dc : Nat}
    (hdr : dr < ((trimBounds g).maxRow + 1 - (trimBounds g).minRow).toNat)
    (hdc : dc < ((trimBounds g).maxCol + 1 - (trimBounds g).minCol).toNat)
    (hcell : cellAt g ((trimBounds g).minRow.toNat + dr)
      ((trimBounds g).minCol.toNat + dc) ≠ Cell.empty) :
    (dr, dc) ∈ occPositions (trimGrid g) := by
  refine mem_occPositions.mpr ⟨?_, ?_, ?_⟩
  · rw [trimGrid_length hp]; exact hdr
  · rw [trimGrid_row_length hp hdr]; exact hdc
  · rw [trimGrid_cellAt hp hdr hdc]; exact hcell

/-! ### Claim C7 -/

/-- C7, counterexample: `trimGrid` is **not** idempotent on every grid. On the
ragged grid `[[null,null],[null,null,null,'X']]` (its only letter lies past
the first row's width, and JS arrays allow ragged rows — the generator itself
produces them when a first-word write runs past a row's end) the first trim
keeps a leading `null` column that the second trim removes. -/
theorem c7_counterexample :
    trimGrid c7Grid = [[Cell.empty, Cell.letter 'X']] ∧
    trimGrid (trimGrid c7Grid) = [[Cell.letter 'X']] ∧
    trimGrid (trimGrid c7Grid) ≠ trimGrid c7Grid := by
  refine ⟨by decide, by decide, by decide⟩

/-- C7, amended: for every rectangular grid `g` (all rows of the nominal
width — the shape the spec's data model prescribes),
`trimGrid (trimGrid g) = trimGrid g`. -/
theorem c7_trimGrid_idempotent (g : Grid) (hrect : Rectangular g) :
    trimGrid (trimGrid g) = trimGrid g := by
  rcases hocc : occPositions g with _ | ⟨p0, ptl⟩
  · rw [trimGrid_of_no_occ hocc, trimGrid_of_no_occ (g := []) (by rfl)]
  · have hp : p0 ∈ occPositions g := by rw [hocc]; exact List.mem_cons_self _ _
    clear hocc
    have hnnR := trimBounds_minRow_nonneg g
    have hnnC := trimBounds_minCol_nonneg g
    have hsand := trimBounds_sandwich hp
    -- dimensions of the first trim
    have hh : 0 < ((trimBounds g).maxRow + 1 - (trimBounds g).minRow).toNat := by omega
    have hw : 0 < ((trimBounds g).maxCol + 1 - (trimBounds g).minCol).toNat := by omega
    -- attained bounds give occupied witnesses on each edge of the box
    obtain ⟨qmr, hqmr, hqmrv⟩ := trimBounds_minRow_attained hp
    obtain ⟨qMr, hqMr, hqMrv⟩ := trimBounds_maxRow_attained hp
    obtain ⟨qmc, hqmc, hqmcv⟩ := trimBounds_minCol_attained hrect hp
    obtain ⟨qMc, hqMc, hqMcv⟩ := trimBounds_maxCol_attained hp
    have hsmr := trimBounds_sandwich hqmr
    have hsMr := trimBounds_sandwich hqMr
    have hsmc := trimBounds_sandwich hqmc
    have hsMc := trimBounds_sandwich hqMc
    -- the four edge witnesses inside the trimmed grid
    have hA : (0, qmr.2 - (trimBounds g).minCol.toNat) ∈ occPositions (trimGrid g) := by
      refine mem_occPositions_trim hp hh (by omega) ?_
      have e1 : (trimBounds g).minRow.toNat + 0 = qmr.1 := by omega
      have e2 : (trimBounds g).minCol.toNat + (qmr.2 - (trimBounds g).minCol.toNat) =
          qmr.2 := by omega
      rw [e1, e2]
      rcases p1 : qmr with ⟨a, b⟩
      rw [p1] at hqmr
      exact (mem_occPositions.mp hqmr).2.2
    have hB : (((trimBounds g).maxRow + 1 - (trimBounds g).minRow).toNat - 1,
        qMr.2 - (trimBounds g).minCol.toNat) ∈ occPositions (trimGrid g) := by
      refine mem_occPositions_trim hp (by omega) (by omega) ?_
      have e1 : (trimBounds g).minRow.toNat +
          (((trimBounds g).maxRow + 1 - (trimBounds g).minRow).toNat - 1) = qMr.1 := by
        omega
      have e2 : (trimBounds g).minCol.toNat + (qMr.2 - (trimBounds g).minCol.toNat) =
          qMr.2 := by omega
      rw [e1, e2]
      rcases p1 : qMr with ⟨a, b⟩
      rw [p1] at hqMr
      exact (mem_occPositions.mp hqMr).2.2
    have hC : (qmc.1 - (trimBounds g).minRow.toNat, 0) ∈ occPositions (trimGrid g) := by
      refine mem_occPositions_trim hp (by omega) hw ?_
      have e1 : (trimBounds g).minRow.toNat + (qmc.1 - (trimBounds g).minRow.toNat) =
          qmc.1 := by omega
      have e2 : (trimBounds g).minCol.toNat + 0 = qmc.2 := by omega
      rw [e1, e2]
      rcases p1 : qmc with ⟨a, b⟩
      rw [p1] at hqmc
      exact (mem_occPositions.mp hqmc).2.2
    have hD : (qMc.1 - (trimBounds g).minRow.toNat,
        ((trimBounds g).maxCol + 1 - (trimBounds g).minCol).toNat - 1) ∈
        occPositions (trimGrid g) := by
      refine mem_occPositions_trim hp (by omega) (by omega) ?_
      have e1 : (trimBounds g).minRow.toNat + (qMc.1 - (trimBounds g).minRow.toNat) =
          qMc.1 := by omega
      have e2 : (trimBounds g).minCol.toNat +
          (((trimBounds g).maxCol + 1 - (trimBounds g).minCol).toNat - 1) = qMc.2 := by
        omega
      rw [e1, e2]
      rcases p1 : qMc with ⟨a, b⟩
      rw [p1] at hqMc
      exact (mem_occPositions.mp hqMc).2.2
    -- the second scan finds the full box
    have hminR : (trimBounds (trimGrid g)).minRow = 0 := by
      have h1 := (trimBounds_sandwich hA).1
      have h2 := trimBounds_minRow_nonneg (trimGrid g)
      omega
    have hmaxR : (trimBounds (trimGrid g)).maxRow =
        (((trimBounds g).maxRow + 1 - (trimBounds g).minRow).toNat : Int) - 1 := by
      have h1 := (trimBounds_sandwich hB).2.1
      obtain ⟨q, hq, hqv⟩ := trimBounds_maxRow_attained hB
      have h2 : q.1 < (trimGrid g).length := by
        rcases p1 : q with ⟨a, b⟩
        rw [p1] at hq
        exact (mem_occPositions.mp hq).1
      rw [trimGrid_length hp] at h2
      omega
    have hminC : (trimBounds (trimGrid g)).minCol = 0 := by
      have h1 := (trimBounds_sandwich hC).2.2.1
      have h2 := trimBounds_minCol_nonneg (trimGrid g)
      omega
    have hmaxC : (trimBounds (trimGrid g)).maxCol =
        (((trimBounds g).maxCol + 1 - (trimBounds g).minCol).toNat : Int) - 1 := by
      have h1 := (trimBounds_sandwich hD).2.2.2
      obtain ⟨q, hq, hqv⟩ := trimBounds_maxCol_attained hD
      have h2 : q.2 < ((trimGrid g).getD q.1 []).length := by
        rcases p1 : q with ⟨a, b⟩
        rw [p1] at hq
        exact (mem_occPositions.mp hq).2.1
      have h3 : q.1 < (trimGrid g).length := by
        rcases p1 : q with ⟨a, b⟩
        rw [p1] at hq
        exact (mem_occPositions.mp hq).1
      rw [trimGrid_length hp] at h3
      rw [trimGrid_row_length hp h3] at h2
      omega
    -- re-extraction reproduces the trimmed grid
    rw [trimGrid_eq_extract hA, hminR, hmaxR, hminC, hmaxC]
    have eh : ((((trimBounds g).maxRow + 1 - (trimBounds g).minRow).toNat : Int) - 1 + 1 -
        0).toNat = ((trimBounds g).maxRow + 1 - (trimBounds g).minRow).toNat := by omega
    have ew : ((((trimBounds g).maxCol + 1 - (trimBounds g).minCol).toNat : Int) - 1 + 1 -
        0).toNat = ((trimBounds g).maxCol + 1 - (trimBounds g).minCol).toNat := by omega
    rw [eh, ew]
    conv_rhs => rw [trimGrid_eq_extract hp]
    refine List.map_congr_left fun dr hdr => ?_
    refine List.map_congr_left fun dc hdc => ?_
    rw [List.mem_range] at hdr hdc
    have e0 : ((0 : Int)).toNat = 0 := rfl
    rw [e0, Nat.zero_add, Nat.zero_add]
    rw [trimGrid_cellAt hp hdr hdc]

/-- C7, witness: the amended theorem applied to the rectangular grid
`[[null, 'A']]`. -/
theorem c7_witness :
    trimGrid (trimGrid [[Cell.empty, Cell.letter 'A']]) =
      trimGrid [[Cell.empty, Cell.letter 'A']] :=
  c7_trimGrid_idempotent [[Cell.empty, Cell.letter 'A']] (by decide)

/-! ### Claim C3 -/

theorem placeLoopTrace_fst (level : Level) (gridSize maxWords : Nat) :
    ∀ (fuel : Nat) (s : LoopState) (σ : Rand),
      (placeLoopTrace level gridSize maxWords fuel s σ).1 =
        placeLoop level gridSize maxWords fuel s σ := by
  intro fuel
  induction fuel with
  | zero => intro s σ; rfl
  | succ fuel ih =>
    intro s σ
    rw [placeLoopTrace, placeLoop]
    by_cases hg : s.wordsPlaced < maxWords ∧ 0 < s.availableWords.length ∧
        s.consecutiveFailures < 20
    · rw [if_pos hg, if_pos hg]
      rcases htp : tryPlaceWord s.grid s.placedWords gridSize
          (s.availableWords.getD (draw σ s.availableWords.length).1 []) level
          (draw σ s.availableWords.length).2 with ⟨r, σ'⟩
      rcases r with _ | r
      · rfl
      · rcases r with _ | gp
        · by_cases h5 : 5 ≤ s.consecutiveFailures + 1
          · simp only [h5, if_true]; exact ih _ _
          · simp only [h5, if_false]; exact ih _ _
        · exact ih _ _
    · rw [if_neg hg, if_neg hg]

/-- C3, counterexample: in the remaining-word loop the code keeps **no
per-word failure tally** — eviction is driven by the single global
consecutive-failure counter. Starting from `c3State` (placed `"AAA"`, pool
`["XY", "QZ"]`, both unplaceable) with a stream that picks `"XY"` four times
and then `"QZ"`, the word `"QZ"` is evicted at the fifth iteration although
its own failure tally at that point is 1, not 5. -/
theorem c3_counterexample :
    (c3Trace.getD 4 { word := [], placed := false, removed := false }).word =
      ['Q', 'Z'] ∧
    (c3Trace.getD 4 { word := [], placed := false, removed := false }).removed = true ∧
    (c3Trace.getD 4 { word := [], placed := false, removed := false }).placed = false ∧
    failTally ['Q', 'Z'] (c3Trace.take 5) = 1 ∧
    ¬ (∀ k < c3Trace.length,
        (c3Trace.getD k { word := [], placed := false, removed := false }).removed = true →
        (c3Trace.getD k { word := [], placed := false, removed := false }).placed = false →
        failTally (c3Trace.getD k { word := [], placed := false, removed := false }).word
          (c3Trace.take (k + 1)) = 5) := by
  exact ⟨by decide, by decide, by decide, by decide, by decide⟩

/-- C3, amended: when the picked word exhausts all its shuffled intersection
candidates without a successful placement, the global consecutive-failure
counter is incremented, and the **currently picked word** is evicted from the
pool exactly when that incremented global counter reaches 5 (the counter then
being reset to 0); there is no per-word failure tally — eviction is decided by
the global counter alone. -/
theorem c3_failure_step (level : Level) (gridSize maxWords fuel : Nat)
    (s : LoopState) (σ : Rand)
    (hguard : s.wordsPlaced < maxWords ∧ 0 < s.availableWords.length ∧
      s.consecutiveFailures < 20)
    (hfail : (tryPlaceWord s.grid s.placedWords gridSize
        (s.availableWords.getD (draw σ s.availableWords.length).1 []) level
        (draw σ s.availableWords.length).2).1 = Except.ok none) :
    placeLoop level gridSize maxWords (fuel + 1) s σ =
      (if 5 ≤ s.consecutiveFailures + 1 then
        placeLoop level gridSize maxWords fuel
          { s with
            availableWords := s.availableWords.eraseIdx (draw σ s.availableWords.length).1
            consecutiveFailures := 0 }
          (tryPlaceWord s.grid s.placedWords gridSize
            (s.availableWords.getD (draw σ s.availableWords.length).1 []) level
            (draw σ s.availableWords.length).2).2
      else
        placeLoop level gridSize maxWords fuel
          { s with consecutiveFailures := s.consecutiveFailures + 1 }
          (tryPlaceWord s.grid s.placedWords gridSize
            (s.availableWords.getD (draw σ s.availableWords.length).1 []) level
            (draw σ s.availableWords.length).2).2) := by
  rw [placeLoop, if_pos hguard]
  rcases htp : tryPlaceWord s.grid s.placedWords gridSize
      (s.availableWords.getD (draw σ s.availableWords.length).1 []) level
      (draw σ s.availableWords.length).2 with ⟨r, σ'⟩
  rw [htp] at hfail
  simp only at hfail
  subst hfail
  rfl

/-- C3, witness: the amended step theorem applied at the concrete
counterexample state, stream and fuel (an iteration entered with the global
counter at 4, where the failure drives it to 5 and evicts the just-picked
word). -/
theorem c3_witness :
    placeLoop Level.normal 5 2 1
      { grid := createEmptyGrid 5, placedWords := [c3AAA]
        availableWords := [['X', 'Y'], ['Q', 'Z']]
        wordsPlaced := 0, consecutiveFailures := 4 } c3Rand =
      (if 5 ≤ 4 + 1 then
        placeLoop Level.normal 5 2 0
          { grid := createEmptyGrid 5, placedWords := [c3AAA]
            availableWords := ([['X', 'Y'], ['Q', 'Z']] : List Word).eraseIdx
              (draw c3Rand 2).1
            wordsPlaced := 0, consecutiveFailures := 0 }
          (tryPlaceWord (createEmptyGrid 5) [c3AAA] 5
            (([['X', 'Y'], ['Q', 'Z']] : List Word).getD (draw c3Rand 2).1 [])
            Level.normal (draw c3Rand 2).2).2
      else
        placeLoop Level.normal 5 2 0
          { grid := createEmptyGrid 5, placedWords := [c3AAA]
            availableWords := [['X', 'Y'], ['Q', 'Z']]
            wordsPlaced := 0, consecutiveFailures := 4 + 1 }
          (tryPlaceWord (createEmptyGrid 5) [c3AAA] 5
            (([['X', 'Y'], ['Q', 'Z']] : List Word).getD (draw c3Rand 2).1 [])
            Level.normal (draw c3Rand 2).2).2) :=
  c3_failure_step Level.normal 5 2 0
    { grid := createEmptyGrid 5, placedWords := [c3AAA]
      availableWords := [['X', 'Y'], ['Q', 'Z']]
      wordsPlaced := 0, consecutiveFailures := 4 } c3Rand
    ⟨by decide, by decide, by decide⟩ rfl

/-! ### Write primitives -/

theorem getD_setAt (row : List Cell) (i j : Nat) (v : Cell) :
    (setAt row i v).getD j Cell.undef = if j = i then v else row.getD j Cell.undef := by
  unfold setAt
  by_cases hi : i < row.length
  · rw [if_pos hi, List.getD_eq_getElem?_getD, List.getElem?_set]
    by_cases hj : i = j
    · subst hj
      rw [if_pos rfl, if_pos hi, if_pos rfl]
      rfl
    · rw [if_neg hj, if_neg (fun h => hj h.symm), List.getD_eq_getElem?_getD]
  · rw [if_neg hi]
    have hi' : row.length ≤ i := Nat.le_of_not_lt hi
    have hlen : (row ++ List.replicate (i - row.length) Cell.undef).length = i := by
      simp; omega
    rw [List.getD_eq_getElem?_getD, List.getD_eq_getElem?_getD]
    rcases Nat.lt_or_ge j row.length with hj | hj
    · rw [List.getElem?_append_left (by rw [hlen]; omega), List.getElem?_append_left hj,
        if_neg (by omega)]
    · rcases lt_trichotomy j i with hji | rfl | hji
      · rw [List.getElem?_append_left (by rw [hlen]; omega),
          List.getElem?_append_right hj, List.getElem?_replicate, if_pos (by omega),
          if_neg (by omega), List.getElem?_eq_none hj]
        rfl
      · rw [List.getElem?_append_right (by rw [hlen]), hlen, Nat.sub_self, if_pos rfl]
        rfl
      · rw [List.getElem?_append_right (by rw [hlen]; omega), hlen,
          List.getElem?_eq_none (by simp; omega), if_neg (by omega),
          List.getElem?_eq_none (by omega)]

theorem length_setAt (row : List Cell) (i : Nat) (v : Cell) :
    (setAt row i v).length = max row.length (i + 1) := by
  unfold setAt
  by_cases hi : i < row.length
  · rw [if_pos hi, List.length_set]; omega
  · rw [if_neg hi]; simp; omega

theorem setCell_eq_some {g : Grid} {r c : Nat} {v : Cell} {g' : Grid}
    (h : setCell g r c v = some g') :
    r < g.length ∧ g' = g.set r (setAt (g.getD r []) c v) := by
  unfold setCell at h
  by_cases hr : r < g.length
  · rw [if_pos hr] at h
    exact ⟨hr, (Option.some_injective _ h).symm⟩
  · rw [if_neg hr] at h; cases h

theorem length_setCell {g : Grid} {r c : Nat} {v : Cell} {g' : Grid}
    (h : setCell g r c v = some g') : g'.length = g.length := by
  obtain ⟨hr, rfl⟩ := setCell_eq_some h
  exact List.length_set g r _

theorem getD_row_set (g : Grid) (r r' : Nat) (row : List Cell) (hr : r < g.length) :
    (g.set r row).getD r' [] = if r' = r then row else g.getD r' [] := by
  rw [List.getD_eq_getElem?_getD, List.getElem?_set]
  by_cases hrr : r = r'
  · subst hrr; rw [if_pos rfl, if_pos rfl, if_pos hr]; rfl
  · rw [if_neg hrr, if_neg (fun h => hrr h.symm), List.getD_eq_getElem?_getD]

theorem cellAt_setCell {g : Grid} {r c : Nat} {v : Cell} {g' : Grid}
    (h : setCell g r c v = some g') (r' c' : Nat) :
    cellAt g' r' c' = if r' = r ∧ c' = c then v else cellAt g r' c' := by
  obtain ⟨hr, rfl⟩ := setCell_eq_some h
  unfold cellAt
  rw [getD_row_set g r r' _ hr]
  by_cases hrr : r' = r
  · rw [if_pos hrr, getD_setAt]
    by_cases hcc : c' = c
    · rw [if_pos hcc, if_pos ⟨hrr, hcc⟩]
    · rw [if_neg hcc, if_neg (fun hand => hcc hand.2), hrr]
  · rw [if_neg hrr, if_neg (fun hand => hrr hand.1)]

theorem rowLen_setCell {g : Grid} {r c : Nat} {v : Cell} {g' : Grid}
    (h : setCell g r c v = some g') (r' : Nat) :
    (g'.getD r' []).length =
      if r' = r then max ((g.getD r []).length) (c + 1) else (g.getD r' []).length := by
  obtain ⟨hr, rfl⟩ := setCell_eq_some h
  rw [getD_row_set g r r' _ hr]
  by_cases hrr : r' = r
  · rw [if_pos hrr, if_pos hrr, length_setAt]
  · rw [if_neg hrr, if_neg hrr]

theorem rowLen_setCell_le {g : Grid} {r c : Nat} {v : Cell} {g' : Grid}
    (h : setCell g r c v = some g') (r' : Nat) :
    (g'.getD r' []).length ≤ max ((g.getD r' []).length) (c + 1) := by
  have h2 := rowLen_setCell h r'
  by_cases hrr : r' = r
  · subst hrr; rw [if_pos rfl] at h2; omega
  · rw [if_neg hrr] at h2; omega

theorem runPos_ne (startRow startCol : Nat) (dir : Direction) {i j : Nat} (h : i ≠ j) :
    ¬(runRow startRow dir i = runRow startRow dir j ∧
      runCol startCol dir i = runCol startCol dir j) := by
  cases dir with
  | horizontal =>
    rintro ⟨_, h2⟩
    simp [runCol] at h2
    omega
  | vertical =>
    rintro ⟨h1, _⟩
    simp [runRow] at h1
    omega

/-- Characterization of the write loop of `placeWord`: on success the row
count is kept, cells off the written segment are untouched, the segment holds
exactly the written letters, and row lengths grow at most to the written
extent. -/
theorem placeWordCells_spec (dir : Direction) (startRow startCol : Nat) :
    ∀ (rest : List Char) (g : Grid) (i : Nat) (g' : Grid),
      placeWordCells dir startRow startCol g i rest = Except.ok g' →
      g'.length = g.length ∧
      (∀ r c : Nat,
        (∀ k, k < rest.length → ¬(r = runRow startRow dir (i + k) ∧
          c = runCol startCol dir (i + k))) →
        cellAt g' r c = cellAt g r c) ∧
      (∀ k, k < rest.length →
        cellAt g' (runRow startRow dir (i + k)) (runCol startCol dir (i + k)) =
          Cell.letter (rest.getD k 'A')) ∧
      (∀ r : Nat, (g'.getD r []).length ≤
        max ((g.getD r []).length)
          (if dir = Direction.horizontal ∧ r = startRow then startCol + i + rest.length
           else startCol + 1)) ∧
      (∀ r : Nat, (∀ k, k < rest.length → r ≠ runRow startRow dir (i + k)) →
        (g'.getD r []).length = (g.getD r []).length) := by
  intro rest
  induction rest with
  | nil =>
    intro g i g' hok
    injection hok with hok
    subst hok
    refine ⟨rfl, fun r c _ => rfl, fun k hk => absurd hk (by simp), fun r => ?_,
      fun r _ => rfl⟩
    exact le_max_left _ _
  | cons ch rest ih =>
    intro g i g' hok
    rw [placeWordCells] at hok
    rcases hset : setCell g (runRow startRow dir i) (runCol startCol dir i)
        (Cell.letter ch) with _ | g1
    · rw [hset] at hok; cases hok
    · rw [hset] at hok
      obtain ⟨hlen1, huntouched1, hletters1, hrow1, hroweq1⟩ := ih g1 (i + 1) g' hok
      have hwrite := cellAt_setCell hset
      refine ⟨by rw [hlen1, length_setCell hset], ?_, ?_, ?_, ?_⟩
      · intro r c havoid
        have havoid1 : ∀ k, k < rest.length →
            ¬(r = runRow startRow dir (i + 1 + k) ∧
              c = runCol startCol dir (i + 1 + k)) := by
          intro k hk
          have h := havoid (k + 1) (by simpa using hk)
          have e : i + (k + 1) = i + 1 + k := by omega
          rw [e] at h
          exact h
        have havoid0 := havoid 0 (by simp)
        rw [Nat.add_zero] at havoid0
        rw [huntouched1 r c havoid1, hwrite r c, if_neg havoid0]
      · intro k hk
        rcases Nat.eq_zero_or_pos k with rfl | hkpos
        · have havoid1 : ∀ k', k' < rest.length →
              ¬(runRow startRow dir (i + 0) = runRow startRow dir (i + 1 + k') ∧
                runCol startCol dir (i + 0) = runCol startCol dir (i + 1 + k')) := by
            intro k' hk'
            simp only [Nat.add_zero]
            exact runPos_ne startRow startCol dir (by omega)
          rw [huntouched1 _ _ havoid1]
          simp only [Nat.add_zero]
          rw [hwrite _ _, if_pos ⟨rfl, rfl⟩]
          rfl
        · obtain ⟨k', rfl⟩ : ∃ k', k = k' + 1 := ⟨k - 1, by omega⟩
          have hk' : k' < rest.length := by simp at hk; omega
          have h := hletters1 k' hk'
          have e : i + 1 + k' = i + (k' + 1) := by omega
          rw [e] at h
          exact h
      · intro r
        have h1 := hrow1 r
        cases dir with
        | horizontal =>
          have h2 := rowLen_setCell hset r
          have hru : runRow startRow Direction.horizontal i = startRow := rfl
          have hcu : runCol startCol Direction.horizontal i = startCol + i := rfl
          rw [hru, hcu] at h2
          simp only [eq_self_iff_true, true_and, List.length_cons] at h1 ⊢
          by_cases hr : r = startRow
          · subst hr
            rw [if_pos rfl] at h2
            rw [if_pos rfl] at h1 ⊢
            omega
          · rw [if_neg hr] at h2
            rw [if_neg hr] at h1 ⊢
            omega
        | vertical =>
          have h2 := rowLen_setCell_le hset r
          have hcu : runCol startCol Direction.vertical i = startCol := rfl
          rw [hcu] at h2
          have hne : ¬(Direction.vertical = Direction.horizontal ∧ r = startRow) :=
            fun hand => by cases hand.1
          rw [if_neg hne] at h1 ⊢
          omega
      · intro r havoid
        have havoid1 : ∀ k, k < rest.length → r ≠ runRow startRow dir (i + 1 + k) := by
          intro k hk
          have h := havoid (k + 1) (by simpa using hk)
          have e : i + (k + 1) = i + 1 + k := by omega
          rw [e] at h
          exact h
        have havoid0 := havoid 0 (by simp)
        rw [Nat.add_zero] at havoid0
        rw [hroweq1 r havoid1, rowLen_setCell hset r, if_neg havoid0]

/-! ### The placement step preserves the invariants -/

theorem cellAt_in_range {g : Grid} {r c : Nat} (h : cellAt g r c ≠ Cell.undef) :
    r < g.length ∧ c < (g.getD r []).length := by
  unfold cellAt at h
  constructor
  · by_contra hr
    rw [List.getD_eq_getElem?_getD g r, List.getElem?_eq_none (by omega)] at h
    simp at h
  · by_contra hc
    rw [List.getD_eq_getElem?_getD (g.getD r []) c,
      List.getElem?_eq_none (by omega)] at h
    simp at h

theorem placeWord_ok {g : Grid} {word : Word} {startRow startCol : Nat}
    {dir : Direction} {g' : Grid} {pw : PlacedWord}
    (h : placeWord g word startRow startCol dir = Except.ok (g', pw)) :
    placeWordCells dir startRow startCol g 0 (upper word) = Except.ok g' ∧
    pw = { word := upper word, startRow := startRow, startCol := startCol
           direction := dir
           endRow := if dir = Direction.vertical then (startRow : Int) + word.length - 1
                     else startRow
           endCol := if dir = Direction.horizontal then (startCol : Int) + word.length - 1
                     else startCol } := by
  unfold placeWord at h
  rcases hc : placeWordCells dir startRow startCol g 0 (upper word) with _ | g1
  · rw [hc] at h; cases h
  · rw [hc] at h
    injection h with h
    have h1 : g1 = g' := congrArg Prod.fst h
    have h2 := congrArg Prod.snd h
    subst h1
    exact ⟨rfl, h2.symm⟩

theorem runRowI_mk {word : Word} {startRow startCol : Nat} {dir : Direction}
    {er ec : Int} (i : Nat) :
    runRowI { word := word, startRow := (startRow : Int), startCol := (startCol : Int)
              direction := dir, endRow := er, endCol := ec } i =
      ((runRow startRow dir i : Nat) : Int) := by
  unfold runRowI runRow
  cases dir <;> simp

theorem runColI_mk {word : Word} {startRow startCol : Nat} {dir : Direction}
    {er ec : Int} (i : Nat) :
    runColI { word := word, startRow := (startRow : Int), startCol := (startCol : Int)
              direction := dir, endRow := er, endCol := ec } i =
      ((runCol startCol dir i : Nat) : Int) := by
  unfold runColI runCol
  cases dir <;> simp

theorem cellAtI_natCast (g : Grid) (r c : Nat) :
    cellAtI g (r : Int) (c : Int) = cellAt g r c := by
  unfold cellAtI
  rw [if_pos ⟨Int.natCast_nonneg r, Int.natCast_nonneg c⟩, Int.toNat_natCast,
    Int.toNat_natCast]

/-- Core preservation lemma: a successful `placeWord` whose run-crossing
letters agree with the existing placed words, and whose writes are
extension-safe, preserves the generation invariant and records a well-formed
`PlacedWord`. -/
theorem WFState_place_core {g : Grid} {pws : List PlacedWord} {word : Word}
    {startRow startCol : Nat} {dir : Direction} {g' : Grid} {pw : PlacedWord}
    (hwf : WFState g pws)
    (hok : placeWord g word startRow startCol dir = Except.ok (g', pw))
    (hagree : ∀ w ∈ pws, ∀ j < w.word.length, ∀ k < (upper word).length,
      runRowI w j = ((runRow startRow dir k : Nat) : Int) →
      runColI w j = ((runCol startCol dir k : Nat) : Int) →
      w.word.getD j 'A' = (upper word).getD k 'A')
    (hsafe : WriteSafe g word startRow startCol dir) :
    WFState g' (pws ++ [pw]) := by
  obtain ⟨hwfw, hletters, hcover, hnoundef⟩ := hwf
  obtain ⟨hcells, rfl⟩ := placeWord_ok hok
  obtain ⟨hlen, huntouched, hwritten, hrowle, hroweq⟩ :=
    placeWordCells_spec dir startRow startCol (upper word) g 0 g' hcells
  simp only [Nat.zero_add] at huntouched hwritten hrowle hroweq
  have hulen : (upper word).length = word.length := List.length_map _ _
  -- a cell is on the written run or keeps its old value
  have hcases : ∀ r c : Nat,
      (cellAt g' r c = cellAt g r c ∧
        ∀ k, k < (upper word).length → ¬(r = runRow startRow dir k ∧
          c = runCol startCol dir k)) ∨
      ∃ k, k < (upper word).length ∧ r = runRow startRow dir k ∧
        c = runCol startCol dir k := by
    intro r c
    by_cases hrun : ∃ k, k < (upper word).length ∧ r = runRow startRow dir k ∧
        c = runCol startCol dir k
    · exact Or.inr hrun
    · push_neg at hrun
      exact Or.inl ⟨huntouched r c fun k hk hand => hrun k hk hand.1 hand.2,
        fun k hk hand => hrun k hk hand.1 hand.2⟩
  refine ⟨?_, ?_, ?_, ?_⟩
  · intro w hw
    rcases List.mem_append.mp hw with hw | hw
    · exact hwfw w hw
    · rcases List.mem_singleton.mp hw with rfl
      refine ⟨by rw [hulen], by rw [hulen], fun _ => ⟨Int.natCast_nonneg _,
        Int.natCast_nonneg _⟩⟩
  · intro w hw i hi
    rcases List.mem_append.mp hw with hw | hw
    · -- an old word: its cells are either untouched or rewritten with the
      -- same letter (the crossing letters agree)
      have hold := hletters w hw i hi
      have hnn : 0 ≤ runRowI w i ∧ 0 ≤ runColI w i := by
        by_contra hneg
        rw [cellAtI, if_neg hneg] at hold
        cases hold
      obtain ⟨hnr, hnc⟩ := hnn
      rw [cellAtI, if_pos ⟨hnr, hnc⟩] at hold ⊢
      rcases hcases (runRowI w i).toNat (runColI w i).toNat with
        ⟨hsame, _⟩ | ⟨k, hk, hr, hc⟩
      · rw [hsame]; exact hold
      · have hint : runRowI w i = ((runRow startRow dir k : Nat) : Int) := by omega
        have hint2 : runColI w i = ((runCol startCol dir k : Nat) : Int) := by omega
        have hag := hagree w hw i hi k hk hint hint2
        rw [hr, hc, hwritten k hk, ← hag]
    · rcases List.mem_singleton.mp hw with rfl
      simp only [runRowI_mk, runColI_mk, cellAtI_natCast]
      simp only at hi
      exact hwritten i hi
  · intro r c ch hcell
    rcases hcases r c with ⟨hsame, _⟩ | ⟨k, hk, rfl, rfl⟩
    · rw [hsame] at hcell
      obtain ⟨w, hw, i, hi, hfacts⟩ := hcover r c ch hcell
      exact ⟨w, List.mem_append_left _ hw, i, hi, hfacts⟩
    · refine ⟨_, List.mem_append_right _ (List.mem_singleton_self _), k, ?_, ?_, ?_, ?_⟩
      · simpa using hk
      · rw [runRowI_mk]
      · rw [runColI_mk]
      · rw [hwritten k hk] at hcell
        injection hcell with hcell
  · -- no `undefined` hole appears
    intro r c hr hc
    have hglen : g'.length = g.length := hlen
    rcases hcases r c with ⟨hsame, hnotrun⟩ | ⟨k, hk, rfl, rfl⟩
    · rw [hsame]
      by_cases hcold : c < (g.getD r []).length
      · exact hnoundef r c (by omega) hcold
      · exfalso
        have hbound := hrowle r
        have hne : word ≠ [] := by
          intro hempty
          have hcond : ∀ k, k < (upper word).length → r ≠ runRow startRow dir k := by
            intro k hkl
            rw [hempty] at hkl
            simp [upper] at hkl
          have heq := hroweq r hcond
          omega
        obtain ⟨hsafeH, hsafeV⟩ := hsafe hne
        cases dir with
        | horizontal =>
          have hsc := hsafeH rfl
          by_cases hrr : r = startRow
          · rw [if_pos ⟨rfl, hrr⟩] at hbound
            rw [← hrr] at hsc
            rcases max_choice ((g.getD r []).length)
                (startCol + 0 + (upper word).length) with hm | hm <;>
              rw [hm] at hbound
            · omega
            · have hck : c - startCol < (upper word).length := by omega
              refine hnotrun (c - startCol) hck ⟨hrr, ?_⟩
              show c = startCol + (c - startCol)
              omega
          · have heq := hroweq r fun k hkl => (fun hcontra => hrr hcontra : r ≠ startRow)
            omega
        | vertical =>
          have hvne : ¬(Direction.vertical = Direction.horizontal ∧ r = startRow) :=
            fun hand => by cases hand.1
          rw [if_neg hvne] at hbound
          rcases max_choice ((g.getD r []).length) (startCol + 1) with hm | hm <;>
            rw [hm] at hbound
          · omega
          · by_cases hrr : ∃ k, k < (upper word).length ∧ r = startRow + k
            · obtain ⟨k, hkl, rfl⟩ := hrr
              have hsc := hsafeV rfl k (by rw [← hulen]; omega)
              refine hnotrun k hkl ⟨rfl, ?_⟩
              show c = startCol
              omega
            · push_neg at hrr
              have heq := hroweq r fun k hkl =>
                (fun hcontra => (hrr k hkl) hcontra : r ≠ startRow + k)
              omega
    · rw [hwritten k hk]
      simp

/-! ### From a validated placement to the invariant hypotheses -/

theorem upper_getD {word : Word} {k : Nat} (hk : k < word.length) :
    (upper word).getD k 'A' = Char.toUpper (word.getD k 'A') := by
  unfold upper
  rw [List.getD_eq_getElem?_getD, List.getElem?_map,
    List.getD_eq_getElem?_getD, List.getElem?_eq_getElem hk]
  rfl

/-- The per-cell compatibility check guarantees every run cell is in range,
so the placement writes never skip an index. -/
theorem writeSafe_of_cellsOk {g : Grid} {word : Word} {startRow startCol : Nat}
    {dir : Direction} (hcells : specCellsOk g word startRow startCol dir) :
    WriteSafe g word startRow startCol dir := by
  intro hne
  have hlen : 0 < word.length := List.length_pos.mpr hne
  constructor
  · intro hdir
    subst hdir
    have h0 := hcells 0 hlen
    have hnu : cellAt g (runRow startRow Direction.horizontal 0)
        (runCol startCol Direction.horizontal 0) ≠ Cell.undef := by
      rcases h0 with h | h <;> rw [h] <;> intro hx <;> cases hx
    have hin := (cellAt_in_range hnu).2
    have hr : runRow startRow Direction.horizontal 0 = startRow := by simp [runRow]
    have hc : runCol startCol Direction.horizontal 0 = startCol := by simp [runCol]
    rw [hr, hc] at hin
    omega
  · intro hdir k hk
    subst hdir
    have h0 := hcells k hk
    have hnu : cellAt g (runRow startRow Direction.vertical k)
        (runCol startCol Direction.vertical k) ≠ Cell.undef := by
      rcases h0 with h | h <;> rw [h] <;> intro hx <;> cases hx
    have hin := (cellAt_in_range hnu).2
    have hr : runRow startRow Direction.vertical k = startRow + k := by simp [runRow]
    have hc : runCol startCol Direction.vertical k = startCol := by simp [runCol]
    rw [hr, hc] at hin
    omega

/-- The per-cell compatibility check forces any old word crossing the run to
agree with the new word's letter at the shared position. -/
theorem agree_of_cellsOk {g : Grid} {pws : List PlacedWord} {word : Word}
    {startRow startCol : Nat} {dir : Direction}
    (hletters : LettersInv g pws)
    (hcells : specCellsOk g word startRow startCol dir) :
    ∀ w ∈ pws, ∀ j, j < w.word.length → ∀ k, k < (upper word).length →
      runRowI w j = ((runRow startRow dir k : Nat) : Int) →
      runColI w j = ((runCol startCol dir k : Nat) : Int) →
      w.word.getD j 'A' = (upper word).getD k 'A' := by
  intro w hw j hj k hk hr hc
  have hulen : (upper word).length = word.length := List.length_map _ _
  have hlet := hletters w hw j hj
  rw [hr, hc, cellAtI_natCast] at hlet
  rcases hcells k (by omega) with h | h
  · rw [hlet] at h; cases h
  · rw [hlet] at h
    injection h with h
    rw [upper_getD (by omega)]
    exact h

/-- A placement validated by `canPlaceWord` preserves the generation
invariant. -/
theorem WFState_place_of_canPlace {g : Grid} {pws : List PlacedWord} {word : Word}
    {startRow startCol : Nat} {dir : Direction} {level : Level} {g' : Grid}
    {pw : PlacedWord} (hwf : WFState g pws)
    (hcan : canPlaceWord g word startRow startCol dir pws level = true)
    (hok : placeWord g word startRow startCol dir = Except.ok (g', pw)) :
    WFState g' (pws ++ [pw]) := by
  rcases (canPlaceWord_eq_true_iff g word startRow startCol dir pws level).mp hcan with
    ⟨-, h2, -⟩
  have hcells : specCellsOk g word startRow startCol dir := fun i hi => (h2 i hi).1
  have hwf' := hwf
  obtain ⟨-, hletters, -, -⟩ := hwf'
  exact WFState_place_core hwf hok (agree_of_cellsOk hletters hcells)
    (writeSafe_of_cellsOk hcells)

/-- Every placement accepted by the candidate loop of `tryPlaceWord` preserves
the generation invariant. -/
theorem WFState_tryCands {g : Grid} {pws : List PlacedWord} {gridSize : Nat}
    {word : Word} {level : Level} (hwf : WFState g pws) :
    ∀ (cands : List Cand) {g' : Grid} {pw : PlacedWord},
      tryCands g pws gridSize word level cands = Except.ok (some (g', pw)) →
      WFState g' (pws ++ [pw]) := by
  intro cands
  induction cands with
  | nil =>
    intro g' pw h
    rw [tryCands] at h
    injection h with h
    cases h
  | cons c rest ih =>
    intro g' pw h
    simp only [tryCands] at h
    by_cases h1 : c.row < 0 ∨ c.col < 0
    · rw [if_pos h1] at h
      exact ih h
    · rw [if_neg h1] at h
      by_cases h2 : (gridSize : Int) ≤
            (if c.direction = Direction.vertical then c.row + (word.length : Int) - 1
             else c.row) ∨
          (gridSize : Int) ≤
            (if c.direction = Direction.horizontal then c.col + (word.length : Int) - 1
             else c.col)
      · rw [if_pos h2] at h
        exact ih h
      · rw [if_neg h2] at h
        by_cases h3 : canPlaceWord g word c.row.toNat c.col.toNat c.direction pws level
            = true
        · rw [if_pos h3] at h
          rcases hpw : placeWord g word c.row.toNat c.col.toNat c.direction with u | gp
          · rw [hpw] at h
            exact Except.noConfusion h
          · rw [hpw] at h
            injection h with h
            injection h with h
            rw [h] at hpw
            exact WFState_place_of_canPlace hwf h3 hpw
        · rw [if_neg h3] at h
          exact ih h

/-- `tryPlaceWord` preserves the generation invariant. -/
theorem WFState_tryPlaceWord {g : Grid} {pws : List PlacedWord} {gridSize : Nat}
    {word : Word} {level : Level} {σ : Rand} {g' : Grid} {pw : PlacedWord}
    (hwf : WFState g pws)
    (h : (tryPlaceWord g pws gridSize word level σ).1 = Except.ok (some (g', pw))) :
    WFState g' (pws ++ [pw]) := by
  unfold tryPlaceWord at h
  exact WFState_tryCands hwf _ h

/-! ### The first placement onto the empty grid -/

theorem draw_fst_lt {σ : Rand} {m : Nat} (hm : m ≠ 0) : (draw σ m).1 < m := by
  unfold draw
  simp only [if_neg hm]
  exact Nat.mod_lt _ (Nat.pos_of_ne_zero hm)

/-- Every row index a successful write loop touches exists in the grid. -/
theorem placeWordCells_rows_lt (dir : Direction) (startRow startCol : Nat) :
    ∀ (rest : List Char) (g : Grid) (i : Nat) (g' : Grid),
      placeWordCells dir startRow startCol g i rest = Except.ok g' →
      ∀ k, k < rest.length → runRow startRow dir (i + k) < g.length := by
  intro rest
  induction rest with
  | nil => intro g i g' _ k hk; simp at hk
  | cons ch rest ih =>
    intro g i g' hok k hk
    rw [placeWordCells] at hok
    rcases hset : setCell g (runRow startRow dir i) (runCol startCol dir i)
        (Cell.letter ch) with _ | g1
    · rw [hset] at hok; cases hok
    · rw [hset] at hok
      have hg1len : g1.length = g.length := length_setCell hset
      rcases Nat.eq_zero_or_pos k with rfl | hpos
      · have hrow : runRow startRow dir i < g.length := by
          unfold setCell at hset
          by_cases hr : runRow startRow dir i < g.length
          · exact hr
          · rw [if_neg hr] at hset; cases hset
        simpa using hrow
      · obtain ⟨k2, rfl⟩ : ∃ k2, k = k2 + 1 := ⟨k - 1, by omega⟩
        have hk2 : k2 < rest.length := by simp at hk; omega
        have h := ih g1 (i + 1) g' hok k2 hk2
        rw [hg1len] at h
        have e : i + 1 + k2 = i + (k2 + 1) := by omega
        rw [e] at h
        exact h

theorem cellAt_createEmptyGrid (n r c : Nat) :
    cellAt (createEmptyGrid n) r c =
      if r < n ∧ c < n then Cell.empty else Cell.undef := by
  unfold createEmptyGrid cellAt
  by_cases hr : r < n
  · by_cases hc : c < n
    · rw [if_pos ⟨hr, hc⟩]
      simp [List.getD_eq_getElem?_getD, List.getElem?_replicate, hr, hc]
    · rw [if_neg (fun hand => hc hand.2)]
      simp [List.getD_eq_getElem?_getD, List.getElem?_replicate, hr, hc]
  · rw [if_neg (fun hand => hr hand.1)]
    simp [List.getD_eq_getElem?_getD, List.getElem?_replicate, hr]

theorem rowLen_createEmptyGrid (n r : Nat) :
    ((createEmptyGrid n).getD r []).length = if r < n then n else 0 := by
  unfold createEmptyGrid
  by_cases hr : r < n <;>
    simp [List.getD_eq_getElem?_getD, List.getElem?_replicate, hr]

/-- The empty grid with no placed words satisfies the generation invariant. -/
theorem WFState_empty (n : Nat) : WFState (createEmptyGrid n) [] := by
  refine ⟨fun w hw => absurd hw (List.not_mem_nil w),
    fun w hw => absurd hw (List.not_mem_nil w), ?_, ?_⟩
  · intro r c ch hcell
    rw [cellAt_createEmptyGrid] at hcell
    by_cases hb : r < n ∧ c < n
    · rw [if_pos hb] at hcell; cases hcell
    · rw [if_neg hb] at hcell; cases hcell
  · intro r c hr hc
    rw [cellAt_createEmptyGrid]
    have hn : r < n := by
      unfold createEmptyGrid at hr
      simpa using hr
    have hcn : c < n := by
      rw [rowLen_createEmptyGrid, if_pos hn] at hc
      exact hc
    rw [if_pos ⟨hn, hcn⟩]
    intro hx; cases hx

/-- A successful `placeWord` onto the empty grid, anchored at a column within
the nominal width, yields the invariant for the singleton word list. -/
theorem WFState_placeWord_empty {n : Nat} {word : Word} {startRow startCol : Nat}
    {dir : Direction} {g' : Grid} {pw : PlacedWord} (hcol : startCol ≤ n)
    (h : placeWord (createEmptyGrid n) word startRow startCol dir = Except.ok (g', pw)) :
    WFState g' [pw] := by
  obtain ⟨hcells, -⟩ := placeWord_ok h
  have hlen : (createEmptyGrid n).length = n := by
    unfold createEmptyGrid; exact List.length_replicate _ _
  have hsafe : WriteSafe (createEmptyGrid n) word startRow startCol dir := by
    intro hne
    have hul : (upper word).length = word.length := List.length_map _ _
    have hwlen : 0 < (upper word).length := by
      rw [hul]; exact List.length_pos.mpr hne
    constructor
    · intro hdir
      subst hdir
      have h0 := placeWordCells_rows_lt Direction.horizontal startRow startCol
        (upper word) _ 0 _ hcells 0 hwlen
      rw [hlen] at h0
      have hr : runRow startRow Direction.horizontal (0 + 0) = startRow := by
        simp [runRow]
      rw [hr] at h0
      rw [rowLen_createEmptyGrid, if_pos h0]
      exact hcol
    · intro hdir k hk
      subst hdir
      have hku : k < (upper word).length := by rw [hul]; exact hk
      have h0 := placeWordCells_rows_lt Direction.vertical startRow startCol
        (upper word) _ 0 _ hcells k hku
      rw [hlen] at h0
      have hr : runRow startRow Direction.vertical (0 + k) = startRow + k := by
        simp [runRow]
      rw [hr] at h0
      rw [rowLen_createEmptyGrid, if_pos h0]
      exact hcol
  have hagree : ∀ w ∈ ([] : List PlacedWord), ∀ j, j < w.word.length →
      ∀ k, k < (upper word).length →
      runRowI w j = ((runRow startRow dir k : Nat) : Int) →
      runColI w j = ((runCol startCol dir k : Nat) : Int) →
      w.word.getD j 'A' = (upper word).getD k 'A' :=
    fun w hw => absurd hw (List.not_mem_nil w)
  have hres := WFState_place_core (WFState_empty n) h hagree hsafe
  simpa using hres

theorem draw_max_bound (σ : Rand) (G len cO : Nat) (hcO : cO ≤ G) :
    cO + (draw σ (max 1 ((G : Int) - len - cO - cO)).toNat).1 ≤ G := by
  have hle := le_max_left (1 : Int) ((G : Int) - len - cO - cO)
  have h1 : (max 1 ((G : Int) - len - cO - cO)).toNat ≠ 0 := by
    rcases max_choice 1 ((G : Int) - len - cO - cO) with hm | hm <;> rw [hm] at hle ⊢ <;>
      omega
  have h2 := draw_fst_lt (σ := σ) h1
  rcases max_choice 1 ((G : Int) - len - cO - cO) with hm | hm <;>
    rw [hm] at hle h2 ⊢ <;> omega

theorem draw_sub_bound (σ : Rand) (G cO : Nat) (hcO : cO ≤ G) :
    cO + (draw σ (G - cO * 2)).1 ≤ G := by
  by_cases h0 : G - cO * 2 = 0
  · have hz : (draw σ (G - cO * 2)).1 = 0 := by rw [h0]; rfl
    omega
  · have := draw_fst_lt (σ := σ) h0
    omega

/-- A successful `placeFirstWord` is a `placeWord` at some anchor whose column
stays within the nominal grid size. -/
theorem placeFirstWord_cases {cfg : Config} {g : Grid} {fw : Word} {σ : Rand}
    {g' : Grid} {pw : PlacedWord}
    (h : (placeFirstWord cfg g fw σ).1 = Except.ok (g', pw)) :
    ∃ startRow startCol dir, startCol ≤ cfg.maxGridSize ∧
      placeWord g fw startRow startCol dir = Except.ok (g', pw) := by
  have hcO : cfg.maxGridSize / 4 ≤ cfg.maxGridSize := Nat.div_le_self _ _
  simp only [placeFirstWord] at h
  by_cases hd : (draw σ 2).1 = 0
  · rw [if_pos hd] at h
    rw [if_pos rfl, if_neg (by decide : ¬(Direction.horizontal = Direction.vertical))] at h
    exact ⟨_, _, Direction.horizontal, draw_max_bound _ _ _ _ hcO, h⟩
  · rw [if_neg hd] at h
    rw [if_neg (by decide : ¬(Direction.vertical = Direction.horizontal)),
      if_pos rfl] at h
    exact ⟨_, _, Direction.vertical, draw_sub_bound _ _ _ hcO, h⟩

/-- The first placement of an attempt establishes the generation invariant. -/
theorem WFState_placeFirst {cfg : Config} {fw : Word} {σ : Rand}
    {g' : Grid} {pw : PlacedWord}
    (h : (placeFirstWord cfg (createEmptyGrid cfg.maxGridSize) fw σ).1 =
      Except.ok (g', pw)) :
    WFState g' [pw] := by
  obtain ⟨startRow, startCol, dir, hcol, hpw⟩ := placeFirstWord_cases h
  exact WFState_placeWord_empty hcol hpw

/-! ### The remaining-words loop: fuel irrelevance and invariant preservation -/

theorem placeLoop_succ (level : Level) (gridSize maxWords : Nat) :
    ∀ fuel (s : LoopState) (σ : Rand), loopMeasure s ≤ fuel →
      placeLoop level gridSize maxWords (fuel + 1) s σ =
      placeLoop level gridSize maxWords fuel s σ := by
  intro fuel
  induction fuel with
  | zero =>
    intro s σ hm
    have hguard : ¬(s.wordsPlaced < maxWords ∧ 0 < s.availableWords.length ∧
        s.consecutiveFailures < 20) := by
      unfold loopMeasure at hm
      intro hand
      rcases hand with ⟨h1, h2, h3⟩
      omega
    conv_lhs => rw [placeLoop]
    rw [if_neg hguard]
    conv_rhs => rw [placeLoop]
  | succ fuel ih =>
    intro s σ hm
    by_cases hguard : s.wordsPlaced < maxWords ∧ 0 < s.availableWords.length ∧
        s.consecutiveFailures < 20
    · have hidx : (draw σ s.availableWords.length).1 < s.availableWords.length :=
        draw_fst_lt (by omega)
      have herase : (s.availableWords.eraseIdx
          (draw σ s.availableWords.length).1).length = s.availableWords.length - 1 := by
        rw [List.length_eraseIdx, if_pos hidx]
      conv_lhs => rw [placeLoop]
      conv_rhs => rw [placeLoop]
      rw [if_pos hguard, if_pos hguard]
      rcases htry : tryPlaceWord s.grid s.placedWords gridSize
          (s.availableWords.getD (draw σ s.availableWords.length).1 []) level
          (draw σ s.availableWords.length).2 with ⟨r, σ1⟩
      rcases r with u | o
      · rfl
      · rcases o with _ | gp
        · by_cases h5 : 5 ≤ s.consecutiveFailures + 1
          · simp only [h5, if_true]
            refine ih _ _ ?_
            show (s.availableWords.eraseIdx
              (draw σ s.availableWords.length).1).length * 21 + (20 - 0) ≤ fuel
            unfold loopMeasure at hm
            omega
          · simp only [h5, if_false]
            refine ih _ _ ?_
            show s.availableWords.length * 21 + (20 - (s.consecutiveFailures + 1)) ≤ fuel
            unfold loopMeasure at hm
            omega
        · refine ih _ _ ?_
          show (s.availableWords.eraseIdx
            (draw σ s.availableWords.length).1).length * 21 + (20 - 0) ≤ fuel
          unfold loopMeasure at hm
          omega
    · conv_lhs => rw [placeLoop]
      conv_rhs => rw [placeLoop]
      rw [if_neg hguard, if_neg hguard]

/-- Any fuel at least `loopFuel s` gives the same loop result: the fuel is
only a termination device. -/
theorem placeLoop_fuel (level : Level) (gridSize maxWords : Nat) (s : LoopState)
    (σ : Rand) : ∀ fuel, loopFuel s ≤ fuel →
      placeLoop level gridSize maxWords fuel s σ =
      placeLoop level gridSize maxWords (loopFuel s) s σ := by
  intro fuel
  induction fuel with
  | zero =>
    intro h
    exfalso
    unfold loopFuel at h
    omega
  | succ fuel ih =>
    intro h
    rcases Nat.eq_or_lt_of_le h with heq | hlt
    · rw [heq]
    · have hf : loopFuel s ≤ fuel := by omega
      have hmeas : loopMeasure s ≤ fuel := by
        unfold loopMeasure
        unfold loopFuel at hf
        omega
      rw [placeLoop_succ level gridSize maxWords fuel s σ hmeas, ih hf]

/-- The remaining-words loop preserves the generation invariant and only ever
appends to the placed-word list. -/
theorem WFState_placeLoop (level : Level) (gridSize maxWords : Nat) :
    ∀ fuel (s : LoopState) (σ : Rand) (s' : LoopState) (σ' : Rand),
      placeLoop level gridSize maxWords fuel s σ = (Except.ok s', σ') →
      WFState s.grid s.placedWords →
      WFState s'.grid s'.placedWords ∧
        ∃ extra, s'.placedWords = s.placedWords ++ extra := by
  intro fuel
  induction fuel with
  | zero =>
    intro s σ s' σ' h hwf
    rw [placeLoop] at h
    injection h with h1 h2
    injection h1 with h1
    subst h1
    exact ⟨hwf, [], by simp⟩
  | succ fuel ih =>
    intro s σ s' σ' h hwf
    rw [placeLoop] at h
    by_cases hguard : s.wordsPlaced < maxWords ∧ 0 < s.availableWords.length ∧
        s.consecutiveFailures < 20
    · rw [if_pos hguard] at h
      rcases htry : tryPlaceWord s.grid s.placedWords gridSize
          (s.availableWords.getD (draw σ s.availableWords.length).1 []) level
          (draw σ s.availableWords.length).2 with ⟨r, σ1⟩
      rw [htry] at h
      rcases r with u | o
      · injection h with h1 h2
        exact Except.noConfusion h1
      · rcases o with _ | gp
        · simp only [] at h
          by_cases h5 : 5 ≤ s.consecutiveFailures + 1
          · rw [if_pos h5] at h
            obtain ⟨hwf2, extra, hext⟩ := ih _ _ _ _ h hwf
            exact ⟨hwf2, extra, hext⟩
          · rw [if_neg h5] at h
            obtain ⟨hwf2, extra, hext⟩ := ih _ _ _ _ h hwf
            exact ⟨hwf2, extra, hext⟩
        · have hwf1 : WFState gp.1 (s.placedWords ++ [gp.2]) :=
            WFState_tryPlaceWord hwf (by rw [htry])
          obtain ⟨hwf2, extra, hext⟩ := ih _ _ _ _ h hwf1
          refine ⟨hwf2, [gp.2] ++ extra, ?_⟩
          rw [hext]
          simp
    · rw [if_neg hguard] at h
      injection h with h1 h2
      injection h1 with h1
      subst h1
      exact ⟨hwf, [], by simp⟩

/-! ### Structure of successful attempts, the optimizer loop, and the fallback -/

/-- A successful attempt is: a first placement, a run of the remaining-words
loop, then trim/adjust; its stats fields are computed from the adjusted
words. -/
theorem attemptGeneration_ok {words : List Word} {cfg : Config} {n : Nat} {σ : Rand}
    {res : CrosswordResult} {σ2 : Rand}
    (h : attemptGeneration words cfg n σ = (Except.ok res, σ2)) :
    ∃ g pws, WFState g pws ∧ 0 < pws.length ∧
      res.grid = trimGrid g ∧
      res.placedWords = adjustWordCoordinatesForTrimmedGrid pws g (trimGrid g) ∧
      res.stats.wordsUsed = res.placedWords.length ∧
      res.stats.gridSize = calculateMinGridSize res.placedWords ∧
      res.stats.attempts = n + 1 := by
  simp only [attemptGeneration] at h
  rcases hsel : (shuffleArray (selectRandomWords words cfg.toOptions σ).1
      (selectRandomWords words cfg.toOptions σ).2).1 with _ | ⟨fw, rest⟩
  · rw [hsel] at h
    simp only [] at h
    injection h with h1 h2
    exact Except.noConfusion h1
  · rw [hsel] at h
    simp only [] at h
    rcases hpf : placeFirstWord cfg (createEmptyGrid cfg.maxGridSize) fw
        (shuffleArray (selectRandomWords words cfg.toOptions σ).1
          (selectRandomWords words cfg.toOptions σ).2).2 with ⟨e1, σ3⟩
    rw [hpf] at h
    rcases e1 with u | gp
    · simp only [] at h
      injection h with h1 h2
      exact Except.noConfusion h1
    · simp only [] at h
      have hwf0 : WFState gp.1 [gp.2] :=
        WFState_placeFirst (by rw [hpf])
      rcases hpr : placeRemainingWords cfg cfg.maxGridSize
          { grid := gp.1, placedWords := [gp.2], availableWords := rest
            wordsPlaced := 0, consecutiveFailures := 0 } σ3 with ⟨e2, σ4⟩
      rw [hpr] at h
      rcases e2 with u | s1
      · simp only [] at h
        injection h with h1 h2
        exact Except.noConfusion h1
      · simp only [] at h
        injection h with h1 h2
        injection h1 with h1
        subst h1
        unfold placeRemainingWords at hpr
        obtain ⟨hwfs1, extra, hext⟩ :=
          WFState_placeLoop cfg.validationLevel cfg.maxGridSize _ _ _ _ _ _ hpr hwf0
        refine ⟨s1.grid, s1.placedWords, hwfs1, ?_, rfl, rfl, rfl, rfl, rfl⟩
        rw [hext]
        simp

/-- A successful fallback is either the canonical empty result (empty
selection) or a single horizontal word placed at the origin of a fresh grid,
trimmed and adjusted. -/
theorem fallbackResult_ok {words : List Word} {cfg : Config} {σ : Rand}
    {res : CrosswordResult}
    (h : fallbackResult words cfg σ = Except.ok res) :
    (res.grid = [] ∧ res.placedWords = [] ∧ res.stats.wordsUsed = 0 ∧
      res.stats.attempts = cfg.maxAttempts ∧
      (selectRandomWords words { cfg.toOptions with wordCount := some 1 } σ).1 = []) ∨
    (∃ g pws, WFState g pws ∧ pws.length = 1 ∧
      res.grid = trimGrid g ∧
      res.placedWords = adjustWordCoordinatesForTrimmedGrid pws g (trimGrid g) ∧
      res.placedWords.length = 1 ∧
      res.stats.wordsUsed = 1 ∧
      res.stats.gridSize = calculateMinGridSize res.placedWords) := by
  simp only [fallbackResult] at h
  rcases hsel : (selectRandomWords words { cfg.toOptions with wordCount := some 1 } σ).1
    with _ | ⟨w, ws⟩
  · rw [hsel] at h
    simp only [] at h
    injection h with h1
    subst h1
    exact Or.inl ⟨rfl, rfl, rfl, rfl, rfl⟩
  · rw [hsel] at h
    simp only [] at h
    rcases hpw : placeWord (createEmptyGrid (min (jsOrNat ((w :: ws).head?.map
        List.length) 5) cfg.maxGridSize)) w 0 0 Direction.horizontal with u | gp
    · rw [hpw] at h
      simp only [] at h
      exact Except.noConfusion h
    · rw [hpw] at h
      simp only [] at h
      injection h with h1
      subst h1
      have hwf : WFState gp.1 [gp.2] :=
        WFState_placeWord_empty (Nat.zero_le _) hpw
      refine Or.inr ⟨gp.1, [gp.2], hwf, rfl, rfl, rfl, ?_, rfl, rfl⟩
      unfold adjustWordCoordinatesForTrimmedGrid
      by_cases hc : gp.1.length = 0 ∨ (trimGrid gp.1).length = 0
      · rw [if_pos hc]
        rfl
      · rw [if_neg hc]
        simp

/-- Any result the optimizer loop keeps came from a successful attempt. -/
theorem optimizerLoop_some {words : List Word} {cfg : Config}
    {P : CrosswordResult → Prop}
    (hA : ∀ n σ1 res1 σ2, attemptGeneration words cfg n σ1 = (Except.ok res1, σ2) →
      P res1) :
    ∀ (k n : Nat) (best : Option CrosswordResult) (bestScore : ℚ) (σ : Rand)
      (res : CrosswordResult) (σ2 : Rand),
      (∀ b, best = some b → P b) →
      optimizerLoop words cfg k n best bestScore σ = (some res, σ2) → P res := by
  intro k
  induction k with
  | zero =>
    intro n best bestScore σ res σ2 hbest h
    rw [optimizerLoop] at h
    injection h with h1 h2
    exact hbest res h1
  | succ k ih =>
    intro n best bestScore σ res σ2 hbest h
    rw [optimizerLoop] at h
    rcases hatt : attemptGeneration words cfg n σ with ⟨e, σ3⟩
    rw [hatt] at h
    rcases e with u | r
    · exact ih _ _ _ _ _ _ hbest h
    · simp only [] at h
      by_cases hsc : bestScore < calculateScore r
      · rw [if_pos hsc] at h
        by_cases hwc : cfg.wordCount ≤ r.placedWords.length
        · rw [if_pos hwc] at h
          injection h with h1 h2
          injection h1 with h1
          subst h1
          exact hA _ _ _ _ hatt
        · rw [if_neg hwc] at h
          refine ih _ _ _ _ _ _ ?_ h
          intro b hb
          injection hb with hb
          subst hb
          exact hA _ _ _ _ hatt
      · rw [if_neg hsc] at h
        exact ih _ _ _ _ _ _ hbest h

/-- Every result `generateCrossword` returns comes from a successful attempt
or from the fallback. -/
theorem generateCrossword_ok_prop {words : List Word} {options : CrosswordOptions}
    {σ : Rand} {res : CrosswordResult} {P : CrosswordResult → Prop}
    (h : generateCrossword words options σ = Except.ok res)
    (hA : ∀ n σ1 res1 σ2, attemptGeneration words (resolveConfig options) n σ1 =
      (Except.ok res1, σ2) → P res1)
    (hF : ∀ σ1 res1, fallbackResult words (resolveConfig options) σ1 =
      Except.ok res1 → P res1) :
    P res := by
  simp only [generateCrossword] at h
  rcases hopt : optimizerLoop words (resolveConfig options)
      (resolveConfig options).maxAttempts 0 none 0 σ with ⟨ob, σ2⟩
  rw [hopt] at h
  rcases ob with _ | r
  · simp only [] at h
    exact hF _ _ h
  · simp only [] at h
    injection h with h1
    subst h1
    exact optimizerLoop_some hA _ _ _ _ _ _ _ (fun b hb => Option.noConfusion hb) hopt

/-! ### The `adjust` scan computes the same minima as the trim scan -/

theorem foldMins_cons (p : Nat × Nat) (P : List (Nat × Nat)) (mm : Int × Int) :
    foldMins (p :: P) mm = foldMins P (min mm.1 (p.1 : Int), min mm.2 (p.2 : Int)) := rfl

theorem foldMins_append (P Q : List (Nat × Nat)) (mm : Int × Int) :
    foldMins (P ++ Q) mm = foldMins Q (foldMins P mm) := by
  unfold foldMins
  rw [List.foldl_append]

theorem foldl_row_eq_foldMins (r : Nat) (l : List (Nat × Cell)) (mm : Int × Int) :
    l.foldl (fun mm2 cc => if cc.2 ≠ Cell.empty then
        (min mm2.1 (r : Int), min mm2.2 (cc.1 : Int)) else mm2) mm =
    foldMins (l.filterMap fun cc =>
      if cc.2 ≠ Cell.empty then some (r, cc.1) else none) mm := by
  induction l generalizing mm with
  | nil => rfl
  | cons cc l ih =>
    by_cases h : cc.2 ≠ Cell.empty
    · simp only [List.foldl_cons, List.filterMap_cons, if_pos h, ih, foldMins_cons]
    · simp only [List.foldl_cons, List.filterMap_cons, if_neg h, ih]

theorem adjustScan_eq_foldMins (g : Grid) :
    adjustScan g = foldMins (occPositions g) ((g.length : Int), (gridWidth g : Int)) := by
  unfold adjustScan occPositions
  generalize ((g.length : Int), (gridWidth g : Int)) = init
  generalize g.enum = L
  induction L generalizing init with
  | nil => rfl
  | cons rr L ih =>
    simp only [List.foldl_cons, List.flatMap_cons, foldMins_append]
    rw [ih, foldl_row_eq_foldMins]

theorem foldMins_eq_foldBounds (P : List (Nat × Nat)) :
    ∀ (a x b y : Int),
      foldMins P (a, b) = ((foldBounds P ⟨a, x, b, y⟩).minRow,
        (foldBounds P ⟨a, x, b, y⟩).minCol) := by
  induction P with
  | nil => intro a x b y; rfl
  | cons p P ih =>
    intro a x b y
    rw [foldMins_cons, foldBounds_cons]
    exact ih _ _ _ _

/-- The minima-only scan of `adjustWordCoordinatesForTrimmedGrid` agrees with
the bounding-box scan of `trimGrid`. -/
theorem adjustScan_eq_trimBounds (g : Grid) :
    adjustScan g = ((trimBounds g).minRow, (trimBounds g).minCol) := by
  rw [adjustScan_eq_foldMins, trimBounds, scanBounds_eq_foldBounds]
  exact foldMins_eq_foldBounds (occPositions g) (g.length : Int) (-1)
    (gridWidth g : Int) (-1)

/-! ### Transporting the letters invariant through trim and adjust -/

theorem runRowI_shift (w : PlacedWord) (dr dc : Int) (i : Nat) :
    runRowI { w with
      startRow := w.startRow - dr
      startCol := w.startCol - dc
      endRow := w.endRow - dr
      endCol := w.endCol - dc } i = runRowI w i - dr := by
  obtain ⟨ww, sr, sc, d, er, ec⟩ := w
  unfold runRowI
  cases d <;> simp <;> ring

theorem runColI_shift (w : PlacedWord) (dr dc : Int) (i : Nat) :
    runColI { w with
      startRow := w.startRow - dr
      startCol := w.startCol - dc
      endRow := w.endRow - dr
      endCol := w.endCol - dc } i = runColI w i - dc := by
  obtain ⟨ww, sr, sc, d, er, ec⟩ := w
  unfold runColI
  cases d <;> simp <;> ring

/-- A letter cell of a placed word is an occupied position of the grid (in
`Nat` coordinates). -/
theorem letter_mem_occPositions {g : Grid} {pws : List PlacedWord}
    (hletters : LettersInv g pws) {w : PlacedWord} (hw : w ∈ pws) {i : Nat}
    (hi : i < w.word.length) :
    0 ≤ runRowI w i ∧ 0 ≤ runColI w i ∧
    ((runRowI w i).toNat, (runColI w i).toNat) ∈ occPositions g ∧
    cellAt g (runRowI w i).toNat (runColI w i).toNat =
      Cell.letter (w.word.getD i 'A') := by
  have hlet := hletters w hw i hi
  have hnn : 0 ≤ runRowI w i ∧ 0 ≤ runColI w i := by
    by_contra hneg
    rw [cellAtI, if_neg hneg] at hlet
    cases hlet
  rw [cellAtI, if_pos hnn] at hlet
  have hne : cellAt g (runRowI w i).toNat (runColI w i).toNat ≠ Cell.undef := by
    rw [hlet]; intro hx; cases hx
  refine ⟨hnn.1, hnn.2, mem_occPositions.mpr ⟨(cellAt_in_range hne).1,
    (cellAt_in_range hne).2, ?_⟩, hlet⟩
  rw [hlet]; intro hx; cases hx

/-- Trimming and coordinate adjustment preserve the letters invariant. -/
theorem LettersInv_trim_adjust {g : Grid} {pws : List PlacedWord}
    (hwf : WFState g pws) :
    LettersInv (trimGrid g)
      (adjustWordCoordinatesForTrimmedGrid pws g (trimGrid g)) := by
  have hwf2 := hwf
  obtain ⟨hwfw, hletters, hcover, hnoundef⟩ := hwf2
  unfold adjustWordCoordinatesForTrimmedGrid
  by_cases hng : g.length = 0 ∨ (trimGrid g).length = 0
  · rw [if_pos hng]
    intro w hw i hi
    exfalso
    obtain ⟨hnr, hnc, hocc, hlet⟩ := letter_mem_occPositions hletters hw hi
    rcases hng with hng | hng
    · have := (mem_occPositions.mp hocc).1
      omega
    · have hlen := trimGrid_length hocc
      have hsand := trimBounds_sandwich hocc
      rw [hng] at hlen
      omega
  · rw [if_neg hng]
    rw [adjustScan_eq_trimBounds]
    intro w2 hw2 i hi
    rcases List.mem_map.mp hw2 with ⟨w, hw, rfl⟩
    simp only [] at hi ⊢
    have hiw : i < w.word.length := hi
    obtain ⟨hnr, hnc, hocc, hlet⟩ := letter_mem_occPositions hletters hw hiw
    have hsand := trimBounds_sandwich hocc
    have hnnR := trimBounds_minRow_nonneg g
    have hnnC := trimBounds_minCol_nonneg g
    rw [runRowI_shift, runColI_shift]
    have hr0 : 0 ≤ runRowI w i - (trimBounds g).minRow := by omega
    have hc0 : 0 ≤ runColI w i - (trimBounds g).minCol := by omega
    rw [cellAtI, if_pos ⟨hr0, hc0⟩]
    have hdr : (runRowI w i - (trimBounds g).minRow).toNat <
        ((trimBounds g).maxRow + 1 - (trimBounds g).minRow).toNat := by omega
    have hdc : (runColI w i - (trimBounds g).minCol).toNat <
        ((trimBounds g).maxCol + 1 - (trimBounds g).minCol).toNat := by omega
    rw [trimGrid_cellAt hocc hdr hdc]
    have er : (trimBounds g).minRow.toNat +
        (runRowI w i - (trimBounds g).minRow).toNat = (runRowI w i).toNat := by omega
    have ec : (trimBounds g).minCol.toNat +
        (runColI w i - (trimBounds g).minCol).toNat = (runColI w i).toNat := by omega
    rw [er, ec, hlet]

/-! ### The empty-selection path and the word-count bookkeeping -/

theorem adjust_length (pws : List PlacedWord) (g tg : Grid) :
    (adjustWordCoordinatesForTrimmedGrid pws g tg).length = pws.length := by
  unfold adjustWordCoordinatesForTrimmedGrid
  by_cases hc : g.length = 0 ∨ tg.length = 0
  · rw [if_pos hc]
  · rw [if_neg hc]
    exact List.length_map _ _

/-- `stats.wordsUsed` always equals `placedWords.length` in a returned
result. -/
theorem generateCrossword_wordsUsed {words : List Word} {options : CrosswordOptions}
    {σ : Rand} {res : CrosswordResult}
    (h : generateCrossword words options σ = Except.ok res) :
    res.stats.wordsUsed = res.placedWords.length := by
  refine @generateCrossword_ok_prop words options σ res
    (fun r => r.stats.wordsUsed = r.placedWords.length) h ?_ ?_
  · intro n σ1 res1 σ2 hatt
    obtain ⟨g, pws, -, -, -, -, hwu, -⟩ := attemptGeneration_ok hatt
    exact hwu
  · intro σ1 res1 hfb
    rcases fallbackResult_ok hfb with ⟨-, hp, hwu, -⟩ |
      ⟨g, pws, -, -, -, -, hlen, hwu, -⟩
    · rw [hwu, hp]
      rfl
    · rw [hwu, hlen]

theorem filter_toOptions (cfg : Config) (words : List Word) :
    words.filter (lengthOk (cfg.toOptions.minWordLength.getD 3)
      (cfg.toOptions.maxWordLength.getD (jsOrNat cfg.toOptions.maxGridSize 15))) =
    words.filter (lengthOk cfg.minWordLength cfg.maxWordLength) := rfl

theorem filter_toOptions_one (cfg : Config) (words : List Word) :
    words.filter (lengthOk (({ cfg.toOptions with wordCount := some 1 }
        : CrosswordOptions).minWordLength.getD 3)
      (({ cfg.toOptions with wordCount := some 1 }
        : CrosswordOptions).maxWordLength.getD
        (jsOrNat ({ cfg.toOptions with wordCount := some 1 }
          : CrosswordOptions).maxGridSize 15))) =
    words.filter (lengthOk cfg.minWordLength cfg.maxWordLength) := rfl

/-- When the length filter removes every word, `selectRandomWords` returns the
empty list without consuming randomness. -/
theorem selectRandomWords_filter_nil {words : List Word} {opts : CrosswordOptions}
    (σ : Rand)
    (h : words.filter (lengthOk (opts.minWordLength.getD 3)
      (opts.maxWordLength.getD (jsOrNat opts.maxGridSize 15))) = []) :
    selectRandomWords words opts σ = ([], σ) := by
  simp only [selectRandomWords]
  rw [h]
  simp [shuffleArray, shuffleGo]

theorem attemptGeneration_filter_nil {words : List Word} {cfg : Config}
    (h : words.filter (lengthOk cfg.minWordLength cfg.maxWordLength) = [])
    (n : Nat) (σ : Rand) :
    attemptGeneration words cfg n σ = (Except.error (), σ) := by
  have hsel : selectRandomWords words cfg.toOptions σ = ([], σ) :=
    selectRandomWords_filter_nil σ (by rw [filter_toOptions]; exact h)
  simp only [attemptGeneration, hsel]
  rfl

theorem optimizerLoop_filter_nil {words : List Word} {cfg : Config}
    (h : words.filter (lengthOk cfg.minWordLength cfg.maxWordLength) = []) :
    ∀ (k n : Nat) (σ : Rand), optimizerLoop words cfg k n none 0 σ = (none, σ) := by
  intro k
  induction k with
  | zero => intro n σ; rfl
  | succ k ih =>
    intro n σ
    rw [optimizerLoop, attemptGeneration_filter_nil h]
    exact ih _ _

theorem fallbackResult_filter_nil {words : List Word} {cfg : Config}
    (h : words.filter (lengthOk cfg.minWordLength cfg.maxWordLength) = [])
    (σ : Rand) :
    fallbackResult words cfg σ = Except.ok
      { grid := [], placedWords := []
        stats := { wordsUsed := 0, gridSize := { width := 0, height := 0 }
                   totalIntersections := 0, attempts := cfg.maxAttempts } } := by
  have hsel : selectRandomWords words { cfg.toOptions with wordCount := some 1 } σ
      = ([], σ) :=
    selectRandomWords_filter_nil σ (by rw [filter_toOptions_one]; exact h)
  simp only [fallbackResult, hsel]

/-- When the length filter removes every word, `generateCrossword` returns the
canonical empty result. -/
theorem generateCrossword_filter_nil {words : List Word} {options : CrosswordOptions}
    (h : words.filter (lengthOk (resolveConfig options).minWordLength
      (resolveConfig options).maxWordLength) = []) (σ : Rand) :
    generateCrossword words options σ = Except.ok
      { grid := [], placedWords := []
        stats := { wordsUsed := 0, gridSize := { width := 0, height := 0 }
                   totalIntersections := 0
                   attempts := (resolveConfig options).maxAttempts } } := by
  simp only [generateCrossword, optimizerLoop_filter_nil h, fallbackResult_filter_nil h]

/-- When some word survives the length filter, any returned result has at
least one placed word. -/
theorem generateCrossword_pos {words : List Word} {options : CrosswordOptions}
    {σ : Rand} {res : CrosswordResult}
    (h : generateCrossword words options σ = Except.ok res)
    (hF : words.filter (lengthOk (resolveConfig options).minWordLength
      (resolveConfig options).maxWordLength) ≠ []) :
    0 < res.placedWords.length := by
  refine @generateCrossword_ok_prop words options σ res
    (fun r => 0 < r.placedWords.length) h ?_ ?_
  · intro n σ1 res1 σ2 hatt
    obtain ⟨g, pws, -, hpos, -, hpws, -⟩ := attemptGeneration_ok hatt
    rw [hpws, adjust_length]
    exact hpos
  · intro σ1 res1 hfb
    rcases fallbackResult_ok hfb with ⟨-, -, -, -, hsel⟩ |
      ⟨g, pws, -, -, -, -, hlen, -⟩
    · exfalso
      have hFlen : 0 < (words.filter (lengthOk (resolveConfig options).minWordLength
          (resolveConfig options).maxWordLength)).length := List.length_pos.mpr hF
      have h3 : ([] : List Word).length =
          min 1 (words.filter (lengthOk (resolveConfig options).minWordLength
            (resolveConfig options).maxWordLength)).length := by
        rw [← hsel]
        exact selectRandomWords_length words _ σ1
      simp only [List.length_nil] at h3
      omega
    · rw [hlen]
      exact Nat.one_pos

/-! ### Claim C8 -/

/-- C8: for the empty input word list and any options and randomness,
`generateCrossword` returns — without any error — the canonical empty result:
`grid = []`, `placedWords = []`, `wordsUsed = 0` (and the zero grid size, zero
intersections, and the resolved `maxAttempts` as the attempt count). -/
theorem c8_empty_input (options : CrosswordOptions) (σ : Rand) :
    generateCrossword [] options σ = Except.ok
      { grid := [], placedWords := []
        stats := { wordsUsed := 0, gridSize := { width := 0, height := 0 }
                   totalIntersections := 0
                   attempts := (resolveConfig options).maxAttempts } } :=
  generateCrossword_filter_nil (by rfl) σ

/-! ### Claim C9 -/

/-- C9: in every `CrosswordResult` that `generateCrossword` returns — normal
attempts, the single-word fallback, and the empty-input path alike —
`stats.wordsUsed` equals `placedWords.length`. -/
theorem c9_wordsUsed_eq_length {words : List Word} {options : CrosswordOptions}
    {σ : Rand} {res : CrosswordResult}
    (h : generateCrossword words options σ = Except.ok res) :
    res.stats.wordsUsed = res.placedWords.length :=
  generateCrossword_wordsUsed h

/-- C9, witness: the empty-input run with default options. -/
theorem c9_witness :
    ({ grid := [], placedWords := []
       stats := { wordsUsed := 0, gridSize := { width := 0, height := 0 }
                  totalIntersections := 0, attempts := 1 } }
      : CrosswordResult).stats.wordsUsed =
    ({ grid := [], placedWords := []
       stats := { wordsUsed := 0, gridSize := { width := 0, height := 0 }
                  totalIntersections := 0, attempts := 1 } }
      : CrosswordResult).placedWords.length :=
  @c9_wordsUsed_eq_length [] { maxAttempts := some 1 } (fun _ => 0) _ (by rfl)

/-! ### Claim C4 -/

/-- C4, counterexample: a non-empty input word list with `maxAttempts = 1`
for which `generateCrossword` returns a result with `wordsUsed = 0`: the word
`"AB"` is shorter than the default `minWordLength = 3`, the silent length
filter empties the pool, and the fallback produces the empty result. -/
theorem c4_counterexample :
    ([['A', 'B']] : List Word) ≠ [] ∧
    1 ≤ (resolveConfig { maxAttempts := some 1 }).maxAttempts ∧
    generateCrossword [['A', 'B']] { maxAttempts := some 1 } (fun _ => 0) =
      Except.ok
        { grid := [], placedWords := []
          stats := { wordsUsed := 0, gridSize := { width := 0, height := 0 }
                     totalIntersections := 0, attempts := 1 } } :=
  ⟨by decide, by decide, by rfl⟩

/-- C4, amended: in every result `generateCrossword` returns,
`stats.wordsUsed = 0` holds exactly when no input word passes the resolved
length filter (`minWordLength ≤ length ≤ min(maxWordLength, maxGridSize)`);
whenever some input word passes the filter, any returned result places at
least one word. The original claim fails because the silent length filter can
empty a non-empty input list. -/
theorem c4_wordsUsed_amended {words : List Word} {options : CrosswordOptions}
    {σ : Rand} {res : CrosswordResult}
    (h : generateCrossword words options σ = Except.ok res) :
    (res.stats.wordsUsed = 0 ↔
      words.filter (lengthOk (resolveConfig options).minWordLength
        (resolveConfig options).maxWordLength) = []) ∧
    (words.filter (lengthOk (resolveConfig options).minWordLength
        (resolveConfig options).maxWordLength) ≠ [] →
      1 ≤ res.stats.wordsUsed ∧ 0 < res.placedWords.length) := by
  by_cases hF : words.filter (lengthOk (resolveConfig options).minWordLength
      (resolveConfig options).maxWordLength) = []
  · rw [generateCrossword_filter_nil hF σ] at h
    injection h with h
    subst h
    exact ⟨⟨fun _ => hF, fun _ => rfl⟩, fun hc => absurd hF hc⟩
  · have hpos := generateCrossword_pos h hF
    have hwu := generateCrossword_wordsUsed h
    refine ⟨⟨fun h0 => ?_, fun hFc => absurd hFc hF⟩, fun _ => ⟨?_, hpos⟩⟩
    · rw [hwu] at h0
      omega
    · omega

/-- C4, witness: with the single word `"CAT"` surviving the filter, the
returned result places one word. -/
theorem c4_witness :
    1 ≤ ({ grid := [[Cell.letter 'C', Cell.letter 'A', Cell.letter 'T']]
           placedWords := [{ word := ['C', 'A', 'T'], startRow := 0, startCol := 0
                             direction := Direction.horizontal, endRow := 0
                             endCol := 2 }]
           stats := { wordsUsed := 1, gridSize := { width := 3, height := 1 }
                      totalIntersections := 0, attempts := 1 } }
        : CrosswordResult).stats.wordsUsed ∧
    0 < ({ grid := [[Cell.letter 'C', Cell.letter 'A', Cell.letter 'T']]
           placedWords := [{ word := ['C', 'A', 'T'], startRow := 0, startCol := 0
                             direction := Direction.horizontal, endRow := 0
                             endCol := 2 }]
           stats := { wordsUsed := 1, gridSize := { width := 3, height := 1 }
                      totalIntersections := 0, attempts := 1 } }
        : CrosswordResult).placedWords.length :=
  (@c4_wordsUsed_amended [['C', 'A', 'T']]
    { wordCount := some 1, maxAttempts := some 1, maxGridSize := some 5 }
    (fun _ => 0) _ (by with_unfolding_all rfl)).2 (by decide)

/-! ### Claim C1 -/

theorem runRowI_of_horizontal {w : PlacedWord}
    (h : w.direction = Direction.horizontal) (i : Nat) :
    runRowI w i = w.startRow := by
  unfold runRowI
  rw [h]
  rfl

theorem runColI_of_horizontal {w : PlacedWord}
    (h : w.direction = Direction.horizontal) (i : Nat) :
    runColI w i = w.startCol + i := by
  unfold runColI
  rw [h]
  rfl

theorem runRowI_of_vertical {w : PlacedWord}
    (h : w.direction = Direction.vertical) (i : Nat) :
    runRowI w i = w.startRow + i := by
  unfold runRowI
  rw [h]
  rfl

theorem runColI_of_vertical {w : PlacedWord}
    (h : w.direction = Direction.vertical) (i : Nat) :
    runColI w i = w.startCol := by
  unfold runColI
  rw [h]
  rfl

/-- A placed word carries a letter at a coordinate exactly when the coordinate
is one of its run positions. -/
theorem placedLetterAt_eq_some {w : PlacedWord} {row col : Int} {ch : Char} :
    placedLetterAt w row col = some ch ↔
    ∃ i, i < w.word.length ∧ runRowI w i = row ∧ runColI w i = col ∧
      w.word.getD i 'A' = ch := by
  unfold placedLetterAt
  rcases hd : w.direction with _ | _
  case horizontal =>
    simp only [runRowI_of_horizontal hd, runColI_of_horizontal hd]
    constructor
    · intro h
      by_cases hc : row = w.startRow ∧ w.startCol ≤ col ∧
          col < w.startCol + (w.word.length : Int)
      · rw [if_pos hc] at h
        injection h with h
        obtain ⟨h1, h2, h3⟩ := hc
        exact ⟨(col - w.startCol).toNat, by omega, by omega, by omega, h⟩
      · rw [if_neg hc] at h
        cases h
    · rintro ⟨i, hi, h1, h2, h3⟩
      rw [if_pos ⟨h1.symm, by omega, by omega⟩]
      have e : (col - w.startCol).toNat = i := by omega
      rw [e, h3]
  case vertical =>
    simp only [runRowI_of_vertical hd, runColI_of_vertical hd]
    constructor
    · intro h
      by_cases hc : col = w.startCol ∧ w.startRow ≤ row ∧
          row < w.startRow + (w.word.length : Int)
      · rw [if_pos hc] at h
        injection h with h
        obtain ⟨h1, h2, h3⟩ := hc
        exact ⟨(row - w.startRow).toNat, by omega, by omega, by omega, h⟩
      · rw [if_neg hc] at h
        cases h
    · rintro ⟨i, hi, h1, h2, h3⟩
      rw [if_pos ⟨h2.symm, by omega, by omega⟩]
      have e : (row - w.startRow).toNat = i := by omega
      rw [e, h3]

/-- C1: in every result `generateCrossword` returns, whenever two placed words
of different directions both carry a letter at a shared coordinate, the two
letters are identical and the grid cell at that coordinate holds that same
letter. -/
theorem c1_crossing_consistency {words : List Word} {options : CrosswordOptions}
    {σ : Rand} {res : CrosswordResult}
    (h : generateCrossword words options σ = Except.ok res)
    {w1 w2 : PlacedWord} (h1 : w1 ∈ res.placedWords) (h2 : w2 ∈ res.placedWords)
    (hd : w1.direction ≠ w2.direction) {row col : Int} {ch1 ch2 : Char}
    (p1 : placedLetterAt w1 row col = some ch1)
    (p2 : placedLetterAt w2 row col = some ch2) :
    ch1 = ch2 ∧ cellAtI res.grid row col = Cell.letter ch1 := by
  have hres : LettersInv res.grid res.placedWords := by
    refine @generateCrossword_ok_prop words options σ res
      (fun r => LettersInv r.grid r.placedWords) h ?_ ?_
    · intro n σ1 res1 σ2 hatt
      obtain ⟨g, pws, hwf, -, hgrid, hpws, -⟩ := attemptGeneration_ok hatt
      rw [hgrid, hpws]
      exact LettersInv_trim_adjust hwf
    · intro σ1 res1 hfb
      rcases fallbackResult_ok hfb with ⟨hg, hp, -⟩ |
        ⟨g, pws, hwf, -, hgrid, hpws, -⟩
      · rw [hg, hp]
        intro w hw i hi
        cases hw
      · rw [hgrid, hpws]
        exact LettersInv_trim_adjust hwf
  obtain ⟨i, hi, hr1, hc1, hch1⟩ := placedLetterAt_eq_some.mp p1
  obtain ⟨j, hj, hr2, hc2, hch2⟩ := placedLetterAt_eq_some.mp p2
  have e1 := hres w1 h1 i hi
  have e2 := hres w2 h2 j hj
  rw [hr1, hc1] at e1
  rw [hr2, hc2] at e2
  rw [e1] at e2
  injection e2 with e2
  constructor
  · rw [← hch1, ← hch2, e2]
  · rw [← hch1]
    exact e1

/-- C1, witness: the crossing of `"CAT"` and `"ART"` at the shared `A` in a
concrete run. -/
theorem c1_witness :
    ('A' : Char) = 'A' ∧ cellAtI c1Result.grid 0 1 = Cell.letter 'A' :=
  @c1_crossing_consistency [['C', 'A', 'T'], ['A', 'R', 'T']]
    { wordCount := some 2, maxAttempts := some 1, maxGridSize := some 5 }
    (fun _ => 0) c1Result (by with_unfolding_all rfl)
    { word := ['C', 'A', 'T'], startRow := 0, startCol := 0
      direction := Direction.horizontal, endRow := 0, endCol := 2 }
    { word := ['A', 'R', 'T'], startRow := 0, startCol := 1
      direction := Direction.vertical, endRow := 2, endCol := 1 }
    (by decide) (by decide) (by decide) 0 1 'A' 'A' (by decide) (by decide)

/-! ### Claim C6 -/

theorem adjust_eq_map (pws : List PlacedWord) {g tg : Grid}
    (hg : g.length ≠ 0) (ht : tg.length ≠ 0) :
    adjustWordCoordinatesForTrimmedGrid pws g tg =
      pws.map fun w =>
        { w with
          startRow := w.startRow - (adjustScan g).1
          startCol := w.startCol - (adjustScan g).2
          endRow := w.endRow - (adjustScan g).1
          endCol := w.endCol - (adjustScan g).2 } := by
  unfold adjustWordCoordinatesForTrimmedGrid
  rw [if_neg (by push_neg; exact ⟨hg, ht⟩)]

theorem adjust_words (pws : List PlacedWord) (g tg : Grid) :
    ∀ w ∈ pws, ∃ w2 ∈ adjustWordCoordinatesForTrimmedGrid pws g tg,
      w2.word = w.word := by
  intro w hwmem
  unfold adjustWordCoordinatesForTrimmedGrid
  split
  · exact ⟨w, hwmem, rfl⟩
  · exact ⟨_, List.mem_map.mpr ⟨w, hwmem, rfl⟩, rfl⟩

/-- The last run position of a nonempty well-formed word is its end cell. -/
theorem runLast_eq_ends {w : PlacedWord} (hWF : WFWord w) (hne : w.word ≠ []) :
    runRowI w (w.word.length - 1) = w.endRow ∧
    runColI w (w.word.length - 1) = w.endCol := by
  obtain ⟨her, hec, -⟩ := hWF
  have hlen : 0 < w.word.length := List.length_pos.mpr hne
  rcases hd : w.direction with _ | _
  · rw [hd] at her hec
    rw [runRowI_of_horizontal hd, runColI_of_horizontal hd]
    have her2 : w.endRow = w.startRow := by rw [her]; rfl
    have hec2 : w.endCol = w.startCol + (w.word.length : Int) - 1 := by rw [hec]; rfl
    rw [her2, hec2]
    constructor
    · rfl
    · omega
  · rw [hd] at her hec
    rw [runRowI_of_vertical hd, runColI_of_vertical hd]
    have her2 : w.endRow = w.startRow + (w.word.length : Int) - 1 := by rw [her]; rfl
    have hec2 : w.endCol = w.startCol := by rw [hec]; rfl
    rw [her2, hec2]
    constructor
    · omega
    · rfl

/-- Every run position of a well-formed word is bounded by its end cell. -/
theorem runPos_le_ends {w : PlacedWord} (hWF : WFWord w) {i : Nat}
    (hi : i < w.word.length) :
    runRowI w i ≤ w.endRow ∧ runColI w i ≤ w.endCol := by
  obtain ⟨her, hec, -⟩ := hWF
  rcases hd : w.direction with _ | _
  · rw [hd] at her hec
    rw [runRowI_of_horizontal hd, runColI_of_horizontal hd]
    have her2 : w.endRow = w.startRow := by rw [her]; rfl
    have hec2 : w.endCol = w.startCol + (w.word.length : Int) - 1 := by rw [hec]; rfl
    rw [her2, hec2]
    omega
  · rw [hd] at her hec
    rw [runRowI_of_vertical hd, runColI_of_vertical hd]
    have her2 : w.endRow = w.startRow + (w.word.length : Int) - 1 := by rw [her]; rfl
    have hec2 : w.endCol = w.startCol := by rw [hec]; rfl
    rw [her2, hec2]
    omega

theorem foldl_max_proj_eq {α : Type} (l : List α) (f : α → Int) (M : Int)
    (h0 : 0 ≤ M) (hub : ∀ x ∈ l, f x ≤ M) (hat : ∃ x ∈ l, f x = M) :
    l.foldl (fun m x => max m (f x)) 0 = M := by
  have he : l.foldl (fun m x => max m (f x)) 0 = (l.map f).foldl max 0 :=
    (List.foldl_map f max l 0).symm
  rw [he]
  have h1 : (l.map f).foldl max 0 ≤ M :=
    foldl_max_le h0 fun x hx => by
      rcases List.mem_map.mp hx with ⟨y, hy, rfl⟩
      exact hub y hy
  obtain ⟨x, hx, hfx⟩ := hat
  have h2 : M ≤ (l.map f).foldl max 0 := by
    rw [← hfx]
    exact mem_le_foldl_max (List.mem_map.mpr ⟨x, hx, rfl⟩) 0
  omega

theorem calcMinGridSize_height_ne_nil {pws : List PlacedWord} (h : pws ≠ []) :
    (calculateMinGridSize pws).height =
      pws.foldl (fun m w => max m w.endRow) 0 + 1 := by
  unfold calculateMinGridSize
  rw [if_neg fun hc => h (List.length_eq_zero.mp hc)]

theorem calcMinGridSize_width_ne_nil {pws : List PlacedWord} (h : pws ≠ []) :
    (calculateMinGridSize pws).width =
      pws.foldl (fun m w => max m w.endCol) 0 + 1 := by
  unfold calculateMinGridSize
  rw [if_neg fun hc => h (List.length_eq_zero.mp hc)]

/-- With a nonempty list of nonempty placed words satisfying the generation
invariant, `calculateMinGridSize` over the adjusted words equals the trimmed
grid's dimensions. -/
theorem calcMinGridSize_trim_adjust {g : Grid} {pws : List PlacedWord}
    (hwf : WFState g pws) (hne : pws ≠ []) (hw : ∀ w ∈ pws, w.word ≠ []) :
    (calculateMinGridSize (adjustWordCoordinatesForTrimmedGrid pws g
        (trimGrid g))).height = ((trimGrid g).length : Int) ∧
    (calculateMinGridSize (adjustWordCoordinatesForTrimmedGrid pws g
        (trimGrid g))).width = (gridWidth (trimGrid g) : Int) := by
  have hwf2 := hwf
  obtain ⟨hwfw, hletters, hcover, hnoundef⟩ := hwf2
  obtain ⟨w0, hw0⟩ := List.exists_mem_of_ne_nil pws hne
  have h0len : 0 < w0.word.length := List.length_pos.mpr (hw w0 hw0)
  obtain ⟨-, -, hocc0, -⟩ := @letter_mem_occPositions g pws hletters w0 hw0 0 h0len
  have hq0 := mem_occPositions.mp hocc0
  have hgne : g.length ≠ 0 := by omega
  have hsand0 := trimBounds_sandwich hocc0
  have hnnR := trimBounds_minRow_nonneg g
  have hnnC := trimBounds_minCol_nonneg g
  have htlen := trimGrid_length hocc0
  have htw := trimGrid_width hocc0
  have htne : (trimGrid g).length ≠ 0 := by rw [htlen]; omega
  have hub : ∀ w ∈ pws, (trimBounds g).minRow ≤ w.endRow ∧
      w.endRow ≤ (trimBounds g).maxRow ∧
      (trimBounds g).minCol ≤ w.endCol ∧ w.endCol ≤ (trimBounds g).maxCol := by
    intro w hwmem
    have hwne := hw w hwmem
    have hlpos : 0 < w.word.length := List.length_pos.mpr hwne
    have hlast : w.word.length - 1 < w.word.length := by omega
    obtain ⟨hnr, hnc, hocc, -⟩ :=
      @letter_mem_occPositions g pws hletters w hwmem _ hlast
    have hs := trimBounds_sandwich hocc
    obtain ⟨hr, hc⟩ := runLast_eq_ends (hwfw w hwmem) hwne
    rw [hr] at hnr hs
    rw [hc] at hnc hs
    omega
  have hatR : ∃ w ∈ pws, w.endRow = (trimBounds g).maxRow := by
    obtain ⟨q, hq, hqv⟩ := trimBounds_maxRow_attained hocc0
    obtain ⟨q1, q2⟩ := q
    obtain ⟨hq1, hq2, hqne⟩ := mem_occPositions.mp hq
    have hnu := hnoundef q1 q2 hq1 hq2
    rcases hcell : cellAt g q1 q2 with ch | _ | _
    · obtain ⟨w, hwmem, i, hi, hri, hci, -⟩ := hcover q1 q2 ch hcell
      refine ⟨w, hwmem, le_antisymm (hub w hwmem).2.1 ?_⟩
      have hle := (runPos_le_ends (hwfw w hwmem) hi).1
      simp only [] at hqv
      omega
    · exact absurd hcell hqne
    · exact absurd hcell hnu
  have hatC : ∃ w ∈ pws, w.endCol = (trimBounds g).maxCol := by
    obtain ⟨q, hq, hqv⟩ := trimBounds_maxCol_attained hocc0
    obtain ⟨q1, q2⟩ := q
    obtain ⟨hq1, hq2, hqne⟩ := mem_occPositions.mp hq
    have hnu := hnoundef q1 q2 hq1 hq2
    rcases hcell : cellAt g q1 q2 with ch | _ | _
    · obtain ⟨w, hwmem, i, hi, hri, hci, -⟩ := hcover q1 q2 ch hcell
      refine ⟨w, hwmem, le_antisymm (hub w hwmem).2.2.2 ?_⟩
      have hle := (runPos_le_ends (hwfw w hwmem) hi).2
      simp only [] at hqv
      omega
    · exact absurd hcell hqne
    · exact absurd hcell hnu
  rw [adjust_eq_map pws hgne htne, adjustScan_eq_trimBounds]
  have hmapne : (pws.map fun w =>
      { w with
        startRow := w.startRow - ((trimBounds g).minRow, (trimBounds g).minCol).1
        startCol := w.startCol - ((trimBounds g).minRow, (trimBounds g).minCol).2
        endRow := w.endRow - ((trimBounds g).minRow, (trimBounds g).minCol).1
        endCol := w.endCol - ((trimBounds g).minRow, (trimBounds g).minCol).2 }) ≠
      [] := by
    intro hcon
    have hlen2 := congrArg List.length hcon
    rw [List.length_map] at hlen2
    exact hne (List.length_eq_zero.mp hlen2)
  constructor
  · rw [calcMinGridSize_height_ne_nil hmapne, List.foldl_map]
    show pws.foldl (fun m w => max m (w.endRow - (trimBounds g).minRow)) 0 + 1 =
      ((trimGrid g).length : Int)
    rw [htlen]
    have hfold : pws.foldl (fun m w => max m (w.endRow - (trimBounds g).minRow)) 0 =
        (trimBounds g).maxRow - (trimBounds g).minRow :=
      foldl_max_proj_eq pws (fun w => w.endRow - (trimBounds g).minRow) _
        (by omega)
        (fun x hx => by have := (hub x hx).2.1; simp only []; omega)
        (by obtain ⟨w2, hwmem, hwv⟩ := hatR
            exact ⟨w2, hwmem, by simp only []; omega⟩)
    omega
  · rw [calcMinGridSize_width_ne_nil hmapne, List.foldl_map]
    show pws.foldl (fun m w => max m (w.endCol - (trimBounds g).minCol)) 0 + 1 =
      (gridWidth (trimGrid g) : Int)
    rw [htw]
    have hfold : pws.foldl (fun m w => max m (w.endCol - (trimBounds g).minCol)) 0 =
        (trimBounds g).maxCol - (trimBounds g).minCol :=
      foldl_max_proj_eq pws (fun w => w.endCol - (trimBounds g).minCol) _
        (by omega)
        (fun x hx => by have := (hub x hx).2.2.2; simp only []; omega)
        (by obtain ⟨w2, hwmem, hwv⟩ := hatC
            exact ⟨w2, hwmem, by simp only []; omega⟩)
    omega

/-- C6, amended: in every result `generateCrossword` returns that has at least
one placed word, **all of whose placed words are nonempty**, the
`stats.gridSize` computed by `calculateMinGridSize` over the final
(trimmed-coordinate) placed words equals the trimmed grid's actual dimensions:
height is the row count and width is the column count. (The original claim
fails when an empty word — admitted by `minWordLength = 0` — is placed: it
occupies no cell, the trimmed grid is empty, yet `calculateMinGridSize` still
reports a positive box.) -/
theorem c6_gridSize_amended {words : List Word} {options : CrosswordOptions}
    {σ : Rand} {res : CrosswordResult}
    (h : generateCrossword words options σ = Except.ok res)
    (hne : res.placedWords ≠ [])
    (hword : ∀ w ∈ res.placedWords, w.word ≠ []) :
    res.stats.gridSize.height = (res.grid.length : Int) ∧
    res.stats.gridSize.width = (gridWidth res.grid : Int) := by
  refine (@generateCrossword_ok_prop words options σ res
    (fun r => r.placedWords ≠ [] → (∀ w ∈ r.placedWords, w.word ≠ []) →
      r.stats.gridSize.height = (r.grid.length : Int) ∧
      r.stats.gridSize.width = (gridWidth r.grid : Int)) h ?_ ?_) hne hword
  · intro n σ1 res1 σ2 hatt hne1 hword1
    obtain ⟨g, pws, hwf, hpos, hgrid, hpws, -, hgs, -⟩ := attemptGeneration_ok hatt
    have hpws_ne : pws ≠ [] := by
      intro hc
      subst hc
      apply hne1
      have hl := adjust_length [] g (trimGrid g)
      rw [hpws]
      exact List.length_eq_zero.mp (by rw [hl]; rfl)
    have hword_pws : ∀ w ∈ pws, w.word ≠ [] := by
      intro w hwmem
      obtain ⟨w2, hw2, hw2w⟩ := adjust_words pws g (trimGrid g) w hwmem
      have := hword1 w2 (by rw [hpws]; exact hw2)
      rw [hw2w] at this
      exact this
    rw [hgs, hgrid, hpws]
    exact calcMinGridSize_trim_adjust hwf hpws_ne hword_pws
  · intro σ1 res1 hfb hne1 hword1
    rcases fallbackResult_ok hfb with ⟨-, hp, -⟩ |
      ⟨g, pws, hwf, hlen1, hgrid, hpws, -, -, hgs⟩
    · exact absurd hp hne1
    · have hpws_ne : pws ≠ [] := by
        intro hc
        rw [hc] at hlen1
        cases hlen1
      have hword_pws : ∀ w ∈ pws, w.word ≠ [] := by
        intro w hwmem
        obtain ⟨w2, hw2, hw2w⟩ := adjust_words pws g (trimGrid g) w hwmem
        have := hword1 w2 (by rw [hpws]; exact hw2)
        rw [hw2w] at this
        exact this
      rw [hgs, hgrid, hpws]
      exact calcMinGridSize_trim_adjust hwf hpws_ne hword_pws

/-- C6, counterexample: with `minWordLength = 0` the empty word is selected
and "placed"; the trimmed grid is empty (0 rows, width 0) while
`calculateMinGridSize` reports a 3×4 box, so the original unconditional claim
is false. -/
theorem c6_counterexample :
    generateCrossword [[]] { maxAttempts := some 1, minWordLength := some 0 }
      (fun _ => 0) = Except.ok
      { grid := []
        placedWords := [{ word := [], startRow := 3, startCol := 3
                          direction := Direction.horizontal, endRow := 3
                          endCol := 2 }]
        stats := { wordsUsed := 1, gridSize := { width := 3, height := 4 }
                   totalIntersections := 0, attempts := 1 } } ∧
    ¬(({ width := 3, height := 4 } : GridSize).height =
        (([] : Grid).length : Int) ∧
      ({ width := 3, height := 4 } : GridSize).width =
        ((gridWidth ([] : Grid)) : Int)) :=
  ⟨by with_unfolding_all rfl, by decide⟩

/-- C6, witness: the single-word run placing `"CAT"` horizontally; the
reported grid size 3×1 matches the trimmed 1×3 grid. -/
theorem c6_witness :
    ({ width := 3, height := 1 } : GridSize).height =
      (([[Cell.letter 'C', Cell.letter 'A', Cell.letter 'T']] : Grid).length : Int) ∧
    ({ width := 3, height := 1 } : GridSize).width =
      ((gridWidth ([[Cell.letter 'C', Cell.letter 'A', Cell.letter 'T']] : Grid))
        : Int) :=
  @c6_gridSize_amended [['C', 'A', 'T']]
    { wordCount := some 1, maxAttempts := some 1, maxGridSize := some 5 }
    (fun _ => 0)
    { grid := [[Cell.letter 'C', Cell.letter 'A', Cell.letter 'T']]
      placedWords := [{ word := ['C', 'A', 'T'], startRow := 0, startCol := 0
                        direction := Direction.horizontal, endRow := 0
                        endCol := 2 }]
      stats := { wordsUsed := 1, gridSize := { width := 3, height := 1 }
                 totalIntersections := 0, attempts := 1 } }
    (by with_unfolding_all rfl) (by decide) (by decide)

/-! ### Claim C10: the store model never writes the caller's array -/

theorem hset_length (h : Heap) (r : Nat) (v : List Word) :
    (hset h r v).length = h.length := List.length_set h r v

theorem hget_hset_eq {h : Heap} {r : Nat} (hr : r < h.length) (v : List Word) :
    hget (hset h r v) r = v := by
  unfold hget hset
  rw [List.getD_eq_getElem?_getD, List.getElem?_set, if_pos rfl, if_pos hr]
  rfl

theorem hget_hset_ne {h : Heap} {r q : Nat} (hqr : q ≠ r) (v : List Word) :
    hget (hset h r v) q = hget h q := by
  unfold hget hset
  rw [List.getD_eq_getElem?_getD, List.getD_eq_getElem?_getD, List.getElem?_set,
    if_neg fun e => hqr e.symm]

theorem halloc_fst_length (h : Heap) (v : List Word) :
    (halloc h v).1.length = h.length + 1 := by
  unfold halloc
  rw [List.length_append]
  rfl

theorem hget_halloc_lt {h : Heap} {q : Nat} (hq : q < h.length) (v : List Word) :
    hget (halloc h v).1 q = hget h q := by
  unfold hget halloc
  rw [List.getD_eq_getElem?_getD, List.getD_eq_getElem?_getD,
    List.getElem?_append_left hq]

theorem hget_halloc_self (h : Heap) (v : List Word) :
    hget (halloc h v).1 (halloc h v).2 = v := by
  unfold hget halloc
  rw [List.getD_eq_getElem?_getD, List.getElem?_append_right (le_refl _)]
  simp

/-- The in-place Fisher–Yates loop only writes the array behind `r`, where it
computes exactly the pure `shuffleGo`. -/
theorem shuffleGoH_spec (r : Nat) :
    ∀ (i : Nat) (h : Heap) (σ : Rand), r < h.length →
      (shuffleGoH h r i σ).1.length = h.length ∧
      (∀ q, q ≠ r → hget (shuffleGoH h r i σ).1 q = hget h q) ∧
      hget (shuffleGoH h r i σ).1 r = (shuffleGo (hget h r) i σ).1 ∧
      (shuffleGoH h r i σ).2 = (shuffleGo (hget h r) i σ).2 := by
  intro i
  induction i with
  | zero =>
    intro h σ hr
    exact ⟨rfl, fun q _ => rfl, rfl, rfl⟩
  | succ i ih =>
    intro h σ hr
    rw [shuffleGoH, shuffleGo]
    have hr2 : r < (hset h r (swapL (hget h r) (i + 1) (draw σ (i + 2)).1)).length := by
      rw [hset_length]; exact hr
    obtain ⟨l1, l2, l3, l4⟩ :=
      ih (hset h r (swapL (hget h r) (i + 1) (draw σ (i + 2)).1)) (draw σ (i + 2)).2 hr2
    refine ⟨by rw [l1, hset_length], ?_, ?_, ?_⟩
    · intro q hq
      rw [l2 q hq, hget_hset_ne hq]
    · rw [l3, hget_hset_eq hr]
    · rw [l4, hget_hset_eq hr]

/-- `shuffleArrayH` reads its argument, allocates one fresh array, writes only
that fresh array, and leaves there exactly the pure `shuffleArray` result. -/
theorem shuffleArrayH_spec {h : Heap} {r : Nat} (hr : r < h.length) (σ : Rand) :
    (shuffleArrayH h r σ).1.length = h.length + 1 ∧
    (∀ q, q < h.length → hget (shuffleArrayH h r σ).1 q = hget h q) ∧
    (shuffleArrayH h r σ).2.1 = h.length ∧
    hget (shuffleArrayH h r σ).1 (shuffleArrayH h r σ).2.1 =
      (shuffleArray (hget h r) σ).1 ∧
    (shuffleArrayH h r σ).2.2 = (shuffleArray (hget h r) σ).2 := by
  have hfr : (halloc h (hget h r)).2 < (halloc h (hget h r)).1.length := by
    rw [halloc_fst_length]
    show h.length < h.length + 1
    omega
  obtain ⟨l1, l2, l3, l4⟩ :=
    shuffleGoH_spec (halloc h (hget h r)).2 ((hget h r).length - 1)
      (halloc h (hget h r)).1 σ hfr
  have hself := hget_halloc_self h (hget h r)
  refine ⟨?_, ?_, rfl, ?_, ?_⟩
  · show (shuffleGoH (halloc h (hget h r)).1 (halloc h (hget h r)).2
      ((hget h r).length - 1) σ).1.length = h.length + 1
    rw [l1, halloc_fst_length]
  · intro q hq
    show hget (shuffleGoH (halloc h (hget h r)).1 (halloc h (hget h r)).2
      ((hget h r).length - 1) σ).1 q = hget h q
    rw [l2 q (by show q ≠ h.length; omega), hget_halloc_lt hq]
  · show hget (shuffleGoH (halloc h (hget h r)).1 (halloc h (hget h r)).2
      ((hget h r).length - 1) σ).1 (halloc h (hget h r)).2 =
      (shuffleArray (hget h r) σ).1
    rw [l3, hself]
    rfl
  · show (shuffleGoH (halloc h (hget h r)).1 (halloc h (hget h r)).2
      ((hget h r).length - 1) σ).2 = (shuffleArray (hget h r) σ).2
    rw [l4, hself]
    rfl

/-- `selectRandomWordsH` reads its argument, writes only fresh arrays, and its
returned reference holds the pure `selectRandomWords` value. -/
theorem selectRandomWordsH_spec {h : Heap} {r : Nat} (hr : r < h.length)
    (opts : CrosswordOptions) (σ : Rand) :
    h.length ≤ (selectRandomWordsH h r opts σ).1.length ∧
    (∀ q, q < h.length → hget (selectRandomWordsH h r opts σ).1 q = hget h q) ∧
    h.length ≤ (selectRandomWordsH h r opts σ).2.1 ∧
    (selectRandomWordsH h r opts σ).2.1 < (selectRandomWordsH h r opts σ).1.length ∧
    hget (selectRandomWordsH h r opts σ).1 (selectRandomWordsH h r opts σ).2.1 =
      (selectRandomWords (hget h r) opts σ).1 ∧
    (selectRandomWordsH h r opts σ).2.2 = (selectRandomWords (hget h r) opts σ).2 := by
  simp only [selectRandomWordsH, selectRandomWords]
  set v1 := (hget h r).filter (lengthOk (opts.minWordLength.getD 3)
    (opts.maxWordLength.getD (jsOrNat opts.maxGridSize 15))) with hv1
  have hr1 : (halloc h v1).2 < (halloc h v1).1.length := by
    rw [halloc_fst_length]
    show h.length < h.length + 1
    omega
  obtain ⟨s1, s2, s3, s4, s5⟩ := shuffleArrayH_spec hr1 σ
  have hval : hget (halloc h v1).1 (halloc h v1).2 = v1 := hget_halloc_self h v1
  rw [hval] at s4 s5
  refine ⟨?_, ?_, ?_, ?_, ?_, ?_⟩
  · rw [halloc_fst_length, s1, halloc_fst_length]
    omega
  · intro q hq
    rw [hget_halloc_lt (by rw [s1, halloc_fst_length]; omega) _,
      s2 q (by rw [halloc_fst_length]; omega), hget_halloc_lt hq]
  · show (halloc (shuffleArrayH (halloc h v1).1 (halloc h v1).2 σ).1 _).2 ≥ h.length
    show (shuffleArrayH (halloc h v1).1 (halloc h v1).2 σ).1.length ≥ h.length
    rw [s1, halloc_fst_length]
    omega
  · rw [halloc_fst_length]
    show (shuffleArrayH (halloc h v1).1 (halloc h v1).2 σ).1.length <
      (shuffleArrayH (halloc h v1).1 (halloc h v1).2 σ).1.length + 1
    omega
  · rw [hget_halloc_self, s4]
  · exact s5

/-- The store-passing remaining-words loop writes only the pool array and
computes exactly the pure loop. -/
theorem placeLoopH_spec (level : Level) (gridSize maxW : Nat) :
    ∀ fuel (h : Heap) (availRef : Nat) (g : Grid) (pws : List PlacedWord)
      (wp cf : Nat) (σ : Rand), availRef < h.length →
      (placeLoopH level gridSize maxW fuel h availRef g pws wp cf σ).2.1.length =
        h.length ∧
      (∀ q, q ≠ availRef →
        hget (placeLoopH level gridSize maxW fuel h availRef g pws wp cf σ).2.1 q =
          hget h q) ∧
      (placeLoopH level gridSize maxW fuel h availRef g pws wp cf σ).1 =
        Except.map (fun s => (s.grid, s.placedWords))
          (placeLoop level gridSize maxW fuel
            { grid := g, placedWords := pws, availableWords := hget h availRef
              wordsPlaced := wp, consecutiveFailures := cf } σ).1 ∧
      (placeLoopH level gridSize maxW fuel h availRef g pws wp cf σ).2.2 =
        (placeLoop level gridSize maxW fuel
          { grid := g, placedWords := pws, availableWords := hget h availRef
            wordsPlaced := wp, consecutiveFailures := cf } σ).2 := by
  intro fuel
  induction fuel with
  | zero =>
    intro h availRef g pws wp cf σ hr
    rw [placeLoopH, placeLoop]
    exact ⟨rfl, fun q _ => rfl, rfl, rfl⟩
  | succ fuel ih =>
    intro h availRef g pws wp cf σ hr
    rw [placeLoopH, placeLoop]
    simp only []
    by_cases hguard : wp < maxW ∧ 0 < (hget h availRef).length ∧ cf < 20
    · rw [if_pos hguard, if_pos hguard]
      rcases htry : tryPlaceWord g pws gridSize
          ((hget h availRef).getD (draw σ (hget h availRef).length).1 []) level
          (draw σ (hget h availRef).length).2 with ⟨r0, σ2⟩
      rcases r0 with u | o
      · exact ⟨rfl, fun q _ => rfl, rfl, rfl⟩
      · rcases o with _ | gp
        · simp only []
          by_cases h5 : 5 ≤ cf + 1
          · rw [if_pos h5, if_pos h5]
            have hr2 : availRef < (hset h availRef ((hget h availRef).eraseIdx
                (draw σ (hget h availRef).length).1)).length := by
              rw [hset_length]; exact hr
            obtain ⟨i1, i2, i3, i4⟩ := ih (hset h availRef ((hget h availRef).eraseIdx
                (draw σ (hget h availRef).length).1)) availRef g pws wp 0 σ2 hr2
            rw [hget_hset_eq hr] at i3 i4
            refine ⟨by rw [i1, hset_length], ?_, i3, i4⟩
            intro q hq
            rw [i2 q hq, hget_hset_ne hq]
          · rw [if_neg h5, if_neg h5]
            exact ih h availRef g pws wp (cf + 1) σ2 hr
        · simp only []
          have hr2 : availRef < (hset h availRef ((hget h availRef).eraseIdx
              (draw σ (hget h availRef).length).1)).length := by
            rw [hset_length]; exact hr
          obtain ⟨i1, i2, i3, i4⟩ := ih (hset h availRef ((hget h availRef).eraseIdx
              (draw σ (hget h availRef).length).1)) availRef gp.1 (pws ++ [gp.2])
              (wp + 1) 0 σ2 hr2
          rw [hget_hset_eq hr] at i3 i4
          refine ⟨by rw [i1, hset_length], ?_, i3, i4⟩
          intro q hq
          rw [i2 q hq, hget_hset_ne hq]
    · rw [if_neg hguard, if_neg hguard]
      exact ⟨rfl, fun q _ => rfl, rfl, rfl⟩

/-- A single store-passing attempt reads the caller's array, writes only
arrays allocated during the call, and computes exactly the pure attempt. -/
theorem attemptGenerationH_spec {h : Heap} {r : Nat} (hr : r < h.length)
    (cfg : Config) (n : Nat) (σ : Rand) :
    h.length ≤ (attemptGenerationH h r cfg n σ).2.1.length ∧
    (∀ q, q < h.length → hget (attemptGenerationH h r cfg n σ).2.1 q = hget h q) ∧
    (attemptGenerationH h r cfg n σ).1 = (attemptGeneration (hget h r) cfg n σ).1 ∧
    (attemptGenerationH h r cfg n σ).2.2 =
      (attemptGeneration (hget h r) cfg n σ).2 := by
  obtain ⟨a1, a2, a3, a4, a5, a6⟩ := selectRandomWordsH_spec hr cfg.toOptions σ
  obtain ⟨b1, b2, b3, b4, b5⟩ :=
    shuffleArrayH_spec a4 (selectRandomWordsH h r cfg.toOptions σ).2.2
  rw [a5] at b4 b5
  simp only [attemptGenerationH, attemptGeneration, placeRemainingWords]
  rw [← a6, ← b4, ← b5]
  rcases hsh : hget (shuffleArrayH (selectRandomWordsH h r cfg.toOptions σ).1
      (selectRandomWordsH h r cfg.toOptions σ).2.1
      (selectRandomWordsH h r cfg.toOptions σ).2.2).1
      (shuffleArrayH (selectRandomWordsH h r cfg.toOptions σ).1
        (selectRandomWordsH h r cfg.toOptions σ).2.1
        (selectRandomWordsH h r cfg.toOptions σ).2.2).2.1 with _ | ⟨fw, rest⟩
  · simp only []
    refine ⟨by omega, ?_, by trivial, by trivial⟩
    intro q hq
    rw [b2 q (by omega), a2 q hq]
  · simp only []
    rcases hpf : placeFirstWord cfg (createEmptyGrid cfg.maxGridSize) fw
        (shuffleArrayH (selectRandomWordsH h r cfg.toOptions σ).1
          (selectRandomWordsH h r cfg.toOptions σ).2.1
          (selectRandomWordsH h r cfg.toOptions σ).2.2).2.2 with ⟨e1, σ3⟩
    have hreflt : (shuffleArrayH (selectRandomWordsH h r cfg.toOptions σ).1
        (selectRandomWordsH h r cfg.toOptions σ).2.1
        (selectRandomWordsH h r cfg.toOptions σ).2.2).2.1 <
        (shuffleArrayH (selectRandomWordsH h r cfg.toOptions σ).1
          (selectRandomWordsH h r cfg.toOptions σ).2.1
          (selectRandomWordsH h r cfg.toOptions σ).2.2).1.length := by
      rw [b1, b3]
      omega
    rcases e1 with u | gp
    · simp only []
      refine ⟨?_, ?_, by trivial, by trivial⟩
      · rw [hset_length]
        omega
      · intro q hq
        rw [hget_hset_ne (by omega), b2 q (by omega), a2 q hq]
    · simp only []
      have havail := hget_hset_eq hreflt rest
      rw [havail]
      have hreflt2 : (shuffleArrayH (selectRandomWordsH h r cfg.toOptions σ).1
          (selectRandomWordsH h r cfg.toOptions σ).2.1
          (selectRandomWordsH h r cfg.toOptions σ).2.2).2.1 <
          (hset (shuffleArrayH (selectRandomWordsH h r cfg.toOptions σ).1
            (selectRandomWordsH h r cfg.toOptions σ).2.1
            (selectRandomWordsH h r cfg.toOptions σ).2.2).1
            (shuffleArrayH (selectRandomWordsH h r cfg.toOptions σ).1
              (selectRandomWordsH h r cfg.toOptions σ).2.1
              (selectRandomWordsH h r cfg.toOptions σ).2.2).2.1 rest).length := by
        rw [hset_length]
        exact hreflt
      obtain ⟨c1, c2, c3, c4⟩ := placeLoopH_spec cfg.validationLevel cfg.maxGridSize
        (min (cfg.wordCount - 1) rest.length)
        (loopFuel { grid := gp.1, placedWords := [gp.2], availableWords := rest
                    wordsPlaced := 0, consecutiveFailures := 0 })
        (hset (shuffleArrayH (selectRandomWordsH h r cfg.toOptions σ).1
          (selectRandomWordsH h r cfg.toOptions σ).2.1
          (selectRandomWordsH h r cfg.toOptions σ).2.2).1
          (shuffleArrayH (selectRandomWordsH h r cfg.toOptions σ).1
            (selectRandomWordsH h r cfg.toOptions σ).2.1
            (selectRandomWordsH h r cfg.toOptions σ).2.2).2.1 rest)
        (shuffleArrayH (selectRandomWordsH h r cfg.toOptions σ).1
          (selectRandomWordsH h r cfg.toOptions σ).2.1
          (selectRandomWordsH h r cfg.toOptions σ).2.2).2.1
        gp.1 [gp.2] 0 0 σ3 hreflt2
      rw [havail] at c3 c4
      rcases hlp : placeLoopH cfg.validationLevel cfg.maxGridSize
          (min (cfg.wordCount - 1) rest.length)
          (loopFuel { grid := gp.1, placedWords := [gp.2], availableWords := rest
                      wordsPlaced := 0, consecutiveFailures := 0 })
          (hset (shuffleArrayH (selectRandomWordsH h r cfg.toOptions σ).1
            (selectRandomWordsH h r cfg.toOptions σ).2.1
            (selectRandomWordsH h r cfg.toOptions σ).2.2).1
            (shuffleArrayH (selectRandomWordsH h r cfg.toOptions σ).1
              (selectRandomWordsH h r cfg.toOptions σ).2.1
              (selectRandomWordsH h r cfg.toOptions σ).2.2).2.1 rest)
          (shuffleArrayH (selectRandomWordsH h r cfg.toOptions σ).1
            (selectRandomWordsH h r cfg.toOptions σ).2.1
            (selectRandomWordsH h r cfg.toOptions σ).2.2).2.1
          gp.1 [gp.2] 0 0 σ3 with ⟨eL, h4, σ4⟩
      rw [hlp] at c1 c2 c3 c4
      simp only [] at c1 c2 c3 c4
      rcases hpl : placeLoop cfg.validationLevel cfg.maxGridSize
          (min (cfg.wordCount - 1) rest.length)
          (loopFuel { grid := gp.1, placedWords := [gp.2], availableWords := rest
                      wordsPlaced := 0, consecutiveFailures := 0 })
          { grid := gp.1, placedWords := [gp.2], availableWords := rest
            wordsPlaced := 0, consecutiveFailures := 0 } σ3 with ⟨eP, σP⟩
      rw [hpl] at c3 c4
      simp only [] at c3 c4
      rcases eP with u2 | s1
      · rw [c3]
        simp only [Except.map]
        refine ⟨?_, ?_, by trivial, c4⟩
        · rw [c1, hset_length]
          omega
        · intro q hq
          rw [c2 q (by omega), hget_hset_ne (by omega), b2 q (by omega), a2 q hq]
      · rw [c3]
        simp only [Except.map]
        refine ⟨?_, ?_, by trivial, c4⟩
        · rw [c1, hset_length]
          omega
        · intro q hq
          rw [c2 q (by omega), hget_hset_ne (by omega), b2 q (by omega), a2 q hq]

/-- The store-passing optimizer loop reads the caller's array, writes only
call-allocated arrays, and computes the pure optimizer loop. -/
theorem optimizerLoopH_spec (wordsRef : Nat) (cfg : Config) :
    ∀ (k att : Nat) (best : Option CrosswordResult) (bestScore : ℚ) (h : Heap)
      (σ : Rand), wordsRef < h.length →
      h.length ≤ (optimizerLoopH wordsRef cfg k att best bestScore h σ).2.1.length ∧
      (∀ q, q < h.length →
        hget (optimizerLoopH wordsRef cfg k att best bestScore h σ).2.1 q =
          hget h q) ∧
      (optimizerLoopH wordsRef cfg k att best bestScore h σ).1 =
        (optimizerLoop (hget h wordsRef) cfg k att best bestScore σ).1 ∧
      (optimizerLoopH wordsRef cfg k att best bestScore h σ).2.2 =
        (optimizerLoop (hget h wordsRef) cfg k att best bestScore σ).2 := by
  intro k
  induction k with
  | zero =>
    intro att best bestScore h σ hr
    rw [optimizerLoopH, optimizerLoop]
    exact ⟨le_refl _, fun q _ => rfl, rfl, rfl⟩
  | succ k ih =>
    intro att best bestScore h σ hr
    rw [optimizerLoopH, optimizerLoop]
    obtain ⟨d1, d2, d3, d4⟩ := attemptGenerationH_spec hr cfg att σ
    rcases hat : attemptGenerationH h wordsRef cfg att σ with ⟨eA, h2, σ2⟩
    rw [hat] at d1 d2 d3 d4
    simp only [] at d1 d2 d3 d4
    rcases hatp : attemptGeneration (hget h wordsRef) cfg att σ with ⟨eAp, σ2p⟩
    rw [hatp] at d3 d4
    simp only [] at d3 d4
    subst d3
    subst d4
    rcases eA with u | res
    · simp only []
      have hr2 : wordsRef < h2.length := by omega
      obtain ⟨i1, i2, i3, i4⟩ := ih (att + 1) best bestScore h2 σ2 hr2
      rw [d2 wordsRef hr] at i3 i4
      exact ⟨by omega, fun q hq => by rw [i2 q (by omega), d2 q hq], i3, i4⟩
    · simp only []
      by_cases hsc : bestScore < calculateScore res
      · rw [if_pos hsc, if_pos hsc]
        by_cases hwc : cfg.wordCount ≤ res.placedWords.length
        · rw [if_pos hwc, if_pos hwc]
          exact ⟨d1, fun q hq => d2 q hq, rfl, rfl⟩
        · rw [if_neg hwc, if_neg hwc]
          have hr2 : wordsRef < h2.length := by omega
          obtain ⟨i1, i2, i3, i4⟩ :=
            ih (att + 1) (some res) (calculateScore res) h2 σ2 hr2
          rw [d2 wordsRef hr] at i3 i4
          exact ⟨by omega, fun q hq => by rw [i2 q (by omega), d2 q hq], i3, i4⟩
      · rw [if_neg hsc, if_neg hsc]
        have hr2 : wordsRef < h2.length := by omega
        obtain ⟨i1, i2, i3, i4⟩ := ih (att + 1) best bestScore h2 σ2 hr2
        rw [d2 wordsRef hr] at i3 i4
        exact ⟨by omega, fun q hq => by rw [i2 q (by omega), d2 q hq], i3, i4⟩

/-- The store-passing fallback reads the caller's array, writes only
call-allocated arrays, and computes the pure fallback. -/
theorem fallbackResultH_spec {h : Heap} {r : Nat} (hr : r < h.length)
    (cfg : Config) (σ : Rand) :
    (∀ q, q < h.length → hget (fallbackResultH h r cfg σ).2 q = hget h q) ∧
    h.length ≤ (fallbackResultH h r cfg σ).2.length ∧
    (fallbackResultH h r cfg σ).1 = fallbackResult (hget h r) cfg σ := by
  obtain ⟨a1, a2, a3, a4, a5, a6⟩ :=
    selectRandomWordsH_spec hr { cfg.toOptions with wordCount := some 1 } σ
  simp only [fallbackResultH, fallbackResult]
  rw [← a5]
  rcases hsel : hget (selectRandomWordsH h r
        { cfg.toOptions with wordCount := some 1 } σ).1
      (selectRandomWordsH h r { cfg.toOptions with wordCount := some 1 } σ).2.1
      with _ | ⟨w, ws⟩
  · simp only []
    exact ⟨fun q hq => a2 q hq, a1, by trivial⟩
  · simp only []
    rcases hpw : placeWord (createEmptyGrid (min (jsOrNat
        (((w :: ws).head?).map List.length) 5) cfg.maxGridSize)) w 0 0
        Direction.horizontal with u | gp
    · simp only []
      exact ⟨fun q hq => a2 q hq, a1, by trivial⟩
    · simp only []
      exact ⟨fun q hq => a2 q hq, a1, by trivial⟩

/-- `generateCrosswordH` leaves the caller's array untouched and returns the
pure `generateCrossword` result. -/
theorem generateCrosswordH_spec {h : Heap} {r : Nat} (hr : r < h.length)
    (options : CrosswordOptions) (σ : Rand) :
    hget (generateCrosswordH h r options σ).2 r = hget h r ∧
    (generateCrosswordH h r options σ).1 =
      generateCrossword (hget h r) options σ := by
  obtain ⟨o1, o2, o3, o4⟩ := optimizerLoopH_spec r (resolveConfig options)
    (resolveConfig options).maxAttempts 0 none 0 h σ hr
  simp only [generateCrosswordH, generateCrossword]
  rcases hopt : optimizerLoopH r (resolveConfig options)
      (resolveConfig options).maxAttempts 0 none 0 h σ with ⟨ob, h2, σ2⟩
  rw [hopt] at o1 o2 o3 o4
  simp only [] at o1 o2 o3 o4
  rcases hoptp : optimizerLoop (hget h r) (resolveConfig options)
      (resolveConfig options).maxAttempts 0 none 0 σ with ⟨obp, σ2p⟩
  rw [hoptp] at o3 o4
  simp only [] at o3 o4
  subst o3
  subst o4
  rcases ob with _ | res
  · simp only []
    have hr2 : r < h2.length := by omega
    obtain ⟨f1, f2, f3⟩ := fallbackResultH_spec hr2 (resolveConfig options) σ2
    rw [o2 r hr] at f3
    exact ⟨by rw [f1 r (by omega), o2 r hr], f3⟩
  · simp only []
    exact ⟨o2 r hr, by trivial⟩

/-- C10: `generateCrossword` never mutates its `words` argument. In the store
model — where word arrays live on a heap, `filter`/spread/`slice` allocate
fresh arrays and `shift`/`splice`/swap mutate in place — a full run starting
from any heap leaves the array behind the caller's reference with the same
length and the same elements in the same order, and computes exactly the pure
`generateCrossword` of that array's value. -/
theorem c10_no_mutation {h : Heap} {wordsRef : Nat} (hr : wordsRef < h.length)
    (options : CrosswordOptions) (σ : Rand) :
    hget (generateCrosswordH h wordsRef options σ).2 wordsRef = hget h wordsRef ∧
    (generateCrosswordH h wordsRef options σ).1 =
      generateCrossword (hget h wordsRef) options σ :=
  generateCrosswordH_spec hr options σ

/-- C10, witness: a one-array heap holding `["CAT"]`. -/
theorem c10_witness :
    hget (generateCrosswordH [[['C', 'A', 'T']]] 0
      { wordCount := some 1, maxAttempts := some 1, maxGridSize := some 5 }
      (fun _ => 0)).2 0 = hget [[['C', 'A', 'T']]] 0 ∧
    (generateCrosswordH [[['C', 'A', 'T']]] 0
      { wordCount := some 1, maxAttempts := some 1, maxGridSize := some 5 }
      (fun _ => 0)).1 =
      generateCrossword (hget [[['C', 'A', 'T']]] 0)
        { wordCount := some 1, maxAttempts := some 1, maxGridSize := some 5 }
        (fun _ => 0) :=
  @c10_no_mutation [[['C', 'A', 'T']]] 0 (by decide)
    { wordCount := some 1, maxAttempts := some 1, maxGridSize := some 5 }
    (fun _ => 0)

end Crossword
